import Mathlib

/-!
Verification of the EasyGUI widget-tree management engine.

This development gives a shallow embedding of the core data structures and
operations of the EasyGUI library (linked-list manager, widget z-order
policy, widget lifecycle, invalidation, focus handling and the dialog
registry) and proves the key invariants and functional-correctness
properties about them.

Sources embedded here:
* `gui_linkedlist.c`  (src/unnamed/part_000) — generic doubly linked list
  and the widget-level z-order move operations;
* `gui_widget.c` / `gui_input.c` (src/src/gui/gui_input.c) — widget
  lifecycle (create / remove / sweep), invalidation and focus;
* `gui_dialog.c`  (src/unnamed/part_001) — dialog registry and dismissal.

Machine integers are modelled as `Nat`/`Int` with explicit `% 2^w`
reductions where the C code can overflow or truncate.
-/

namespace EasyGUI

/-! ## Widget records for the sibling-list z-order policy

`gui_linkedlist.c` orders widgets inside one sibling list by three groups
(normal widgets, widgets allowing children, dialog-base widgets) and by
z-index inside a group.  The move functions only inspect three attributes
of a widget: the dialog-base capability, the allow-children capability and
the (signed 32-bit) z-index.  The two capability predicates
`guii_widget_isdialogbase` / `guii_widget_allowchildren` are defined in a
header that is not part of this repository; following the spec (§3, §6)
they read independent capability flags of the widget, so they are modelled
as independent boolean fields. -/

structure GWidget where
  dialogbase : Bool
  allowchildren : Bool
  zindex : Int
deriving DecidableEq, Repr

/-- Modulus of the C `uint32_t` counter used by the move loops. -/
def u32mod : Nat := 4294967296

/-- Loop body of `gui_linkedlist_widgetmovetobottom` (src/unnamed/part_000,
lines 599–632).  The widget `h` is represented as a zipper position in its
sibling list: `rb` is the reversed list of earlier siblings
(`h->list.prev` is `rb.head?`) and `af` the list of later siblings
(`h->list.next` is `af.head?`).  A successful `gui_linkedlist_widgetmovedown`
swaps `h` with its next sibling, i.e. moves that sibling onto `rb`; inside
the loop the next sibling exists, so the move never fails and the
`break`-on-failure branches are unreachable.  Returns the final counter and
the final zipper. -/
def mtbAux (h : GWidget) : List GWidget → List GWidget → Nat →
    Nat × List GWidget × List GWidget
  | rb, [], cnt => (cnt, rb, [])
  | rb, n :: af, cnt =>
    if h.dialogbase then
      mtbAux h (n :: rb) af ((cnt + 1) % u32mod)
    else if h.allowchildren then
      if !n.dialogbase then
        if n.zindex ≤ h.zindex then
          mtbAux h (n :: rb) af ((cnt + 1) % u32mod)
        else (cnt, rb, n :: af)
      else (cnt, rb, n :: af)
    else
      if !n.allowchildren then
        if n.zindex ≤ h.zindex then
          mtbAux h (n :: rb) af ((cnt + 1) % u32mod)
        else (cnt, rb, n :: af)
      else (cnt, rb, n :: af)

/-- `gui_linkedlist_widgetmovetobottom` (src/unnamed/part_000, lines
593–634).  `cnt` starts at `0`; the `uint8_t` return value is the counter
truncated to a byte.  Result: (return value, final reversed-before list,
final after list). -/
def gui_linkedlist_widgetmovetobottom (rb : List GWidget) (h : GWidget)
    (af : List GWidget) : Nat × List GWidget × List GWidget :=
  let r := mtbAux h rb af 0
  (r.1 % 256, r.2.1, r.2.2)

/-- Loop body of `gui_linkedlist_widgetmovetotop` (src/unnamed/part_000,
lines 649–682), in the same zipper representation.  A successful
`gui_linkedlist_widgetmoveup` swaps `h` with its previous sibling, i.e.
moves the head of `rb` onto `af`. -/
def mttAux (h : GWidget) : List GWidget → List GWidget → Nat →
    Nat × List GWidget × List GWidget
  | [], af, cnt => (cnt, [], af)
  | p :: rb, af, cnt =>
    if h.dialogbase then
      if p.dialogbase then
        mttAux h rb (p :: af) ((cnt + 1) % u32mod)
      else (cnt, p :: rb, af)
    else if h.allowchildren then
      if p.allowchildren then
        if h.zindex ≤ p.zindex then
          mttAux h rb (p :: af) ((cnt + 1) % u32mod)
        else (cnt, p :: rb, af)
      else (cnt, p :: rb, af)
    else
      if h.zindex ≤ p.zindex then
        mttAux h rb (p :: af) ((cnt + 1) % u32mod)
      else (cnt, p :: rb, af)

/-- `gui_linkedlist_widgetmovetotop` (src/unnamed/part_000, lines 643–684).
In the C source the local counter `cnt` is declared `uint32_t cnt;` and is
never initialised: when `h->list.prev == NULL` the function returns the
literal `0`, but on every other path the returned count is built on top of
the indeterminate initial value of `cnt`.  That initial value is made
explicit here as the extra argument `c0`.  The `uint8_t` return value is
the counter truncated to a byte. -/
def gui_linkedlist_widgetmovetotop (c0 : Nat) (rb : List GWidget)
    (h : GWidget) (af : List GWidget) : Nat × List GWidget × List GWidget :=
  match rb with
  | [] => (0, [], af)
  | _ :: _ =>
    let r := mttAux h rb af c0
    (r.1 % 256, r.2.1, r.2.2)

/-- Rebuild the full sibling list from a move result (zipper to list). -/
def assemble (h : GWidget) (r : Nat × List GWidget × List GWidget) :
    List GWidget :=
  r.2.1.reverse ++ h :: r.2.2

/-- `gui_linkedlist_widgetadd` (src/unnamed/part_000, lines 458–467):
append the new widget at the tail of the sibling list
(`gui_linkedlist_add_gen`), then `gui_linkedlist_widgetmovetotop` and
`gui_linkedlist_widgetmovetobottom` re-settle it into its group/z-order
position.  `c0` is the indeterminate initial counter of the move-to-top
call (it does not influence the resulting list). -/
def gui_linkedlist_widgetadd (l : List GWidget) (h : GWidget) (c0 : Nat) :
    List GWidget :=
  let r1 := gui_linkedlist_widgetmovetotop c0 l.reverse h []
  let r2 := gui_linkedlist_widgetmovetobottom r1.2.1 h r1.2.2
  assemble h r2

/-! ## The z-order ordering property (claim C1)

Group of a widget: `0` for plain widgets, `1` for container-capable
widgets, `2` for dialog-base widgets, in stacking order (comment at
src/unnamed/part_000, lines 578–584). -/

/-- Stacking group of a widget. -/
def ggroup (w : GWidget) : Nat :=
  if w.dialogbase then 2 else if w.allowchildren then 1 else 0

/-- Ordering requirement on one adjacent sibling pair, exactly as claimed:
a dialog-base node never precedes a non-dialog-base node; among
non-dialog-base nodes a container-capable node never precedes a plain
node; inside one group z-indices are non-decreasing. -/
def ordPair (a b : GWidget) : Prop :=
  (a.dialogbase → b.dialogbase) ∧
  (¬a.dialogbase → ¬b.dialogbase → a.allowchildren → b.allowchildren) ∧
  (ggroup a = ggroup b → a.zindex ≤ b.zindex)

instance (a b : GWidget) : Decidable (ordPair a b) :=
  inferInstanceAs (Decidable (_ ∧ _ ∧ _))

/-- The claimed ordering invariant of a whole sibling list. -/
def orderOk (l : List GWidget) : Prop :=
  l.Chain' ordPair

instance (l : List GWidget) : Decidable (orderOk l) :=
  inferInstanceAs (Decidable (l.Chain' ordPair))

/-- Sibling lists reachable by widget creations and move-to-top /
move-to-bottom calls.  A creation (`guii_widget_create`,
src/src/gui/gui_input.c lines 1068–1157) zeroes the widget memory, so a
newly created widget always has z-index `0`; its capability flags come
from the (externally supplied) type descriptor, constrained only by the
parameter `P`.  The move constructors act on an arbitrary member of the
list, presented as a zipper `rb.reverse ++ h :: af`. -/
inductive ReachW (P : GWidget → Prop) : List GWidget → Prop where
  | nil : ReachW P []
  | create (w : GWidget) (c0 : Nat) (l : List GWidget) (hw : P w)
      (hz : w.zindex = 0) (hl : ReachW P l) :
      ReachW P (gui_linkedlist_widgetadd l w c0)
  | top (h : GWidget) (c0 : Nat) (rb af : List GWidget)
      (hr : ReachW P (rb.reverse ++ h :: af)) :
      ReachW P (assemble h (gui_linkedlist_widgetmovetotop c0 rb h af))
  | bottom (h : GWidget) (rb af : List GWidget)
      (hr : ReachW P (rb.reverse ++ h :: af)) :
      ReachW P (assemble h (gui_linkedlist_widgetmovetobottom rb h af))

/-- Group monotonicity along the sibling list: every widget's stacking
group is at most its successor's. -/
def gmono (l : List GWidget) : Prop :=
  l.Chain' (fun a b => ggroup a ≤ ggroup b)

/-- Invariant maintained by the reachable states of the (amended) ordering
claim: groups are monotone, every widget still carries the creation-time
z-index `0`, and every dialog-base widget allows children. -/
def invW (l : List GWidget) : Prop :=
  gmono l ∧ (∀ w ∈ l, w.zindex = 0) ∧
    (∀ w ∈ l, w.dialogbase = true → w.allowchildren = true)

lemma movetotop_snd (c0 : Nat) (rb : List GWidget) (h : GWidget)
    (af : List GWidget) :
    (gui_linkedlist_widgetmovetotop c0 rb h af).2 = (mttAux h rb af c0).2 := by
  cases rb <;> rfl

lemma movetobottom_snd (rb : List GWidget) (h : GWidget)
    (af : List GWidget) :
    (gui_linkedlist_widgetmovetobottom rb h af).2 = (mtbAux h rb af 0).2 := rfl

lemma gmono_mid {xs ys : List GWidget} {a b : GWidget}
    (h : gmono (xs ++ a :: b :: ys)) : ggroup a ≤ ggroup b := by
  unfold gmono at h
  rw [List.chain'_append] at h
  exact (List.chain'_cons.mp h.2.1).1

lemma gmono_swap {xs ys : List GWidget} {a b : GWidget}
    (hab : ggroup a = ggroup b) (h : gmono (xs ++ a :: b :: ys)) :
    gmono (xs ++ b :: a :: ys) := by
  unfold gmono at h ⊢
  rw [List.chain'_append] at h ⊢
  obtain ⟨h1, h2, h3⟩ := h
  rw [List.chain'_cons] at h2
  refine ⟨h1, ?_, ?_⟩
  · rw [List.chain'_cons]
    refine ⟨le_of_eq hab.symm, ?_⟩
    cases ys with
    | nil => simp
    | cons y t =>
      rw [List.chain'_cons] at h2 ⊢
      exact ⟨hab ▸ h2.2.1, h2.2.2⟩
  · intro x hx y hy
    simp only [List.head?_cons, Option.mem_def, Option.some_inj] at hy
    subst hy
    have hxa := h3 x hx a (by simp)
    omega

lemma mem_swap {xs ys : List GWidget} {a b w : GWidget} :
    w ∈ xs ++ b :: a :: ys ↔ w ∈ xs ++ a :: b :: ys := by
  simp only [List.mem_append, List.mem_cons]
  tauto

lemma invW_swap {xs ys : List GWidget} {a b : GWidget}
    (hab : ggroup a = ggroup b) (h : invW (xs ++ a :: b :: ys)) :
    invW (xs ++ b :: a :: ys) := by
  obtain ⟨hg, hz, hd⟩ := h
  exact ⟨gmono_swap hab hg, fun w hw => hz w (mem_swap.mp hw),
    fun w hw => hd w (mem_swap.mp hw)⟩

lemma ggroup_dialog {w : GWidget} (h : w.dialogbase = true) : ggroup w = 2 := by
  simp [ggroup, h]

lemma ggroup_cont {w : GWidget} (h1 : w.dialogbase = false)
    (h2 : w.allowchildren = true) : ggroup w = 1 := by
  simp [ggroup, h1, h2]

lemma ggroup_plain {w : GWidget} (h1 : w.dialogbase = false)
    (h2 : w.allowchildren = false) : ggroup w = 0 := by
  simp [ggroup, h1, h2]

lemma ggroup_cases (w : GWidget) :
    (w.dialogbase = true ∧ ggroup w = 2) ∨
    (w.dialogbase = false ∧ w.allowchildren = true ∧ ggroup w = 1) ∨
    (w.dialogbase = false ∧ w.allowchildren = false ∧ ggroup w = 0) := by
  rcases hd : w.dialogbase with _ | _ <;>
    rcases hc : w.allowchildren with _ | _ <;> simp [ggroup, hd, hc]

/-- A move-to-top loop keeps the list invariant: every step of
`gui_linkedlist_widgetmovetotop` swaps the widget with a previous sibling
of the same stacking group. -/
lemma mttAux_inv (h : GWidget) :
    ∀ (rb af : List GWidget) (cnt : Nat), invW (rb.reverse ++ h :: af) →
      invW (assemble h (mttAux h rb af cnt)) := by
  intro rb
  induction rb with
  | nil =>
    intro af cnt hi
    simpa [mttAux, assemble] using hi
  | cons p rb ih =>
    intro af cnt hi
    have hin : invW (rb.reverse ++ p :: h :: af) := by
      simpa [List.append_assoc] using hi
    have hmid : ggroup p ≤ ggroup h := gmono_mid hin.1
    have hstep : invW (rb.reverse ++ h :: p :: af) →
        invW (assemble h (mttAux h rb (p :: af) ((cnt + 1) % u32mod))) :=
      fun hx => ih (p :: af) ((cnt + 1) % u32mod) hx
    have hswap : ggroup p = ggroup h → invW (rb.reverse ++ h :: p :: af) :=
      fun he => invW_swap he hin
    have hstop : invW (assemble h (cnt, p :: rb, af)) := by
      simpa [assemble, List.append_assoc] using hi
    simp only [mttAux]
    by_cases hd : h.dialogbase = true
    · simp only [hd, if_true]
      by_cases hpd : p.dialogbase = true
      · simp only [hpd, if_true]
        exact hstep (hswap (by rw [ggroup_dialog hpd, ggroup_dialog hd]))
      · simp only [Bool.not_eq_true] at hpd
        simp only [hpd, Bool.false_eq_true, if_false]
        exact hstop
    · simp only [Bool.not_eq_true] at hd
      simp only [hd, Bool.false_eq_true, if_false]
      by_cases hc : h.allowchildren = true
      · simp only [hc, if_true]
        by_cases hpc : p.allowchildren = true
        · simp only [hpc, if_true]
          by_cases hzz : h.zindex ≤ p.zindex
          · simp only [hzz, if_true]
            refine hstep (hswap ?_)
            have hpd : p.dialogbase = false := by
              rcases hb : p.dialogbase with _ | _
              · rfl
              · rw [ggroup_dialog hb, ggroup_cont hd hc] at hmid; omega
            rw [ggroup_cont hpd hpc, ggroup_cont hd hc]
          · simp only [hzz, if_false]
            exact hstop
        · simp only [Bool.not_eq_true] at hpc
          simp only [hpc, Bool.false_eq_true, if_false]
          exact hstop
      · simp only [Bool.not_eq_true] at hc
        simp only [hc, Bool.false_eq_true, if_false]
        by_cases hzz : h.zindex ≤ p.zindex
        · simp only [hzz, if_true]
          refine hstep (hswap ?_)
          have h0 : ggroup h = 0 := ggroup_plain hd hc
          omega
        · simp only [hzz, if_false]
          exact hstop

/-- A move-to-bottom loop keeps the list invariant, provided every
dialog-base widget in the list allows children (the `invW` side
condition): every step then swaps the widget with a next sibling of the
same stacking group. -/
lemma mtbAux_inv (h : GWidget) :
    ∀ (af rb : List GWidget) (cnt : Nat), invW (rb.reverse ++ h :: af) →
      invW (assemble h (mtbAux h rb af cnt)) := by
  intro af
  induction af with
  | nil =>
    intro rb cnt hi
    simpa [mtbAux, assemble] using hi
  | cons n af ih =>
    intro rb cnt hi
    have hmid : ggroup h ≤ ggroup n := gmono_mid hi.1
    have hstep : invW (rb.reverse ++ n :: h :: af) →
        invW (assemble h (mtbAux h (n :: rb) af ((cnt + 1) % u32mod))) := by
      intro hx
      have := ih (n :: rb) ((cnt + 1) % u32mod) (by simpa [List.append_assoc] using hx)
      simpa using this
    have hswap : ggroup h = ggroup n → invW (rb.reverse ++ n :: h :: af) :=
      fun he => invW_swap he hi
    have hstop : invW (assemble h (cnt, rb, n :: af)) := by
      simpa [assemble] using hi
    simp only [mtbAux]
    by_cases hd : h.dialogbase = true
    · simp only [hd, if_true]
      refine hstep (hswap ?_)
      have hnd : n.dialogbase = true := by
        rcases ggroup_cases n with ⟨h1, _⟩ | ⟨_, _, h3⟩ | ⟨_, _, h3⟩
        · exact h1
        · rw [ggroup_dialog hd, h3] at hmid; exact absurd hmid (by decide)
        · rw [ggroup_dialog hd, h3] at hmid; exact absurd hmid (by decide)
      rw [ggroup_dialog hd, ggroup_dialog hnd]
    · simp only [Bool.not_eq_true] at hd
      simp only [hd, Bool.false_eq_true, if_false]
      by_cases hc : h.allowchildren = true
      · simp only [hc, if_true]
        by_cases hnd : n.dialogbase = true
        · simp only [hnd, Bool.not_true, Bool.false_eq_true, if_false]
          exact hstop
        · simp only [Bool.not_eq_true] at hnd
          simp only [hnd, Bool.not_false, if_true]
          by_cases hzz : n.zindex ≤ h.zindex
          · simp only [hzz, if_true]
            refine hstep (hswap ?_)
            have hnc : n.allowchildren = true := by
              rcases hb : n.allowchildren with _ | _
              · exfalso
                rw [ggroup_cont hd hc, ggroup_plain hnd hb] at hmid; omega
              · rfl
            rw [ggroup_cont hd hc, ggroup_cont hnd hnc]
          · simp only [hzz, if_false]
            exact hstop
      · simp only [Bool.not_eq_true] at hc
        simp only [hc, Bool.false_eq_true, if_false]
        by_cases hnc : n.allowchildren = true
        · simp only [hnc, Bool.not_true, Bool.false_eq_true, if_false]
          exact hstop
        · simp only [Bool.not_eq_true] at hnc
          simp only [hnc, Bool.not_false, if_true]
          by_cases hzz : n.zindex ≤ h.zindex
          · simp only [hzz, if_true]
            refine hstep (hswap ?_)
            have hnd : n.dialogbase = false := by
              rcases hb : n.dialogbase with _ | _
              · rfl
              · exact absurd (hi.2.2 n (by simp) hb) (by simp [hnc])
            rw [ggroup_plain hd hc, ggroup_plain hnd hnc]
          · simp only [hzz, if_false]
            exact hstop

/-! ### Partition shape of a group-monotone list -/

/-- All widgets in the list are plain (group 0). -/
def allPlain (l : List GWidget) : Prop :=
  ∀ w ∈ l, w.dialogbase = false ∧ w.allowchildren = false

/-- All widgets in the list are container-capable non-dialogs (group 1). -/
def allCont (l : List GWidget) : Prop :=
  ∀ w ∈ l, w.dialogbase = false ∧ w.allowchildren = true

/-- All widgets in the list are dialog-base (group 2). -/
def allDia (l : List GWidget) : Prop :=
  ∀ w ∈ l, w.dialogbase = true

lemma gmono_of_const {l : List GWidget} {k : Nat}
    (h : ∀ w ∈ l, ggroup w = k) : gmono l := by
  induction l with
  | nil => exact List.chain'_nil
  | cons a t ih =>
    rw [gmono, List.chain'_cons']
    refine ⟨?_, ih (fun w hw => h w (by simp [hw]))⟩
    intro y hy
    have hyt : y ∈ t := List.mem_of_mem_head? hy
    rw [h a (by simp), h y (by simp [hyt])]

lemma gmono_partition {ps cs ds : List GWidget} (hp : allPlain ps)
    (hc : allCont cs) (hd : allDia ds) : gmono (ps ++ cs ++ ds) := by
  have hps : gmono ps :=
    gmono_of_const (fun w hw => ggroup_plain (hp w hw).1 (hp w hw).2)
  have hcs : gmono cs :=
    gmono_of_const (fun w hw => ggroup_cont (hc w hw).1 (hc w hw).2)
  have hds : gmono ds := gmono_of_const (fun w hw => ggroup_dialog (hd w hw))
  unfold gmono at *
  rw [List.append_assoc, List.chain'_append, List.chain'_append]
  refine ⟨hps, ⟨hcs, hds, ?_⟩, ?_⟩
  · intro x hx y hy
    have hxc : x ∈ cs := List.mem_of_mem_getLast? hx
    have hyd : y ∈ ds := List.mem_of_mem_head? hy
    rw [ggroup_cont (hc x hxc).1 (hc x hxc).2, ggroup_dialog (hd y hyd)]
    decide
  · intro x hx y hy
    have hxp : x ∈ ps := List.mem_of_mem_getLast? hx
    rw [ggroup_plain (hp x hxp).1 (hp x hxp).2]
    exact Nat.zero_le _

lemma partition_of_gmono : ∀ {l : List GWidget}, gmono l →
    ∃ ps cs ds, l = ps ++ cs ++ ds ∧ allPlain ps ∧ allCont cs ∧ allDia ds := by
  intro l
  induction l with
  | nil =>
    intro _
    exact ⟨[], [], [], by simp, by simp [allPlain], by simp [allCont],
      by simp [allDia]⟩
  | cons a t ih =>
    intro h
    have ht : gmono t := h.tail
    have hhead : ∀ y ∈ t.head?, ggroup a ≤ ggroup y := (List.chain'_cons'.mp h).1
    obtain ⟨ps, cs, ds, rfl, hp, hc, hd⟩ := ih ht
    rcases ggroup_cases a with ⟨h1, h2⟩ | ⟨h1, h2, h3⟩ | ⟨h1, h2, h3⟩
    · have hps : ps = [] := by
        cases ps with
        | nil => rfl
        | cons p pt =>
          have hj := hhead p (by simp)
          rw [h2, ggroup_plain (hp p (by simp)).1 (hp p (by simp)).2] at hj
          exact absurd hj (by decide)
      subst hps
      have hcs : cs = [] := by
        cases cs with
        | nil => rfl
        | cons c ct =>
          have hj := hhead c (by simp)
          rw [h2, ggroup_cont (hc c (by simp)).1 (hc c (by simp)).2] at hj
          exact absurd hj (by decide)
      subst hcs
      refine ⟨[], [], a :: ds, by simp, by simp [allPlain],
        by simp [allCont], ?_⟩
      intro w hw
      rcases List.mem_cons.mp hw with rfl | hw
      · exact h1
      · exact hd w hw
    · have hps : ps = [] := by
        cases ps with
        | nil => rfl
        | cons p pt =>
          have hj := hhead p (by simp)
          rw [h3, ggroup_plain (hp p (by simp)).1 (hp p (by simp)).2] at hj
          exact absurd hj (by decide)
      subst hps
      refine ⟨[], a :: cs, ds, by simp, by simp [allPlain], ?_, hd⟩
      intro w hw
      rcases List.mem_cons.mp hw with rfl | hw
      · exact ⟨h1, h2⟩
      · exact hc w hw
    · refine ⟨a :: ps, cs, ds, by simp, ?_, hc, hd⟩
      intro w hw
      rcases List.mem_cons.mp hw with rfl | hw
      · exact ⟨h1, h2⟩
      · exact hp w hw

/-! ### Exact effect of the move loops on partition-shaped lists -/

lemma mttAux_plain_snd (h : GWidget) (hdf : h.dialogbase = false)
    (hcf : h.allowchildren = false) (hz : h.zindex = 0) :
    ∀ (rb af : List GWidget) (cnt : Nat), (∀ x ∈ rb, x.zindex = 0) →
      (mttAux h rb af cnt).2 = ([], rb.reverse ++ af) := by
  intro rb
  induction rb with
  | nil => intro af cnt _; simp [mttAux]
  | cons p rb ih =>
    intro af cnt hzs
    have hpz : p.zindex = 0 := hzs p (by simp)
    have hcond : h.zindex ≤ p.zindex := by rw [hz, hpz]
    simp only [mttAux, hdf, hcf, Bool.false_eq_true, if_false, hcond, if_true]
    rw [ih (p :: af) _ (fun x hx => hzs x (by simp [hx]))]
    simp

lemma mttAux_cont_snd (h : GWidget) (hdf : h.dialogbase = false)
    (hct : h.allowchildren = true) (hz : h.zindex = 0) :
    ∀ (rb1 rb2 af : List GWidget) (cnt : Nat),
      (∀ x ∈ rb1, x.allowchildren = true ∧ x.zindex = 0) →
      (∀ y ∈ rb2.head?, y.allowchildren = false) →
      (mttAux h (rb1 ++ rb2) af cnt).2 = (rb2, rb1.reverse ++ af) := by
  intro rb1
  induction rb1 with
  | nil =>
    intro rb2 af cnt _ hh
    cases rb2 with
    | nil => simp [mttAux]
    | cons y r2 =>
      have hy : y.allowchildren = false := hh y (by simp)
      simp [mttAux, hdf, hct, hy]
  | cons p rb1 ih =>
    intro rb2 af cnt h1 hh
    have hp := h1 p (by simp)
    have hcond : h.zindex ≤ p.zindex := by rw [hz, hp.2]
    simp only [List.cons_append, mttAux, hdf, Bool.false_eq_true, if_false,
      hct, if_true, hp.1, hcond]
    simp only [List.append_eq]
    rw [ih rb2 (p :: af) _ (fun x hx => h1 x (by simp [hx])) hh]
    simp

lemma mttAux_dia_snd (h : GWidget) (hdt : h.dialogbase = true) :
    ∀ (rb1 rb2 af : List GWidget) (cnt : Nat),
      (∀ x ∈ rb1, x.dialogbase = true) →
      (∀ y ∈ rb2.head?, y.dialogbase = false) →
      (mttAux h (rb1 ++ rb2) af cnt).2 = (rb2, rb1.reverse ++ af) := by
  intro rb1
  induction rb1 with
  | nil =>
    intro rb2 af cnt _ hh
    cases rb2 with
    | nil => simp [mttAux]
    | cons y r2 =>
      have hy : y.dialogbase = false := hh y (by simp)
      simp [mttAux, hdt, hy]
  | cons p rb1 ih =>
    intro rb2 af cnt h1 hh
    have hp := h1 p (by simp)
    simp only [List.cons_append, mttAux, hdt, if_true, hp]
    simp only [List.append_eq]
    rw [ih rb2 (p :: af) _ (fun x hx => h1 x (by simp [hx])) hh]
    simp

lemma mtbAux_plain_snd (h : GWidget) (hdf : h.dialogbase = false)
    (hcf : h.allowchildren = false) (hz : h.zindex = 0) :
    ∀ (af1 af2 rb : List GWidget) (cnt : Nat),
      (∀ x ∈ af1, x.allowchildren = false ∧ x.zindex = 0) →
      (∀ y ∈ af2.head?, y.allowchildren = true) →
      (mtbAux h rb (af1 ++ af2) cnt).2 = (af1.reverse ++ rb, af2) := by
  intro af1
  induction af1 with
  | nil =>
    intro af2 rb cnt _ hh
    cases af2 with
    | nil => simp [mtbAux]
    | cons y a2 =>
      have hy : y.allowchildren = true := hh y (by simp)
      simp [mtbAux, hdf, hcf, hy]
  | cons n af1 ih =>
    intro af2 rb cnt h1 hh
    have hn := h1 n (by simp)
    have hcond : n.zindex ≤ h.zindex := by rw [hz, hn.2]
    simp only [List.cons_append, mtbAux, hdf, hcf, Bool.false_eq_true,
      if_false, hn.1, Bool.not_false, if_true, hcond]
    simp only [List.append_eq]
    rw [ih af2 (n :: rb) _ (fun x hx => h1 x (by simp [hx])) hh]
    simp

lemma mtbAux_cont_snd (h : GWidget) (hdf : h.dialogbase = false)
    (hct : h.allowchildren = true) (hz : h.zindex = 0) :
    ∀ (af1 af2 rb : List GWidget) (cnt : Nat),
      (∀ x ∈ af1, x.dialogbase = false ∧ x.zindex = 0) →
      (∀ y ∈ af2.head?, y.dialogbase = true) →
      (mtbAux h rb (af1 ++ af2) cnt).2 = (af1.reverse ++ rb, af2) := by
  intro af1
  induction af1 with
  | nil =>
    intro af2 rb cnt _ hh
    cases af2 with
    | nil => simp [mtbAux]
    | cons y a2 =>
      have hy : y.dialogbase = true := hh y (by simp)
      simp [mtbAux, hdf, hct, hy]
  | cons n af1 ih =>
    intro af2 rb cnt h1 hh
    have hn := h1 n (by simp)
    have hcond : n.zindex ≤ h.zindex := by rw [hz, hn.2]
    simp only [List.cons_append, mtbAux, hdf, hct, Bool.false_eq_true,
      if_false, if_true, hn.1, Bool.not_false, hcond]
    simp only [List.append_eq]
    rw [ih af2 (n :: rb) _ (fun x hx => h1 x (by simp [hx])) hh]
    simp

lemma mtbAux_dia_snd (h : GWidget) (hdt : h.dialogbase = true) :
    ∀ (af rb : List GWidget) (cnt : Nat),
      (mtbAux h rb af cnt).2 = (af.reverse ++ rb, []) := by
  intro af
  induction af with
  | nil => intro rb cnt; simp [mtbAux]
  | cons n af ih =>
    intro rb cnt
    simp only [mtbAux, hdt, if_true]
    rw [ih (n :: rb) _]
    simp

lemma assemble_congr {h : GWidget} {r r' : Nat × List GWidget × List GWidget}
    (e : r.2 = r'.2) : assemble h r = assemble h r' := by
  unfold assemble
  rw [e]

lemma widgetadd_eq {l : List GWidget} (w : GWidget) (c0 : Nat)
    {rb1 af1 rb2 af2 : List GWidget}
    (e1 : (mttAux w l.reverse [] c0).2 = (rb1, af1))
    (e2 : (mtbAux w rb1 af1 0).2 = (rb2, af2)) :
    gui_linkedlist_widgetadd l w c0 = rb2.reverse ++ w :: af2 := by
  simp only [gui_linkedlist_widgetadd, assemble]
  have e1' := movetotop_snd c0 l.reverse w []
  rw [e1] at e1'
  have f1 : (gui_linkedlist_widgetmovetotop c0 l.reverse w []).2.1 = rb1 := by
    rw [e1']
  have f2 : (gui_linkedlist_widgetmovetotop c0 l.reverse w []).2.2 = af1 := by
    rw [e1']
  rw [f1, f2]
  have e2' := movetobottom_snd rb1 w af1
  rw [e2] at e2'
  have g1 : (gui_linkedlist_widgetmovetobottom rb1 w af1).2.1 = rb2 := by
    rw [e2']
  have g2 : (gui_linkedlist_widgetmovetobottom rb1 w af1).2.2 = af2 := by
    rw [e2']
  rw [g1, g2]

/-- Creating a widget whose dialog-base capability implies the children
capability re-settles the new widget into its group position and keeps
the invariant. -/
lemma widgetadd_inv {l : List GWidget} (w : GWidget) (c0 : Nat)
    (hi : invW l) (hz : w.zindex = 0)
    (hdc : w.dialogbase = true → w.allowchildren = true) :
    invW (gui_linkedlist_widgetadd l w c0) := by
  obtain ⟨ps, cs, ds, rfl, hp, hc, hd⟩ := partition_of_gmono hi.1
  have hzall := hi.2.1
  have hdcall := hi.2.2
  have hzf : ∀ x, (x ∈ ps ∨ x ∈ cs ∨ x ∈ ds ∨ x = w) → x.zindex = 0 := by
    rintro x (hx | hx | hx | rfl)
    · exact hzall x (by simp [hx])
    · exact hzall x (by simp [hx])
    · exact hzall x (by simp [hx])
    · exact hz
  have hdcf : ∀ x, (x ∈ ps ∨ x ∈ cs ∨ x ∈ ds ∨ x = w) →
      x.dialogbase = true → x.allowchildren = true := by
    rintro x (hx | hx | hx | rfl)
    · exact hdcall x (by simp [hx])
    · exact hdcall x (by simp [hx])
    · exact hdcall x (by simp [hx])
    · exact hdc
  have hrev : (ps ++ cs ++ ds).reverse
      = ds.reverse ++ (cs.reverse ++ ps.reverse) := by simp
  rcases ggroup_cases w with ⟨h1, _⟩ | ⟨h1, h2, _⟩ | ⟨h1, h2, _⟩
  · -- dialog-base widget: moves to the start of the dialog group, then all
    -- the way to the tail
    have e1 : (mttAux w (ps ++ cs ++ ds).reverse [] c0).2
        = (cs.reverse ++ ps.reverse, ds) := by
      rw [hrev, mttAux_dia_snd w h1 ds.reverse (cs.reverse ++ ps.reverse) [] c0
        (fun x hx => hd x (List.mem_reverse.mp hx)) ?_]
      · simp
      · intro y hy
        have hym : y ∈ cs.reverse ++ ps.reverse := List.mem_of_mem_head? hy
        rcases List.mem_append.mp hym with hyc | hyp
        · exact (hc y (List.mem_reverse.mp hyc)).1
        · exact (hp y (List.mem_reverse.mp hyp)).1
    have e2 : (mtbAux w (cs.reverse ++ ps.reverse) ds 0).2
        = (ds.reverse ++ (cs.reverse ++ ps.reverse), []) :=
      mtbAux_dia_snd w h1 ds (cs.reverse ++ ps.reverse) 0
    rw [widgetadd_eq w c0 e1 e2]
    have hshape : (ds.reverse ++ (cs.reverse ++ ps.reverse)).reverse ++ w :: ([] : List GWidget)
        = ps ++ cs ++ (ds ++ [w]) := by simp
    rw [hshape]
    refine ⟨?_, ?_, ?_⟩
    · have hgm := @gmono_partition ps cs (ds ++ [w]) hp hc ?_
      · exact hgm
      · intro x hx
        rcases List.mem_append.mp hx with hxd | hxw
        · exact hd x hxd
        · have : x = w := by simpa using hxw
          subst this; exact h1
    · intro x hx
      refine hzf x ?_
      simp only [List.mem_append, List.mem_singleton] at hx
      tauto
    · intro x hx
      refine hdcf x ?_
      simp only [List.mem_append, List.mem_singleton] at hx
      tauto
  · -- container widget: moves to the start of the container group, then to
    -- its tail (just before the dialog group)
    have e1 : (mttAux w (ps ++ cs ++ ds).reverse [] c0).2
        = (ps.reverse, cs ++ ds) := by
      rw [hrev, show ds.reverse ++ (cs.reverse ++ ps.reverse)
          = (ds.reverse ++ cs.reverse) ++ ps.reverse by simp [List.append_assoc],
        mttAux_cont_snd w h1 h2 hz (ds.reverse ++ cs.reverse) ps.reverse [] c0 ?_ ?_]
      · simp
      · intro x hx
        rcases List.mem_append.mp hx with hxd | hxc
        · have hxm := List.mem_reverse.mp hxd
          exact ⟨hdcall x (by simp [hxm]) (hd x hxm), hzall x (by simp [hxm])⟩
        · have hxm := List.mem_reverse.mp hxc
          exact ⟨(hc x hxm).2, hzall x (by simp [hxm])⟩
      · intro y hy
        have hym : y ∈ ps.reverse := List.mem_of_mem_head? hy
        exact (hp y (List.mem_reverse.mp hym)).2
    have e2 : (mtbAux w ps.reverse (cs ++ ds) 0).2
        = (cs.reverse ++ ps.reverse, ds) := by
      rw [mtbAux_cont_snd w h1 h2 hz cs ds ps.reverse 0 ?_ ?_]
      · intro x hx
        exact ⟨(hc x hx).1, hzall x (by simp [hx])⟩
      · intro y hy
        exact hd y (List.mem_of_mem_head? hy)
    rw [widgetadd_eq w c0 e1 e2]
    have hshape : (cs.reverse ++ ps.reverse).reverse ++ w :: ds
        = ps ++ (cs ++ [w]) ++ ds := by simp
    rw [hshape]
    refine ⟨?_, ?_, ?_⟩
    · have hgm := @gmono_partition ps (cs ++ [w]) ds hp ?_ hd
      · exact hgm
      · intro x hx
        rcases List.mem_append.mp hx with hxc | hxw
        · exact hc x hxc
        · have : x = w := by simpa using hxw
          subst this; exact ⟨h1, h2⟩
    · intro x hx
      refine hzf x ?_
      simp only [List.mem_append, List.mem_singleton] at hx
      tauto
    · intro x hx
      refine hdcf x ?_
      simp only [List.mem_append, List.mem_singleton] at hx
      tauto
  · -- plain widget: moves to the very head, then to the tail of the plain
    -- group
    have e1 : (mttAux w (ps ++ cs ++ ds).reverse [] c0).2
        = ([], ps ++ cs ++ ds) := by
      rw [mttAux_plain_snd w h1 h2 hz (ps ++ cs ++ ds).reverse [] c0
        (fun x hx => hzall x (List.mem_reverse.mp hx))]
      simp
    have e2 : (mtbAux w [] (ps ++ cs ++ ds) 0).2 = (ps.reverse, cs ++ ds) := by
      rw [show ps ++ cs ++ ds = ps ++ (cs ++ ds) by simp,
        mtbAux_plain_snd w h1 h2 hz ps (cs ++ ds) [] 0 ?_ ?_]
      · simp
      · intro x hx
        exact ⟨(hp x hx).2, hzall x (by simp [hx])⟩
      · intro y hy
        have hym : y ∈ cs ++ ds := List.mem_of_mem_head? hy
        rcases List.mem_append.mp hym with hyc | hyd
        · exact (hc y hyc).2
        · exact hdcall y (by simp [hyd]) (hd y hyd)
    rw [widgetadd_eq w c0 e1 e2]
    have hshape : ps.reverse.reverse ++ w :: (cs ++ ds)
        = (ps ++ [w]) ++ cs ++ ds := by simp
    rw [hshape]
    refine ⟨?_, ?_, ?_⟩
    · have hgm := @gmono_partition (ps ++ [w]) cs ds ?_ hc hd
      · exact hgm
      · intro x hx
        rcases List.mem_append.mp hx with hxp | hxw
        · exact hp x hxp
        · have : x = w := by simpa using hxw
          subst this; exact ⟨h1, h2⟩
    · intro x hx
      refine hzf x ?_
      simp only [List.mem_append, List.mem_singleton] at hx
      tauto
    · intro x hx
      refine hdcf x ?_
      simp only [List.mem_append, List.mem_singleton] at hx
      tauto


/-! ## Dialog registry (`gui_dialog.c`, src/unnamed/part_001) -/

/-- One entry of the dialog registry `ddlist`
(`dissmissed_dialog_list_t`, src/unnamed/part_001, lines 35–44). -/
structure DialogEntry where
  hid : Nat
  id : Nat
  status : Int
  ib : Bool
  semValid : Bool
deriving DecidableEq, Repr

/-- Externally observable actions performed by `gui_dialog_dismiss`. -/
inductive DEvent where
  | onDismiss (h : Nat) (status : Int)
  | semRelease (h : Nat)
  | widgetRemove (h : Nat)
deriving DecidableEq, Repr

/-- `get_dialog` (src/unnamed/part_001, lines 92–106): scan the registry
in list order for the first entry whose stored handle and stored id both
match the widget (`idOf h` models `guii_widget_getid(h)`). -/
def get_dialog (idOf : Nat → Nat) (dd : List DialogEntry) (h : Nat) :
    Option DialogEntry :=
  dd.find? (fun l => l.hid == h && l.id == idOf h)

/-- `gui_dialog_dismiss` (src/unnamed/part_001, lines 211–240).  The local
`ret` is initialised to `0` and never assigned afterwards, so `0` is
returned on every path.  The entry found by `get_dialog` is identified by
its position in the registry; on a match its status is stored, the
`GUI_WC_OnDismiss` callback fires, then either the semaphore of a blocking
entry is released (deregistration is left to the blocked creator) or the
entry is deregistered, and finally `guii_widget_remove` is invoked on the
widget.  Result: (return value, new registry, emitted events). -/
def gui_dialog_dismiss (idOf : Nat → Nat) (dd : List DialogEntry) (h : Nat)
    (status : Int) : Nat × List DialogEntry × List DEvent :=
  match dd.findIdx? (fun l => l.hid == h && l.id == idOf h) with
  | none => (0, dd, [])
  | some i =>
    match dd[i]? with
    | none => (0, dd, [])
    | some l =>
      let l' : DialogEntry := { l with status := status }
      let dd1 := dd.set i l'
      if l'.ib && l'.semValid then
        (0, dd1, [DEvent.onDismiss h status, DEvent.semRelease h,
                  DEvent.widgetRemove h])
      else
        (0, dd1.eraseIdx i, [DEvent.onDismiss h status,
                             DEvent.widgetRemove h])

/-! ## Pointer-level doubly linked list (`gui_linkedlist.c`, generic layer)

The generic linked-list functions of src/unnamed/part_000 manipulate raw
`prev`/`next` pointers of intrusive list nodes and the `first`/`last`
fields of a list root.  Nodes are identified by `Nat` ids; the heap of
list nodes is a total function from ids to node records, and a null
pointer is `none`. -/

/-- The intrusive `gui_linkedlist_t` header of a node: its `prev` and
`next` pointers. -/
structure LLNode where
  prev : Option Nat
  next : Option Nat
deriving DecidableEq, Repr

/-- A `gui_linkedlistroot_t` together with the heap of list nodes. -/
structure LLState where
  first : Option Nat
  last : Option Nat
  mem : Nat → LLNode

/-- Point update of one node of the heap. -/
def updNode (m : Nat → LLNode) (i : Nat) (f : LLNode → LLNode) :
    Nat → LLNode :=
  fun j => if j = i then f (m j) else m j

/-- `node->prev = v`. -/
def setPrev (m : Nat → LLNode) (i : Nat) (v : Option Nat) : Nat → LLNode :=
  updNode m i (fun n => ⟨v, n.next⟩)

/-- `node->next = v`. -/
def setNext (m : Nat → LLNode) (i : Nat) (v : Option Nat) : Nat → LLNode :=
  updNode m i (fun n => ⟨n.prev, v⟩)

/-- `gui_linkedlist_add_gen` (src/unnamed/part_000, lines 75–88): append
the element at the tail, with the two branches and the exact assignment
order of the C code. -/
def gui_linkedlist_add_gen (s : LLState) (e : Nat) : LLState :=
  if s.first = none ∨ s.last = none then
    ⟨some e, some e, setNext (setPrev s.mem e none) e none⟩
  else
    match s.last with
    | some L =>
      ⟨s.first, some e, setNext (setPrev (setNext s.mem e none) e (some L)) L (some e)⟩
    | none => s

/-- `gui_linkedlist_remove_gen` (src/unnamed/part_000, lines 98–126) for a
non-null element: unlink it from its neighbours, fix up `first`/`last`,
then clear the element's own pointers. -/
def gui_linkedlist_remove_gen (s : LLState) (e : Nat) : LLState :=
  let prev := (s.mem e).prev
  let next := (s.mem e).next
  let m1 := match prev with
    | some p => setNext s.mem p next
    | none => s.mem
  let m2 := match next with
    | some nx => setPrev m1 nx prev
    | none => m1
  let first1 := if s.first = some e then next else s.first
  let last1 := if s.last = some e then prev else s.last
  ⟨first1, last1, setNext (setPrev m2 e none) e none⟩

/-- `gui_linkedlist_movedown_gen` (src/unnamed/part_000, lines 194–233)
for a non-null element: swap the element with its next neighbour by
splicing pointers; returns `0` and leaves the state unchanged when the
element is the last one. -/
def gui_linkedlist_movedown_gen (s : LLState) (e : Nat) : Nat × LLState :=
  if s.last = some e then (0, s)
  else
    let Prev := (s.mem e).prev
    let Next := (s.mem e).next
    let NextNext := match Next with
      | some nx => (s.mem nx).next
      | none => none
    let m1 := match NextNext with
      | some nn => setPrev s.mem nn (some e)
      | none => s.mem
    let last1 := match NextNext with
      | some _ => s.last
      | none => some e
    let m2 := match Next with
      | some nx => setPrev (setNext m1 nx (some e)) nx Prev
      | none => m1
    let m3 := setPrev (setNext m2 e NextNext) e Next
    let m4 := match Prev with
      | some p => setNext m3 p Next
      | none => m3
    let first1 := if s.first = some e then Next else s.first
    (1, ⟨first1, last1, m4⟩)

/-- `gui_linkedlist_moveup_gen` (src/unnamed/part_000, lines 243–282) for
a non-null element: swap the element with its previous neighbour; returns
`0` and leaves the state unchanged when the element is the first one. -/
def gui_linkedlist_moveup_gen (s : LLState) (e : Nat) : Nat × LLState :=
  if s.first = some e then (0, s)
  else
    let Prev := (s.mem e).prev
    let Next := (s.mem e).next
    let PrevPrev := match Prev with
      | some p => (s.mem p).prev
      | none => none
    let m1 := match PrevPrev with
      | some pp => setNext s.mem pp (some e)
      | none => s.mem
    let first1 := match PrevPrev with
      | some _ => s.first
      | none => some e
    let m2 := match Prev with
      | some p => setNext (setPrev m1 p (some e)) p Next
      | none => m1
    let m3 := setNext (setPrev m2 e PrevPrev) e Prev
    let m4 := match Next with
      | some nx => setPrev m3 nx Prev
      | none => m3
    let last1 := if s.last = some e then Prev else s.last
    (1, ⟨first1, last1, m4⟩)

/-- Successor of the first occurrence of `z` in the list (abstract view of
the `next` pointer). -/
def nextIn : List Nat → Nat → Option Nat
  | [], _ => none
  | a :: t, z => if z = a then t.head? else nextIn t z

/-- Predecessor of `z` in the list (abstract view of the `prev`
pointer). -/
def prevIn (l : List Nat) (z : Nat) : Option Nat :=
  nextIn l.reverse z

/-- The canonical heap representing exactly the list `l`: members carry
their in-list neighbours, everything else carries cleared pointers. -/
def memOf (l : List Nat) (z : Nat) : LLNode :=
  ⟨prevIn l z, nextIn l z⟩

/-- The canonical state representing exactly the list `l`. -/
def stateOf (l : List Nat) : LLState :=
  ⟨l.head?, l.getLast?, memOf l⟩

/-- Sequences of generic list operations, together with the abstract list
and the running counts of `add` and `remove` calls.  `add` requires a
node not currently on the list (freshly allocated or previously removed —
its pointers are clear either way); `remove` and the two moves act on a
node of the list, identified by its decomposition. -/
inductive ReachL : LLState → List Nat → Nat → Nat → Prop where
  | empty : ReachL ⟨none, none, fun _ => ⟨none, none⟩⟩ [] 0 0
  | add (s : LLState) (l : List Nat) (a r x : Nat) (hx : x ∉ l)
      (h : ReachL s l a r) :
      ReachL (gui_linkedlist_add_gen s x) (l ++ [x]) (a + 1) r
  | remove (s : LLState) (l1 l2 : List Nat) (x a r : Nat)
      (h : ReachL s (l1 ++ x :: l2) a r) :
      ReachL (gui_linkedlist_remove_gen s x) (l1 ++ l2) a (r + 1)
  | mdown (s : LLState) (l1 l2 : List Nat) (x y a r : Nat)
      (h : ReachL s (l1 ++ x :: y :: l2) a r) :
      ReachL (gui_linkedlist_movedown_gen s x).2 (l1 ++ y :: x :: l2) a r
  | mdownLast (s : LLState) (l1 : List Nat) (x a r : Nat)
      (h : ReachL s (l1 ++ [x]) a r) :
      ReachL (gui_linkedlist_movedown_gen s x).2 (l1 ++ [x]) a r
  | mup (s : LLState) (l1 l2 : List Nat) (x y a r : Nat)
      (h : ReachL s (l1 ++ x :: y :: l2) a r) :
      ReachL (gui_linkedlist_moveup_gen s y).2 (l1 ++ y :: x :: l2) a r
  | mupFirst (s : LLState) (l2 : List Nat) (x a r : Nat)
      (h : ReachL s (x :: l2) a r) :
      ReachL (gui_linkedlist_moveup_gen s x).2 (x :: l2) a r

/-- Forward walk along `next` pointers, `k` steps. -/
def walkN (s : LLState) : Option Nat → Nat → Option Nat
  | cur, 0 => cur
  | cur, k + 1 =>
    match cur with
    | none => none
    | some x => walkN s (s.mem x).next k

lemma LLState.exte {s t : LLState} (h1 : s.first = t.first)
    (h2 : s.last = t.last) (h3 : ∀ z, s.mem z = t.mem z) : s = t := by
  cases s; cases t
  simp only [LLState.mk.injEq]
  exact ⟨h1, h2, funext h3⟩

@[simp] lemma setPrev_self (m : Nat → LLNode) (i : Nat) (v : Option Nat) :
    setPrev m i v i = ⟨v, (m i).next⟩ := by
  simp [setPrev, updNode]

@[simp] lemma setNext_self (m : Nat → LLNode) (i : Nat) (v : Option Nat) :
    setNext m i v i = ⟨(m i).prev, v⟩ := by
  simp [setNext, updNode]

lemma setPrev_ne (m : Nat → LLNode) (i : Nat) (v : Option Nat) {j : Nat}
    (h : j ≠ i) : setPrev m i v j = m j := by
  simp [setPrev, updNode, h]

lemma setNext_ne (m : Nat → LLNode) (i : Nat) (v : Option Nat) {j : Nat}
    (h : j ≠ i) : setNext m i v j = m j := by
  simp [setNext, updNode, h]

lemma nextIn_not_mem : ∀ {l : List Nat} {z : Nat}, z ∉ l → nextIn l z = none := by
  intro l
  induction l with
  | nil => intro z _; rfl
  | cons a t ih =>
    intro z hz
    have h1 : z ≠ a := by intro he; exact hz (by simp [he])
    have h2 : z ∉ t := fun hm => hz (by simp [hm])
    simp [nextIn, h1, ih h2]

lemma nextIn_append_not_mem_left {l1 l2 : List Nat} {z : Nat} (hz : z ∉ l1) :
    nextIn (l1 ++ l2) z = nextIn l2 z := by
  induction l1 with
  | nil => rfl
  | cons a t ih =>
    have h1 : z ≠ a := by intro he; exact hz (by simp [he])
    have h2 : z ∉ t := fun hm => hz (by simp [hm])
    simp [nextIn, h1, ih h2]

lemma prevIn_not_mem {l : List Nat} {z : Nat} (hz : z ∉ l) :
    prevIn l z = none :=
  nextIn_not_mem (by simpa using hz)

lemma memOf_not_mem {l : List Nat} {z : Nat} (hz : z ∉ l) :
    memOf l z = ⟨none, none⟩ := by
  rw [memOf, prevIn_not_mem hz, nextIn_not_mem hz]

lemma nodup_mid {l1 l2 : List Nat} {x : Nat} (h : (l1 ++ x :: l2).Nodup) :
    x ∉ l1 ∧ x ∉ l2 ∧ (l1 ++ l2).Nodup := by
  rw [List.nodup_middle, List.nodup_cons] at h
  exact ⟨fun hx => h.1 (by simp [hx]), fun hx => h.1 (by simp [hx]), h.2⟩

lemma nextIn_mid {l1 l2 : List Nat} {z : Nat} (hnd : (l1 ++ z :: l2).Nodup) :
    nextIn (l1 ++ z :: l2) z = l2.head? := by
  rw [nextIn_append_not_mem_left (nodup_mid hnd).1]
  simp [nextIn]

lemma reverse_mid (l1 l2 : List Nat) (z : Nat) :
    (l1 ++ z :: l2).reverse = l2.reverse ++ z :: l1.reverse := by
  simp

lemma prevIn_mid {l1 l2 : List Nat} {z : Nat} (hnd : (l1 ++ z :: l2).Nodup) :
    prevIn (l1 ++ z :: l2) z = l1.getLast? := by
  have hr : (l1 ++ z :: l2).reverse.Nodup := List.nodup_reverse.mpr hnd
  rw [reverse_mid] at hr
  rw [prevIn, reverse_mid, nextIn_mid hr, List.head?_reverse]

lemma memOf_mid {l1 l2 : List Nat} {z : Nat} (hnd : (l1 ++ z :: l2).Nodup) :
    memOf (l1 ++ z :: l2) z = ⟨l1.getLast?, l2.head?⟩ := by
  rw [memOf, prevIn_mid hnd, nextIn_mid hnd]

lemma getLast?_append_right {a b : List Nat} (hb : b ≠ []) :
    (a ++ b).getLast? = b.getLast? := by
  rcases List.eq_nil_or_concat b with rfl | ⟨b', e, rfl⟩
  · exact absurd rfl hb
  · simp only [List.concat_eq_append]
    rw [show a ++ (b' ++ [e]) = (a ++ b') ++ [e] by simp,
      List.getLast?_concat, List.getLast?_concat]

lemma head?_append_left {a b : List Nat} (ha : a ≠ []) :
    (a ++ b).head? = a.head? := by
  cases a with
  | nil => exact absurd rfl ha
  | cons x t => simp

lemma nodup_snoc {l : List Nat} {x : Nat} (hnd : l.Nodup) (hx : x ∉ l) :
    (l ++ [x]).Nodup := by
  rw [show l ++ [x] = l ++ x :: [] from rfl, List.nodup_middle]
  simp [List.nodup_cons, hx, hnd]

/-- `gui_linkedlist_add_gen` maps the canonical state of `l` to the
canonical state of `l ++ [x]`. -/
lemma add_gen_stateOf {l : List Nat} {x : Nat} (hnd : l.Nodup) (hx : x ∉ l) :
    gui_linkedlist_add_gen (stateOf l) x = stateOf (l ++ [x]) := by
  rcases List.eq_nil_or_concat l with rfl | ⟨l', L, hl⟩
  · apply LLState.exte
    · simp [gui_linkedlist_add_gen, stateOf]
    · simp [gui_linkedlist_add_gen, stateOf]
    · intro z
      by_cases hz : z = x
      · subst hz
        simp [gui_linkedlist_add_gen, stateOf, memOf, prevIn, nextIn]
      · simp [gui_linkedlist_add_gen, stateOf, setPrev_ne _ _ _ hz,
          setNext_ne _ _ _ hz, memOf, prevIn, nextIn, hz]
  · simp only [List.concat_eq_append] at hl
    subst hl
    have hxl : x ∉ l' := fun h => hx (by simp [h])
    have hxL : x ≠ L := fun h => hx (by simp [h])
    have hfirst : (stateOf (l' ++ [L])).first ≠ none := by
      simp only [stateOf]
      cases l' <;> simp
    have hlast : (stateOf (l' ++ [L])).last = some L := by
      simp only [stateOf]
      rw [List.getLast?_concat]
    have e : gui_linkedlist_add_gen (stateOf (l' ++ [L])) x
        = ⟨(stateOf (l' ++ [L])).first, some x,
           setNext (setPrev (setNext (stateOf (l' ++ [L])).mem x none) x
             (some L)) L (some x)⟩ := by
      rw [gui_linkedlist_add_gen, if_neg]
      · rw [hlast]
      · push_neg
        refine ⟨hfirst, ?_⟩
        rw [hlast]
        simp
    rw [e]
    have hnd2 : ((l' ++ [L]) ++ x :: []).Nodup := nodup_snoc hnd hx
    apply LLState.exte
    · simp only [stateOf]
      cases l' <;> simp
    · simp only [stateOf]
      rw [show (l' ++ [L]) ++ [x] = ((l' ++ [L]) ++ [x]) from rfl,
        List.getLast?_concat]
    · intro z
      simp only [stateOf]
      by_cases hzx : z = x
      · replace hzx := hzx.symm
        subst hzx
        rw [setNext_ne _ _ _ hxL, setPrev_self, setNext_self]
        rw [show (l' ++ [L]) ++ [x] = (l' ++ [L]) ++ x :: [] from rfl,
          memOf_mid hnd2, List.getLast?_concat]
        rfl
      · by_cases hzL : z = L
        · replace hzL := hzL.symm
          subst hzL
          rw [setNext_self, setPrev_ne _ _ _ hzx, setNext_ne _ _ _ hzx]
          have h1 : memOf (l' ++ [L]) L = ⟨l'.getLast?, ([] : List Nat).head?⟩ :=
            memOf_mid (by simpa using hnd)
          have h2 : memOf ((l' ++ [L]) ++ [x]) L
              = ⟨l'.getLast?, (x :: []).head?⟩ := by
            rw [show (l' ++ [L]) ++ [x] = l' ++ L :: (x :: []) by simp,
              memOf_mid (by simpa using hnd2)]
          rw [h1, h2]
          rfl
        · rw [setNext_ne _ _ _ hzL, setPrev_ne _ _ _ hzx, setNext_ne _ _ _ hzx]
          by_cases hzmem : z ∈ l' ++ [L]
          · have hzl' : z ∈ l' := by
              rcases List.mem_append.mp hzmem with h | h
              · exact h
              · exact absurd (by simpa using h) hzL
            obtain ⟨u, v, huv⟩ := List.append_of_mem hzl'
            subst huv
            have hvne : (v ++ [L] : List Nat) ≠ [] := by simp
            have hd1 : memOf ((u ++ z :: v) ++ [L]) z
                = ⟨u.getLast?, (v ++ [L]).head?⟩ := by
              rw [show (u ++ z :: v) ++ [L] = u ++ z :: (v ++ [L]) by simp]
              rw [memOf_mid (by
                rw [show u ++ z :: (v ++ [L]) = (u ++ z :: v) ++ [L] by simp]
                exact hnd)]
            have hd2 : memOf (((u ++ z :: v) ++ [L]) ++ [x]) z
                = ⟨u.getLast?, (v ++ [L] ++ [x]).head?⟩ := by
              rw [show ((u ++ z :: v) ++ [L]) ++ [x]
                  = u ++ z :: (v ++ [L] ++ [x]) by simp]
              rw [memOf_mid (by
                rw [show u ++ z :: (v ++ [L] ++ [x])
                    = ((u ++ z :: v) ++ [L]) ++ x :: [] by simp]
                exact hnd2)]
            rw [hd1, hd2, head?_append_left hvne]
          · have hz2 : z ∉ (l' ++ [L]) ++ [x] := by
              intro hm
              rcases List.mem_append.mp hm with h | h
              · exact hzmem h
              · exact hzx (by simpa using h)
            rw [memOf_not_mem hzmem, memOf_not_mem hz2]

lemma head?_ne_of_not_mem {l : List Nat} {x : Nat} (h : x ∉ l) :
    l.head? ≠ some x := by
  intro he
  exact h (List.mem_of_mem_head? (by rw [he]; rfl))

lemma getLast?_ne_of_not_mem {l : List Nat} {x : Nat} (h : x ∉ l) :
    l.getLast? ≠ some x := by
  intro he
  exact h (List.mem_of_mem_getLast? (by rw [he]; rfl))

/-- A node strictly inside the common part before a list-tail change keeps
its canonical neighbours. -/
lemma memOf_inner_left {c d d' : List Nat} {z : Nat}
    (hnd1 : (c ++ d).Nodup) (hnd2 : (c ++ d').Nodup)
    (hz : z ∈ c) (hzl : c.getLast? ≠ some z) :
    memOf (c ++ d) z = memOf (c ++ d') z := by
  obtain ⟨c1, c2, rfl⟩ := List.append_of_mem hz
  have hc2 : c2 ≠ [] := by
    rintro rfl
    exact hzl (List.getLast?_concat c1)
  have e1 : (c1 ++ z :: c2) ++ d = c1 ++ z :: (c2 ++ d) := by simp
  have e2 : (c1 ++ z :: c2) ++ d' = c1 ++ z :: (c2 ++ d') := by simp
  rw [e1, e2, memOf_mid (by rw [← e1]; exact hnd1),
    memOf_mid (by rw [← e2]; exact hnd2),
    head?_append_left hc2, head?_append_left hc2]

/-- A node strictly inside the common part after a list-head change keeps
its canonical neighbours. -/
lemma memOf_inner_right {c c' d : List Nat} {z : Nat}
    (hnd1 : (c ++ d).Nodup) (hnd2 : (c' ++ d).Nodup)
    (hz : z ∈ d) (hzh : d.head? ≠ some z) :
    memOf (c ++ d) z = memOf (c' ++ d) z := by
  obtain ⟨d1, d2, rfl⟩ := List.append_of_mem hz
  have hd1 : d1 ≠ [] := by
    rintro rfl
    exact hzh rfl
  have e1 : c ++ (d1 ++ z :: d2) = (c ++ d1) ++ z :: d2 := by simp
  have e2 : c' ++ (d1 ++ z :: d2) = (c' ++ d1) ++ z :: d2 := by simp
  rw [e1, e2, memOf_mid (by rw [← e1]; exact hnd1),
    memOf_mid (by rw [← e2]; exact hnd2),
    getLast?_append_right hd1, getLast?_append_right hd1]

/-- `gui_linkedlist_remove_gen` maps the canonical state of
`l1 ++ x :: l2` to the canonical state of `l1 ++ l2`. -/
lemma remove_gen_stateOf {l1 l2 : List Nat} {x : Nat}
    (hnd : (l1 ++ x :: l2).Nodup) :
    gui_linkedlist_remove_gen (stateOf (l1 ++ x :: l2)) x
      = stateOf (l1 ++ l2) := by
  obtain ⟨hx1, hx2, hnd'⟩ := nodup_mid hnd
  have hmx : (stateOf (l1 ++ x :: l2)).mem x = ⟨l1.getLast?, l2.head?⟩ :=
    memOf_mid hnd
  rcases List.eq_nil_or_concat l1 with rfl | ⟨u, p, hu⟩
  · -- x is the first node
    have hfx : (stateOf (x :: l2)).first = some x := rfl
    cases l2 with
    | nil =>
      apply LLState.exte
      · simp [gui_linkedlist_remove_gen, stateOf, memOf, prevIn, nextIn]
      · simp [gui_linkedlist_remove_gen, stateOf, memOf, prevIn, nextIn]
      · intro z
        by_cases hz : z = x
        · replace hz := hz.symm
          subst hz
          simp [gui_linkedlist_remove_gen, stateOf, memOf, prevIn, nextIn]
        · simp [gui_linkedlist_remove_gen, stateOf, memOf, prevIn, nextIn,
            setPrev_ne _ _ _ hz, setNext_ne _ _ _ hz, hz]
    | cons y t =>
      simp only [List.nil_append] at hnd hnd' hmx ⊢
      have hxy : x ≠ y := by
        intro he
        exact hx2 (by simp [he])
      have hmx' : (stateOf (x :: y :: t)).mem x = ⟨none, some y⟩ := by
        simpa using hmx
      have hlx : (stateOf (x :: y :: t)).last ≠ some x := by
        simp only [stateOf]
        rw [show (x :: y :: t : List Nat) = [x] ++ y :: t from rfl,
          getLast?_append_right (by simp : (y :: t : List Nat) ≠ [])]
        exact getLast?_ne_of_not_mem hx2
      have e : gui_linkedlist_remove_gen (stateOf (x :: y :: t)) x
          = ⟨some y, (stateOf (x :: y :: t)).last,
             setNext (setPrev (setPrev (stateOf (x :: y :: t)).mem y none)
               x none) x none⟩ := by
        simp only [gui_linkedlist_remove_gen, hmx']
        rw [if_pos hfx, if_neg hlx]
      rw [e]
      apply LLState.exte
      · rfl
      · simp only [stateOf]
        rfl
      · intro z
        dsimp only [stateOf]
        by_cases hzx : z = x
        · replace hzx := hzx.symm
          subst hzx
          rw [setNext_self, setPrev_self]
          have hnm : memOf (y :: t) x = ⟨none, none⟩ :=
            memOf_not_mem (by simpa using hx2)
          rw [hnm]
        · rw [setNext_ne _ _ _ hzx, setPrev_ne _ _ _ hzx]
          by_cases hzy : z = y
          · replace hzy := hzy.symm
            subst hzy
            rw [setPrev_self]
            have h1 : memOf (x :: y :: t) y = ⟨some x, t.head?⟩ := by
              have hm := @memOf_mid [x] t y (by simpa using hnd)
              simpa using hm
            have h2 : memOf (y :: t) y = ⟨none, t.head?⟩ := by
              have hm := @memOf_mid [] t y (by simpa using hnd')
              simpa using hm
            rw [h1, h2]
          · rw [setPrev_ne _ _ _ hzy]
            by_cases hzt : z ∈ t
            · have hm := @memOf_inner_right [x] [] (y :: t) z
                (by simpa using hnd) (by simpa using hnd')
                (by simp [hzt]) (by simp [Ne.symm hzy])
              simpa using hm
            · have hz1 : z ∉ x :: y :: t := by
                intro hm
                rcases List.mem_cons.mp hm with he | hm2
                · exact hzx he
                rcases List.mem_cons.mp hm2 with he | hm3
                · exact hzy he
                · exact hzt hm3
              have hz2 : z ∉ y :: t := by
                intro hm
                rcases List.mem_cons.mp hm with he | hm3
                · exact hzy he
                · exact hzt hm3
              rw [memOf_not_mem hz1, memOf_not_mem hz2]
  · -- x has a predecessor p
    simp only [List.concat_eq_append] at hu
    subst hu
    have hpx : p ≠ x := by
      intro he
      exact hx1 (by simp [he])
    have hfirst : (stateOf ((u ++ [p]) ++ x :: l2)).first ≠ some x := by
      simp only [stateOf]
      rw [head?_append_left (by simp)]
      exact head?_ne_of_not_mem hx1
    have hmxp : (stateOf ((u ++ [p]) ++ x :: l2)).mem x
        = ⟨some p, l2.head?⟩ := by
      rw [hmx, List.getLast?_concat]
    cases l2 with
    | nil =>
      have hmxp0 : (stateOf ((u ++ [p]) ++ x :: ([] : List Nat))).mem x
          = ⟨some p, none⟩ := by
        simpa using hmxp
      have hlastx : (stateOf ((u ++ [p]) ++ x :: ([] : List Nat))).last
          = some x := by
        simp only [stateOf]
        rw [show (u ++ [p]) ++ x :: ([] : List Nat) = (u ++ [p]) ++ [x]
          from rfl, List.getLast?_concat]
      have e : gui_linkedlist_remove_gen
            (stateOf ((u ++ [p]) ++ x :: ([] : List Nat))) x
          = ⟨(stateOf ((u ++ [p]) ++ x :: ([] : List Nat))).first, some p,
             setNext (setPrev (setNext
               (stateOf ((u ++ [p]) ++ x :: ([] : List Nat))).mem p none)
               x none) x none⟩ := by
        simp only [gui_linkedlist_remove_gen, hmxp0]
        rw [if_neg hfirst, if_pos hlastx]
      rw [e]
      apply LLState.exte
      · simp only [stateOf]
        rw [head?_append_left (by simp : (u ++ [p] : List Nat) ≠ []),
          head?_append_left (by simp : (u ++ [p] : List Nat) ≠ [])]
      · simp only [stateOf]
        rw [show ((u ++ [p]) ++ ([] : List Nat)) = u ++ [p] by simp,
          List.getLast?_concat]
      · intro z
        simp only [stateOf]
        by_cases hzx : z = x
        · replace hzx := hzx.symm
          subst hzx
          rw [setNext_self, setPrev_self]
          have : memOf ((u ++ [p]) ++ ([] : List Nat)) x = ⟨none, none⟩ :=
            memOf_not_mem (by simpa using hx1)
          rw [this]
        · rw [setNext_ne _ _ _ hzx, setPrev_ne _ _ _ hzx]
          by_cases hzp : z = p
          · replace hzp := hzp.symm
            subst hzp
            rw [setNext_self]
            have h1 : memOf ((u ++ [p]) ++ x :: ([] : List Nat)) p
                = ⟨u.getLast?, (x :: ([] : List Nat)).head?⟩ := by
              rw [show (u ++ [p]) ++ x :: ([] : List Nat)
                  = u ++ p :: (x :: ([] : List Nat)) by simp]
              exact memOf_mid (by simpa using hnd)
            have h2 : memOf ((u ++ [p]) ++ ([] : List Nat)) p
                = ⟨u.getLast?, ([] : List Nat).head?⟩ := by
              rw [show (u ++ [p]) ++ ([] : List Nat)
                  = u ++ p :: ([] : List Nat) by simp]
              exact memOf_mid (by simpa using hnd')
            rw [h1, h2]
            rfl
          · rw [setNext_ne _ _ _ hzp]
            by_cases hzu : z ∈ u
            · exact memOf_inner_left (c := u ++ [p]) hnd hnd'
                (by simp [hzu]) (by rw [List.getLast?_concat]; simp [Ne.symm hzp])
            · have hz1 : z ∉ (u ++ [p]) ++ x :: ([] : List Nat) := by
                intro hm
                rcases List.mem_append.mp hm with hm1 | hm2
                · rcases List.mem_append.mp hm1 with hm3 | hm4
                  · exact hzu hm3
                  · exact hzp (by simpa using hm4)
                · exact hzx (by simpa using hm2)
              have hz2 : z ∉ (u ++ [p]) ++ ([] : List Nat) := by
                intro hm
                rcases List.mem_append.mp hm with hm1 | hm2
                · rcases List.mem_append.mp hm1 with hm3 | hm4
                  · exact hzu hm3
                  · exact hzp (by simpa using hm4)
                · exact absurd hm2 (by simp)
              rw [memOf_not_mem hz1, memOf_not_mem hz2]
    | cons y t =>
      have hxy : x ≠ y := by
        intro he
        exact hx2 (by simp [he])
      have hpy : p ≠ y := by
        intro he
        subst he
        have := @nodup_mid (u ++ [p]) (p :: t) x hnd
        exact absurd (by simp : p ∈ u ++ [p]) (by
          have h3 := this.2.2
          rw [List.nodup_append] at h3
          intro hm
          exact h3.2.2 hm (by simp))
      have hmxp1 : (stateOf ((u ++ [p]) ++ x :: y :: t)).mem x
          = ⟨some p, some y⟩ := by
        simpa using hmxp
      have hlastx : (stateOf ((u ++ [p]) ++ x :: y :: t)).last ≠ some x := by
        simp only [stateOf]
        rw [getLast?_append_right (by simp : (x :: y :: t : List Nat) ≠ []),
          show (x :: y :: t : List Nat) = [x] ++ y :: t from rfl,
          getLast?_append_right (by simp : (y :: t : List Nat) ≠ [])]
        exact getLast?_ne_of_not_mem hx2
      have e : gui_linkedlist_remove_gen (stateOf ((u ++ [p]) ++ x :: y :: t)) x
          = ⟨(stateOf ((u ++ [p]) ++ x :: y :: t)).first,
             (stateOf ((u ++ [p]) ++ x :: y :: t)).last,
             setNext (setPrev (setPrev (setNext
               (stateOf ((u ++ [p]) ++ x :: y :: t)).mem p (some y))
               y (some p)) x none) x none⟩ := by
        simp only [gui_linkedlist_remove_gen, hmxp1]
        rw [if_neg hfirst, if_neg hlastx]
      rw [e]
      apply LLState.exte
      · simp only [stateOf]
        rw [head?_append_left (by simp : (u ++ [p] : List Nat) ≠ []),
          head?_append_left (by simp : (u ++ [p] : List Nat) ≠ [])]
      · simp only [stateOf]
        rw [getLast?_append_right (by simp : (x :: y :: t : List Nat) ≠ []),
          getLast?_append_right (by simp : (y :: t : List Nat) ≠ []),
          show (y :: t : List Nat).getLast? = (x :: y :: t).getLast? by
            rw [show (x :: y :: t : List Nat) = [x] ++ y :: t from rfl,
              getLast?_append_right (by simp)]]
      · intro z
        simp only [stateOf]
        by_cases hzx : z = x
        · replace hzx := hzx.symm
          subst hzx
          rw [setNext_self, setPrev_self]
          have : memOf ((u ++ [p]) ++ y :: t) x = ⟨none, none⟩ :=
            memOf_not_mem (by
              intro hm
              rcases List.mem_append.mp hm with hm1 | hm2
              · exact hx1 hm1
              · exact hx2 (by simpa using hm2))
          rw [this]
        · rw [setNext_ne _ _ _ hzx, setPrev_ne _ _ _ hzx]
          by_cases hzy : z = y
          · replace hzy := hzy.symm
            subst hzy
            rw [setPrev_self, setNext_ne _ _ _ (Ne.symm hpy)]
            have h1 : memOf ((u ++ [p]) ++ x :: y :: t) y
                = ⟨some x, t.head?⟩ := by
              rw [show (u ++ [p]) ++ x :: y :: t
                  = ((u ++ [p]) ++ [x]) ++ y :: t by simp]
              rw [memOf_mid (by
                rw [show ((u ++ [p]) ++ [x]) ++ y :: t
                    = (u ++ [p]) ++ x :: y :: t by simp]
                exact hnd)]
              rw [List.getLast?_concat]
            have h2 : memOf ((u ++ [p]) ++ y :: t) y
                = ⟨some p, t.head?⟩ := by
              rw [memOf_mid hnd', List.getLast?_concat]
            rw [h1, h2]
          · rw [setPrev_ne _ _ _ hzy]
            by_cases hzp : z = p
            · replace hzp := hzp.symm
              subst hzp
              rw [setNext_self]
              have h1 : memOf ((u ++ [p]) ++ x :: y :: t) p
                  = ⟨u.getLast?, (x :: y :: t).head?⟩ := by
                rw [show (u ++ [p]) ++ x :: y :: t
                    = u ++ p :: (x :: y :: t) by simp]
                exact memOf_mid (by simpa using hnd)
              have h2 : memOf ((u ++ [p]) ++ y :: t) p
                  = ⟨u.getLast?, (y :: t).head?⟩ := by
                rw [show (u ++ [p]) ++ y :: t = u ++ p :: (y :: t) by simp]
                exact memOf_mid (by simpa using hnd')
              rw [h1, h2]
              rfl
            · rw [setNext_ne _ _ _ hzp]
              by_cases hzu : z ∈ u
              · exact memOf_inner_left (c := u ++ [p]) hnd hnd'
                  (by simp [hzu])
                  (by rw [List.getLast?_concat]; simp [Ne.symm hzp])
              · by_cases hzt : z ∈ t
                · have h1 := @memOf_inner_right ((u ++ [p]) ++ [x])
                    (u ++ [p]) (y :: t) z
                    (by rw [show ((u ++ [p]) ++ [x]) ++ y :: t
                        = (u ++ [p]) ++ x :: y :: t by simp]; exact hnd)
                    hnd' (by simp [hzt]) (by simp [Ne.symm hzy])
                  rw [show (u ++ [p]) ++ x :: y :: t
                      = ((u ++ [p]) ++ [x]) ++ y :: t by simp]
                  exact h1
                · have hz1 : z ∉ (u ++ [p]) ++ x :: y :: t := by
                    intro hm
                    rcases List.mem_append.mp hm with hm1 | hm2
                    · rcases List.mem_append.mp hm1 with hm3 | hm4
                      · exact hzu hm3
                      · exact hzp (by simpa using hm4)
                    rcases List.mem_cons.mp hm2 with he | hm5
                    · exact hzx he
                    rcases List.mem_cons.mp hm5 with he | hm6
                    · exact hzy he
                    · exact hzt hm6
                  have hz2 : z ∉ (u ++ [p]) ++ y :: t := by
                    intro hm
                    rcases List.mem_append.mp hm with hm1 | hm2
                    · rcases List.mem_append.mp hm1 with hm3 | hm4
                      · exact hzu hm3
                      · exact hzp (by simpa using hm4)
                    rcases List.mem_cons.mp hm2 with he | hm5
                    · exact hzy he
                    · exact hzt hm5
                  rw [memOf_not_mem hz1, memOf_not_mem hz2]

/-- `gui_linkedlist_movedown_gen` on the last node: no move, state kept. -/
lemma movedown_gen_last {l1 : List Nat} {x : Nat} :
    gui_linkedlist_movedown_gen (stateOf (l1 ++ [x])) x
      = (0, stateOf (l1 ++ [x])) := by
  have hlast : (stateOf (l1 ++ [x])).last = some x := by
    simp only [stateOf]
    exact List.getLast?_concat _
  rw [gui_linkedlist_movedown_gen, if_pos hlast]

/-- `gui_linkedlist_movedown_gen` on a node with a successor: swaps the
two nodes and returns `1`. -/
lemma movedown_gen_stateOf {l1 l2 : List Nat} {x y : Nat}
    (hnd : (l1 ++ x :: y :: l2).Nodup) :
    gui_linkedlist_movedown_gen (stateOf (l1 ++ x :: y :: l2)) x
      = (1, stateOf (l1 ++ y :: x :: l2)) := by
  obtain ⟨hx1, hx2, _⟩ := nodup_mid hnd
  have hxy : x ≠ y := by
    intro he
    exact hx2 (by simp [he])
  have hyfacts := @nodup_mid (l1 ++ [x]) l2 y
    (by simpa using hnd)
  have hy1 : y ∉ l1 := fun hm => hyfacts.1 (by simp [hm])
  have hy2 : y ∉ l2 := hyfacts.2.1
  have hnd2 : (l1 ++ y :: x :: l2).Nodup :=
    ((List.Perm.append_left l1 (List.Perm.swap x y l2)).nodup_iff).mpr hnd
  have hlast_ne : (stateOf (l1 ++ x :: y :: l2)).last ≠ some x := by
    simp only [stateOf]
    rw [getLast?_append_right (by simp : (x :: y :: l2 : List Nat) ≠ []),
      show (x :: y :: l2 : List Nat) = [x] ++ y :: l2 from rfl,
      getLast?_append_right (by simp : (y :: l2 : List Nat) ≠ [])]
    exact getLast?_ne_of_not_mem hx2
  have hmemx : (stateOf (l1 ++ x :: y :: l2)).mem x
      = ⟨l1.getLast?, some y⟩ := by
    have hm := memOf_mid hnd
    simpa using hm
  have hmemy : (stateOf (l1 ++ x :: y :: l2)).mem y
      = ⟨some x, l2.head?⟩ := by
    have hm := @memOf_mid (l1 ++ [x]) l2 y (by simpa using hnd)
    simp only [stateOf]
    rw [show l1 ++ x :: y :: l2 = (l1 ++ [x]) ++ y :: l2 by simp, hm,
      List.getLast?_concat]
  rcases List.eq_nil_or_concat l1 with rfl | ⟨u, p, hu⟩
  · -- x is the first node
    simp only [List.nil_append] at hnd hnd2 hlast_ne hmemx hmemy ⊢
    have hmemx0 : (stateOf (x :: y :: l2)).mem x = ⟨none, some y⟩ := by
      simpa using hmemx
    have hfx : (stateOf (x :: y :: l2)).first = some x := rfl
    cases l2 with
    | nil =>
      have hmemy0 : (stateOf (x :: y :: ([] : List Nat))).mem y
          = ⟨some x, none⟩ := by simpa using hmemy
      have e : gui_linkedlist_movedown_gen (stateOf [x, y]) x
          = (1, ⟨some y, some x,
              setPrev (setNext (setPrev (setNext
                (stateOf [x, y]).mem y (some x)) y none) x none) x (some y)⟩) := by
        rw [gui_linkedlist_movedown_gen, if_neg hlast_ne]
        simp only [hmemx0, hmemy0]
        rw [if_pos hfx]
      rw [e]
      refine congrArg (Prod.mk 1) ?_
      apply LLState.exte
      · rfl
      · rfl
      · intro z
        dsimp only [stateOf]
        by_cases hzx : z = x
        · replace hzx := hzx.symm
          subst hzx
          rw [setPrev_self, setNext_self, setPrev_ne _ _ _ hxy,
            setNext_ne _ _ _ hxy]
          have hm := @memOf_mid [y] ([] : List Nat) x (by simpa using hnd2)
          simp only [List.cons_append, List.nil_append] at hm
          rw [hm]
          rfl
        · rw [setPrev_ne _ _ _ hzx, setNext_ne _ _ _ hzx]
          by_cases hzy : z = y
          · replace hzy := hzy.symm
            subst hzy
            rw [setPrev_self, setNext_self]
            have hm := @memOf_mid [] (x :: []) y (by simpa using hnd2)
            simp only [List.nil_append] at hm
            rw [hm]
            rfl
          · rw [setPrev_ne _ _ _ hzy, setNext_ne _ _ _ hzy]
            have hz1 : z ∉ [x, y] := by
              intro hm
              rcases List.mem_cons.mp hm with he | hm2
              · exact hzx he
              rcases List.mem_cons.mp hm2 with he | hm3
              · exact hzy he
              · exact absurd hm3 (by simp)
            have hz2 : z ∉ [y, x] := by
              intro hm
              rcases List.mem_cons.mp hm with he | hm2
              · exact hzy he
              rcases List.mem_cons.mp hm2 with he | hm3
              · exact hzx he
              · exact absurd hm3 (by simp)
            rw [memOf_not_mem hz1, memOf_not_mem hz2]
    | cons nn t =>
      have hxnn : x ≠ nn := by
        intro he
        exact hx2 (by simp [he])
      have hynn : y ≠ nn := by
        intro he
        exact hy2 (by simp [he])
      have hmemy1 : (stateOf (x :: y :: nn :: t)).mem y
          = ⟨some x, some nn⟩ := by simpa using hmemy
      have e : gui_linkedlist_movedown_gen (stateOf (x :: y :: nn :: t)) x
          = (1, ⟨some y, (stateOf (x :: y :: nn :: t)).last,
              setPrev (setNext (setPrev (setNext (setPrev
                (stateOf (x :: y :: nn :: t)).mem nn (some x))
                y (some x)) y none) x (some nn)) x (some y)⟩) := by
        rw [gui_linkedlist_movedown_gen, if_neg hlast_ne]
        simp only [hmemx0, hmemy1]
        rw [if_pos hfx]
      rw [e]
      refine congrArg (Prod.mk 1) ?_
      apply LLState.exte
      · rfl
      · simp only [stateOf]
        rw [show (x :: y :: nn :: t : List Nat) = [x, y] ++ nn :: t from rfl,
          show (y :: x :: nn :: t : List Nat) = [y, x] ++ nn :: t from rfl,
          getLast?_append_right (by simp : (nn :: t : List Nat) ≠ []),
          getLast?_append_right (by simp : (nn :: t : List Nat) ≠ [])]
      · intro z
        dsimp only [stateOf]
        by_cases hzx : z = x
        · replace hzx := hzx.symm
          subst hzx
          rw [setPrev_self, setNext_self, setPrev_ne _ _ _ hxy,
            setNext_ne _ _ _ hxy, setPrev_ne _ _ _ hxnn]
          have hm := @memOf_mid [y] (nn :: t) x (by simpa using hnd2)
          simp only [List.cons_append, List.nil_append] at hm
          rw [hm]
          rfl
        · rw [setPrev_ne _ _ _ hzx, setNext_ne _ _ _ hzx]
          by_cases hzy : z = y
          · replace hzy := hzy.symm
            subst hzy
            rw [setPrev_self, setNext_self, setPrev_ne _ _ _ hynn]
            have hm := @memOf_mid [] (x :: nn :: t) y (by simpa using hnd2)
            simp only [List.nil_append] at hm
            rw [hm]
            rfl
          · rw [setPrev_ne _ _ _ hzy, setNext_ne _ _ _ hzy]
            by_cases hznn : z = nn
            · replace hznn := hznn.symm
              subst hznn
              rw [setPrev_self]
              have h1 : memOf (x :: y :: nn :: t) nn
                  = ⟨some y, t.head?⟩ := by
                have hm := @memOf_mid [x, y] t nn (by simpa using hnd)
                simpa using hm
              have h2 : memOf (y :: x :: nn :: t) nn
                  = ⟨some x, t.head?⟩ := by
                have hm := @memOf_mid [y, x] t nn (by simpa using hnd2)
                simpa using hm
              rw [h1, h2]
            · rw [setPrev_ne _ _ _ hznn]
              by_cases hzt : z ∈ t
              · have hm := @memOf_inner_right [x, y] [y, x] (nn :: t) z
                  (by simpa using hnd) (by simpa using hnd2)
                  (by simp [hzt]) (by simp [Ne.symm hznn])
                simpa using hm
              · have hz1 : z ∉ x :: y :: nn :: t := by
                  intro hm
                  rcases List.mem_cons.mp hm with he | hm2
                  · exact hzx he
                  rcases List.mem_cons.mp hm2 with he | hm3
                  · exact hzy he
                  rcases List.mem_cons.mp hm3 with he | hm4
                  · exact hznn he
                  · exact hzt hm4
                have hz2 : z ∉ y :: x :: nn :: t := by
                  intro hm
                  rcases List.mem_cons.mp hm with he | hm2
                  · exact hzy he
                  rcases List.mem_cons.mp hm2 with he | hm3
                  · exact hzx he
                  rcases List.mem_cons.mp hm3 with he | hm4
                  · exact hznn he
                  · exact hzt hm4
                rw [memOf_not_mem hz1, memOf_not_mem hz2]
  · -- x has a predecessor p
    simp only [List.concat_eq_append] at hu
    subst hu
    have hpx : p ≠ x := by
      intro he
      exact hx1 (by simp [he])
    have hpy : p ≠ y := by
      intro he
      exact hy1 (by simp [he])
    have hfirst_ne : (stateOf ((u ++ [p]) ++ x :: y :: l2)).first
        ≠ some x := by
      simp only [stateOf]
      rw [head?_append_left (by simp : (u ++ [p] : List Nat) ≠ [])]
      exact head?_ne_of_not_mem hx1
    have hmemx0 : (stateOf ((u ++ [p]) ++ x :: y :: l2)).mem x
        = ⟨some p, some y⟩ := by
      rw [hmemx, List.getLast?_concat]
    cases l2 with
    | nil =>
      have hmemy0 : (stateOf ((u ++ [p]) ++ x :: y :: ([] : List Nat))).mem y
          = ⟨some x, none⟩ := by simpa using hmemy
      have e : gui_linkedlist_movedown_gen
            (stateOf ((u ++ [p]) ++ x :: y :: ([] : List Nat))) x
          = (1, ⟨(stateOf ((u ++ [p]) ++ x :: y :: ([] : List Nat))).first,
              some x,
              setNext (setPrev (setNext (setPrev (setNext
                (stateOf ((u ++ [p]) ++ x :: y :: ([] : List Nat))).mem
                y (some x)) y (some p)) x none) x (some y)) p (some y)⟩) := by
        rw [gui_linkedlist_movedown_gen, if_neg hlast_ne]
        simp only [hmemx0, hmemy0]
        rw [if_neg hfirst_ne]
      rw [e]
      refine congrArg (Prod.mk 1) ?_
      apply LLState.exte
      · simp only [stateOf]
        rw [head?_append_left (by simp : (u ++ [p] : List Nat) ≠ []),
          head?_append_left (by simp : (u ++ [p] : List Nat) ≠ [])]
      · simp only [stateOf]
        rw [show (u ++ [p]) ++ y :: x :: ([] : List Nat)
            = ((u ++ [p]) ++ [y]) ++ [x] by simp, List.getLast?_concat]
      · intro z
        dsimp only [stateOf]
        by_cases hzp : z = p
        · replace hzp := hzp.symm
          subst hzp
          rw [setNext_self, setPrev_ne _ _ _ hpx, setNext_ne _ _ _ hpx,
            setPrev_ne _ _ _ hpy, setNext_ne _ _ _ hpy]
          have h1 : memOf ((u ++ [p]) ++ x :: y :: ([] : List Nat)) p
              = ⟨u.getLast?, some x⟩ := by
            have hm := @memOf_mid u (x :: y :: ([] : List Nat)) p
              (by simpa using hnd)
            simpa using hm
          have h2 : memOf ((u ++ [p]) ++ y :: x :: ([] : List Nat)) p
              = ⟨u.getLast?, some y⟩ := by
            have hm := @memOf_mid u (y :: x :: ([] : List Nat)) p
              (by simpa using hnd2)
            simpa using hm
          rw [h1, h2]
        · rw [setNext_ne _ _ _ hzp]
          by_cases hzx : z = x
          · replace hzx := hzx.symm
            subst hzx
            rw [setPrev_self, setNext_self, setPrev_ne _ _ _ hxy,
              setNext_ne _ _ _ hxy]
            have hm := @memOf_mid ((u ++ [p]) ++ [y]) ([] : List Nat) x
              (by simpa using hnd2)
            rw [show (u ++ [p]) ++ y :: x :: ([] : List Nat)
                = ((u ++ [p]) ++ [y]) ++ x :: ([] : List Nat) by simp,
              hm, List.getLast?_concat]
            rfl
          · rw [setPrev_ne _ _ _ hzx, setNext_ne _ _ _ hzx]
            by_cases hzy : z = y
            · replace hzy := hzy.symm
              subst hzy
              rw [setPrev_self, setNext_self]
              have h2 : memOf ((u ++ [p]) ++ y :: x :: ([] : List Nat)) y
                  = ⟨some p, some x⟩ := by
                have hm := @memOf_mid (u ++ [p]) (x :: ([] : List Nat)) y
                  (by simpa using hnd2)
                rw [hm, List.getLast?_concat]
                rfl
              rw [h2]
            · rw [setPrev_ne _ _ _ hzy, setNext_ne _ _ _ hzy]
              by_cases hzu : z ∈ u
              · exact memOf_inner_left (c := u ++ [p]) hnd hnd2
                  (by simp [hzu])
                  (by rw [List.getLast?_concat]; simp [Ne.symm hzp])
              · have hzm : ∀ w : List Nat, z ∉ u → z ∉ (u ++ [p]) ++ w
                    ∨ True := fun _ _ => Or.inr trivial
                have hz1 : z ∉ (u ++ [p]) ++ x :: y :: ([] : List Nat) := by
                  intro hm
                  rcases List.mem_append.mp hm with hm1 | hm2
                  · rcases List.mem_append.mp hm1 with hm3 | hm4
                    · exact hzu hm3
                    · exact hzp (by simpa using hm4)
                  rcases List.mem_cons.mp hm2 with he | hm5
                  · exact hzx he
                  rcases List.mem_cons.mp hm5 with he | hm6
                  · exact hzy he
                  · exact absurd hm6 (by simp)
                have hz2 : z ∉ (u ++ [p]) ++ y :: x :: ([] : List Nat) := by
                  intro hm
                  rcases List.mem_append.mp hm with hm1 | hm2
                  · rcases List.mem_append.mp hm1 with hm3 | hm4
                    · exact hzu hm3
                    · exact hzp (by simpa using hm4)
                  rcases List.mem_cons.mp hm2 with he | hm5
                  · exact hzy he
                  rcases List.mem_cons.mp hm5 with he | hm6
                  · exact hzx he
                  · exact absurd hm6 (by simp)
                rw [memOf_not_mem hz1, memOf_not_mem hz2]
    | cons nn t =>
      have hxnn : x ≠ nn := by
        intro he
        exact hx2 (by simp [he])
      have hynn : y ≠ nn := by
        intro he
        exact hy2 (by simp [he])
      have hpnn : p ≠ nn := by
        intro he
        subst he
        have hnf := @nodup_mid ((u ++ [p]) ++ [x]) (p :: t)
          y (by simpa using hnd)
        have h3 := hnf.2.2
        rw [List.nodup_append] at h3
        exact h3.2.2 (show p ∈ u ++ [p] ++ [x] by simp) (show p ∈ p :: t by simp)
      have hmemy1 : (stateOf ((u ++ [p]) ++ x :: y :: nn :: t)).mem y
          = ⟨some x, some nn⟩ := by simpa using hmemy
      have e : gui_linkedlist_movedown_gen
            (stateOf ((u ++ [p]) ++ x :: y :: nn :: t)) x
          = (1, ⟨(stateOf ((u ++ [p]) ++ x :: y :: nn :: t)).first,
              (stateOf ((u ++ [p]) ++ x :: y :: nn :: t)).last,
              setNext (setPrev (setNext (setPrev (setNext (setPrev
                (stateOf ((u ++ [p]) ++ x :: y :: nn :: t)).mem nn (some x))
                y (some x)) y (some p)) x (some nn)) x (some y))
                p (some y)⟩) := by
        rw [gui_linkedlist_movedown_gen, if_neg hlast_ne]
        simp only [hmemx0, hmemy1]
        rw [if_neg hfirst_ne]
      rw [e]
      refine congrArg (Prod.mk 1) ?_
      apply LLState.exte
      · simp only [stateOf]
        rw [head?_append_left (by simp : (u ++ [p] : List Nat) ≠ []),
          head?_append_left (by simp : (u ++ [p] : List Nat) ≠ [])]
      · simp only [stateOf]
        rw [getLast?_append_right (by simp : (x :: y :: nn :: t : List Nat) ≠ []),
          getLast?_append_right (by simp : (y :: x :: nn :: t : List Nat) ≠ []),
          show (x :: y :: nn :: t : List Nat) = [x, y] ++ nn :: t from rfl,
          show (y :: x :: nn :: t : List Nat) = [y, x] ++ nn :: t from rfl,
          getLast?_append_right (by simp : (nn :: t : List Nat) ≠ []),
          getLast?_append_right (by simp : (nn :: t : List Nat) ≠ [])]
      · intro z
        dsimp only [stateOf]
        by_cases hzp : z = p
        · replace hzp := hzp.symm
          subst hzp
          rw [setNext_self, setPrev_ne _ _ _ hpx, setNext_ne _ _ _ hpx,
            setPrev_ne _ _ _ hpy, setNext_ne _ _ _ hpy,
            setPrev_ne _ _ _ hpnn]
          have h1 : memOf ((u ++ [p]) ++ x :: y :: nn :: t) p
              = ⟨u.getLast?, some x⟩ := by
            have hm := @memOf_mid u (x :: y :: nn :: t) p (by simpa using hnd)
            simpa using hm
          have h2 : memOf ((u ++ [p]) ++ y :: x :: nn :: t) p
              = ⟨u.getLast?, some y⟩ := by
            have hm := @memOf_mid u (y :: x :: nn :: t) p (by simpa using hnd2)
            simpa using hm
          rw [h1, h2]
        · rw [setNext_ne _ _ _ hzp]
          by_cases hzx : z = x
          · replace hzx := hzx.symm
            subst hzx
            rw [setPrev_self, setNext_self, setPrev_ne _ _ _ hxy,
              setNext_ne _ _ _ hxy, setPrev_ne _ _ _ hxnn]
            have hm := @memOf_mid ((u ++ [p]) ++ [y]) (nn :: t) x
              (by simpa using hnd2)
            rw [show (u ++ [p]) ++ y :: x :: nn :: t
                = ((u ++ [p]) ++ [y]) ++ x :: nn :: t by simp,
              hm, List.getLast?_concat]
            rfl
          · rw [setPrev_ne _ _ _ hzx, setNext_ne _ _ _ hzx]
            by_cases hzy : z = y
            · replace hzy := hzy.symm
              subst hzy
              rw [setPrev_self, setNext_self, setPrev_ne _ _ _ hynn]
              have h2 : memOf ((u ++ [p]) ++ y :: x :: nn :: t) y
                  = ⟨some p, some x⟩ := by
                have hm := @memOf_mid (u ++ [p]) (x :: nn :: t) y
                  (by simpa using hnd2)
                rw [hm, List.getLast?_concat]
                rfl
              rw [h2]
            · rw [setPrev_ne _ _ _ hzy, setNext_ne _ _ _ hzy]
              by_cases hznn : z = nn
              · replace hznn := hznn.symm
                subst hznn
                rw [setPrev_self]
                have h1 : memOf ((u ++ [p]) ++ x :: y :: nn :: t) nn
                    = ⟨some y, t.head?⟩ := by
                  have hm := @memOf_mid ((u ++ [p]) ++ [x, y]) t nn
                    (by simpa using hnd)
                  rw [show (u ++ [p]) ++ x :: y :: nn :: t
                      = ((u ++ [p]) ++ [x, y]) ++ nn :: t by simp, hm,
                    show (u ++ [p]) ++ [x, y] = ((u ++ [p]) ++ [x]) ++ [y]
                      by simp, List.getLast?_concat]
                have h2 : memOf ((u ++ [p]) ++ y :: x :: nn :: t) nn
                    = ⟨some x, t.head?⟩ := by
                  have hm := @memOf_mid ((u ++ [p]) ++ [y, x]) t nn
                    (by simpa using hnd2)
                  rw [show (u ++ [p]) ++ y :: x :: nn :: t
                      = ((u ++ [p]) ++ [y, x]) ++ nn :: t by simp, hm,
                    show (u ++ [p]) ++ [y, x] = ((u ++ [p]) ++ [y]) ++ [x]
                      by simp, List.getLast?_concat]
                rw [h1, h2]
              · rw [setPrev_ne _ _ _ hznn]
                by_cases hzu : z ∈ u
                · exact memOf_inner_left (c := u ++ [p]) hnd hnd2
                    (by simp [hzu])
                    (by rw [List.getLast?_concat]; simp [Ne.symm hzp])
                · by_cases hzt : z ∈ t
                  · have hm := @memOf_inner_right ((u ++ [p]) ++ [x, y])
                      ((u ++ [p]) ++ [y, x]) (nn :: t) z
                      (by rw [show ((u ++ [p]) ++ [x, y]) ++ nn :: t
                          = (u ++ [p]) ++ x :: y :: nn :: t by simp]
                          exact hnd)
                      (by rw [show ((u ++ [p]) ++ [y, x]) ++ nn :: t
                          = (u ++ [p]) ++ y :: x :: nn :: t by simp]
                          exact hnd2)
                      (by simp [hzt]) (by simp [Ne.symm hznn])
                    rw [show (u ++ [p]) ++ x :: y :: nn :: t
                        = ((u ++ [p]) ++ [x, y]) ++ nn :: t by simp,
                      show (u ++ [p]) ++ y :: x :: nn :: t
                        = ((u ++ [p]) ++ [y, x]) ++ nn :: t by simp]
                    exact hm
                  · have hz1 : z ∉ (u ++ [p]) ++ x :: y :: nn :: t := by
                      intro hm
                      rcases List.mem_append.mp hm with hm1 | hm2
                      · rcases List.mem_append.mp hm1 with hm3 | hm4
                        · exact hzu hm3
                        · exact hzp (by simpa using hm4)
                      rcases List.mem_cons.mp hm2 with he | hm5
                      · exact hzx he
                      rcases List.mem_cons.mp hm5 with he | hm6
                      · exact hzy he
                      rcases List.mem_cons.mp hm6 with he | hm7
                      · exact hznn he
                      · exact hzt hm7
                    have hz2 : z ∉ (u ++ [p]) ++ y :: x :: nn :: t := by
                      intro hm
                      rcases List.mem_append.mp hm with hm1 | hm2
                      · rcases List.mem_append.mp hm1 with hm3 | hm4
                        · exact hzu hm3
                        · exact hzp (by simpa using hm4)
                      rcases List.mem_cons.mp hm2 with he | hm5
                      · exact hzy he
                      rcases List.mem_cons.mp hm5 with he | hm6
                      · exact hzx he
                      rcases List.mem_cons.mp hm6 with he | hm7
                      · exact hznn he
                      · exact hzt hm7
                    rw [memOf_not_mem hz1, memOf_not_mem hz2]


/-- `gui_linkedlist_moveup_gen` on the first node: no move, state kept. -/
lemma moveup_gen_first {l2 : List Nat} {x : Nat} :
    gui_linkedlist_moveup_gen (stateOf (x :: l2)) x
      = (0, stateOf (x :: l2)) := by
  have hf : (stateOf (x :: l2)).first = some x := rfl
  rw [gui_linkedlist_moveup_gen, if_pos hf]

/-- `gui_linkedlist_moveup_gen` on a node with a predecessor: swaps the
two nodes and returns `1`. -/
lemma moveup_gen_stateOf {l1 l2 : List Nat} {x y : Nat}
    (hnd : (l1 ++ x :: y :: l2).Nodup) :
    gui_linkedlist_moveup_gen (stateOf (l1 ++ x :: y :: l2)) y
      = (1, stateOf (l1 ++ y :: x :: l2)) := by
  obtain ⟨hx1, hx2, _⟩ := nodup_mid hnd
  have hxy : x ≠ y := by
    intro he
    exact hx2 (by simp [he])
  have hyfacts := @nodup_mid (l1 ++ [x]) l2 y
    (by simpa using hnd)
  have hy1 : y ∉ l1 := fun hm => hyfacts.1 (by simp [hm])
  have hy2 : y ∉ l2 := hyfacts.2.1
  have hnd2 : (l1 ++ y :: x :: l2).Nodup :=
    ((List.Perm.append_left l1 (List.Perm.swap x y l2)).nodup_iff).mpr hnd
  have hmemx : (stateOf (l1 ++ x :: y :: l2)).mem x
      = ⟨l1.getLast?, some y⟩ := by
    have hm := memOf_mid hnd
    simpa using hm
  have hmemy : (stateOf (l1 ++ x :: y :: l2)).mem y
      = ⟨some x, l2.head?⟩ := by
    have hm := @memOf_mid (l1 ++ [x]) l2 y (by simpa using hnd)
    simp only [stateOf]
    rw [show l1 ++ x :: y :: l2 = (l1 ++ [x]) ++ y :: l2 by simp, hm,
      List.getLast?_concat]
  rcases List.eq_nil_or_concat l1 with rfl | ⟨u, p, hu⟩
  · -- x is the first node, so PrevPrev is null
    simp only [List.nil_append] at hnd hnd2 hmemx hmemy ⊢
    have hmemx0 : (stateOf (x :: y :: l2)).mem x = ⟨none, some y⟩ := by
      simpa using hmemx
    have hfirst_ne : (stateOf (x :: y :: l2)).first ≠ some y := by
      intro he
      exact hxy (by simpa [stateOf] using he)
    cases l2 with
    | nil =>
      have hmemy0 : (stateOf (x :: y :: ([] : List Nat))).mem y
          = ⟨some x, none⟩ := by simpa using hmemy
      have hlast : (stateOf (x :: y :: ([] : List Nat))).last = some y := rfl
      have e : gui_linkedlist_moveup_gen (stateOf [x, y]) y
          = (1, ⟨some y, some x,
              setNext (setPrev (setNext (setPrev
                (stateOf [x, y]).mem x (some y)) x none) y none) y (some x)⟩) := by
        rw [gui_linkedlist_moveup_gen, if_neg hfirst_ne]
        simp only [hmemx0, hmemy0]
        rw [if_pos hlast]
      rw [e]
      refine congrArg (Prod.mk 1) ?_
      apply LLState.exte
      · rfl
      · rfl
      · intro z
        dsimp only [stateOf]
        by_cases hzy : z = y
        · replace hzy := hzy.symm
          subst hzy
          rw [setNext_self, setPrev_self]
          have hm := @memOf_mid [] (x :: []) y (by simpa using hnd2)
          simp only [List.nil_append] at hm
          rw [hm]
          rfl
        · rw [setNext_ne _ _ _ hzy, setPrev_ne _ _ _ hzy]
          by_cases hzx : z = x
          · replace hzx := hzx.symm
            subst hzx
            rw [setNext_self, setPrev_self]
            have hm := @memOf_mid [y] ([] : List Nat) x (by simpa using hnd2)
            simp only [List.cons_append, List.nil_append] at hm
            rw [hm]
            rfl
          · rw [setNext_ne _ _ _ hzx, setPrev_ne _ _ _ hzx]
            have hz1 : z ∉ [x, y] := by
              intro hm
              rcases List.mem_cons.mp hm with he | hm2
              · exact hzx he
              rcases List.mem_cons.mp hm2 with he | hm3
              · exact hzy he
              · exact absurd hm3 (by simp)
            have hz2 : z ∉ [y, x] := by
              intro hm
              rcases List.mem_cons.mp hm with he | hm2
              · exact hzy he
              rcases List.mem_cons.mp hm2 with he | hm3
              · exact hzx he
              · exact absurd hm3 (by simp)
            rw [memOf_not_mem hz1, memOf_not_mem hz2]
    | cons nn t =>
      have hxnn : x ≠ nn := by
        intro he
        exact hx2 (by simp [he])
      have hynn : y ≠ nn := by
        intro he
        exact hy2 (by simp [he])
      have hmemy1 : (stateOf (x :: y :: nn :: t)).mem y
          = ⟨some x, some nn⟩ := by simpa using hmemy
      have hlast_ne : (stateOf (x :: y :: nn :: t)).last ≠ some y := by
        simp only [stateOf]
        rw [show (x :: y :: nn :: t : List Nat) = [x, y] ++ nn :: t from rfl,
          getLast?_append_right (by simp : (nn :: t : List Nat) ≠ [])]
        exact getLast?_ne_of_not_mem hy2
      have e : gui_linkedlist_moveup_gen (stateOf (x :: y :: nn :: t)) y
          = (1, ⟨some y, (stateOf (x :: y :: nn :: t)).last,
              setPrev (setNext (setPrev (setNext (setPrev
                (stateOf (x :: y :: nn :: t)).mem x (some y)) x (some nn))
                y none) y (some x)) nn (some x)⟩) := by
        rw [gui_linkedlist_moveup_gen, if_neg hfirst_ne]
        simp only [hmemx0, hmemy1]
        rw [if_neg hlast_ne]
      rw [e]
      refine congrArg (Prod.mk 1) ?_
      apply LLState.exte
      · rfl
      · simp only [stateOf]
        rw [show (x :: y :: nn :: t : List Nat) = [x, y] ++ nn :: t from rfl,
          show (y :: x :: nn :: t : List Nat) = [y, x] ++ nn :: t from rfl,
          getLast?_append_right (by simp : (nn :: t : List Nat) ≠ []),
          getLast?_append_right (by simp : (nn :: t : List Nat) ≠ [])]
      · intro z
        dsimp only [stateOf]
        by_cases hznn : z = nn
        · replace hznn := hznn.symm
          subst hznn
          rw [setPrev_self, setNext_ne _ _ _ (Ne.symm hynn),
            setPrev_ne _ _ _ (Ne.symm hynn), setNext_ne _ _ _ (Ne.symm hxnn),
            setPrev_ne _ _ _ (Ne.symm hxnn)]
          have h1 : memOf (x :: y :: nn :: t) nn = ⟨some y, t.head?⟩ := by
            have hm := @memOf_mid [x, y] t nn (by simpa using hnd)
            simpa using hm
          have h2 : memOf (y :: x :: nn :: t) nn = ⟨some x, t.head?⟩ := by
            have hm := @memOf_mid [y, x] t nn (by simpa using hnd2)
            simpa using hm
          rw [h1, h2]
        · rw [setPrev_ne _ _ _ hznn]
          by_cases hzy : z = y
          · replace hzy := hzy.symm
            subst hzy
            rw [setNext_self, setPrev_self]
            have hm := @memOf_mid [] (x :: nn :: t) y (by simpa using hnd2)
            simp only [List.nil_append] at hm
            rw [hm]
            rfl
          · rw [setNext_ne _ _ _ hzy, setPrev_ne _ _ _ hzy]
            by_cases hzx : z = x
            · replace hzx := hzx.symm
              subst hzx
              rw [setNext_self, setPrev_self]
              have hm := @memOf_mid [y] (nn :: t) x (by simpa using hnd2)
              simp only [List.cons_append, List.nil_append] at hm
              rw [hm]
              rfl
            · rw [setNext_ne _ _ _ hzx, setPrev_ne _ _ _ hzx]
              by_cases hzt : z ∈ t
              · have hm := @memOf_inner_right [x, y] [y, x] (nn :: t) z
                  (by simpa using hnd) (by simpa using hnd2)
                  (by simp [hzt]) (by simp [Ne.symm hznn])
                simpa using hm
              · have hz1 : z ∉ x :: y :: nn :: t := by
                  intro hm
                  rcases List.mem_cons.mp hm with he | hm2
                  · exact hzx he
                  rcases List.mem_cons.mp hm2 with he | hm3
                  · exact hzy he
                  rcases List.mem_cons.mp hm3 with he | hm4
                  · exact hznn he
                  · exact hzt hm4
                have hz2 : z ∉ y :: x :: nn :: t := by
                  intro hm
                  rcases List.mem_cons.mp hm with he | hm2
                  · exact hzy he
                  rcases List.mem_cons.mp hm2 with he | hm3
                  · exact hzx he
                  rcases List.mem_cons.mp hm3 with he | hm4
                  · exact hznn he
                  · exact hzt hm4
                rw [memOf_not_mem hz1, memOf_not_mem hz2]
  · -- x has a predecessor p, so PrevPrev = p
    simp only [List.concat_eq_append] at hu
    subst hu
    have hpx : p ≠ x := by
      intro he
      exact hx1 (by simp [he])
    have hpy : p ≠ y := by
      intro he
      exact hy1 (by simp [he])
    have hfirst_ne : (stateOf ((u ++ [p]) ++ x :: y :: l2)).first
        ≠ some y := by
      simp only [stateOf]
      rw [head?_append_left (by simp : (u ++ [p] : List Nat) ≠ [])]
      exact head?_ne_of_not_mem hy1
    have hmemx0 : (stateOf ((u ++ [p]) ++ x :: y :: l2)).mem x
        = ⟨some p, some y⟩ := by
      rw [hmemx, List.getLast?_concat]
    cases l2 with
    | nil =>
      have hmemy0 : (stateOf ((u ++ [p]) ++ x :: y :: ([] : List Nat))).mem y
          = ⟨some x, none⟩ := by simpa using hmemy
      have hlast : (stateOf ((u ++ [p]) ++ x :: y :: ([] : List Nat))).last
          = some y := by
        simp only [stateOf]
        rw [show (u ++ [p]) ++ x :: y :: ([] : List Nat)
            = ((u ++ [p]) ++ [x]) ++ [y] by simp, List.getLast?_concat]
      have e : gui_linkedlist_moveup_gen
            (stateOf ((u ++ [p]) ++ x :: y :: ([] : List Nat))) y
          = (1, ⟨(stateOf ((u ++ [p]) ++ x :: y :: ([] : List Nat))).first,
              some x,
              setNext (setPrev (setNext (setPrev (setNext
                (stateOf ((u ++ [p]) ++ x :: y :: ([] : List Nat))).mem
                p (some y)) x (some y)) x none) y (some p)) y (some x)⟩) := by
        rw [gui_linkedlist_moveup_gen, if_neg hfirst_ne]
        simp only [hmemx0, hmemy0]
        rw [if_pos hlast]
      rw [e]
      refine congrArg (Prod.mk 1) ?_
      apply LLState.exte
      · simp only [stateOf]
        rw [head?_append_left (by simp : (u ++ [p] : List Nat) ≠ []),
          head?_append_left (by simp : (u ++ [p] : List Nat) ≠ [])]
      · simp only [stateOf]
        rw [show (u ++ [p]) ++ y :: x :: ([] : List Nat)
            = ((u ++ [p]) ++ [y]) ++ [x] by simp, List.getLast?_concat]
      · intro z
        dsimp only [stateOf]
        by_cases hzy : z = y
        · replace hzy := hzy.symm
          subst hzy
          rw [setNext_self, setPrev_self]
          have h2 : memOf ((u ++ [p]) ++ y :: x :: ([] : List Nat)) y
              = ⟨some p, some x⟩ := by
            have hm := @memOf_mid (u ++ [p]) (x :: ([] : List Nat)) y
              (by simpa using hnd2)
            rw [hm, List.getLast?_concat]
            rfl
          rw [h2]
        · rw [setNext_ne _ _ _ hzy, setPrev_ne _ _ _ hzy]
          by_cases hzx : z = x
          · replace hzx := hzx.symm
            subst hzx
            rw [setNext_self, setPrev_self, setNext_ne _ _ _ hpx.symm]
            have hm := @memOf_mid ((u ++ [p]) ++ [y]) ([] : List Nat) x
              (by simpa using hnd2)
            rw [show (u ++ [p]) ++ y :: x :: ([] : List Nat)
                = ((u ++ [p]) ++ [y]) ++ x :: ([] : List Nat) by simp,
              hm, List.getLast?_concat]
            rfl
          · rw [setNext_ne _ _ _ hzx, setPrev_ne _ _ _ hzx]
            by_cases hzp : z = p
            · replace hzp := hzp.symm
              subst hzp
              rw [setNext_self]
              have h1 : memOf ((u ++ [p]) ++ x :: y :: ([] : List Nat)) p
                  = ⟨u.getLast?, some x⟩ := by
                have hm := @memOf_mid u (x :: y :: ([] : List Nat)) p
                  (by simpa using hnd)
                simpa using hm
              have h2 : memOf ((u ++ [p]) ++ y :: x :: ([] : List Nat)) p
                  = ⟨u.getLast?, some y⟩ := by
                have hm := @memOf_mid u (y :: x :: ([] : List Nat)) p
                  (by simpa using hnd2)
                simpa using hm
              rw [h1, h2]
            · rw [setNext_ne _ _ _ hzp]
              by_cases hzu : z ∈ u
              · exact memOf_inner_left (c := u ++ [p]) hnd hnd2
                  (by simp [hzu])
                  (by rw [List.getLast?_concat]; simp [Ne.symm hzp])
              · have hz1 : z ∉ (u ++ [p]) ++ x :: y :: ([] : List Nat) := by
                  intro hm
                  rcases List.mem_append.mp hm with hm1 | hm2
                  · rcases List.mem_append.mp hm1 with hm3 | hm4
                    · exact hzu hm3
                    · exact hzp (by simpa using hm4)
                  rcases List.mem_cons.mp hm2 with he | hm5
                  · exact hzx he
                  rcases List.mem_cons.mp hm5 with he | hm6
                  · exact hzy he
                  · exact absurd hm6 (by simp)
                have hz2 : z ∉ (u ++ [p]) ++ y :: x :: ([] : List Nat) := by
                  intro hm
                  rcases List.mem_append.mp hm with hm1 | hm2
                  · rcases List.mem_append.mp hm1 with hm3 | hm4
                    · exact hzu hm3
                    · exact hzp (by simpa using hm4)
                  rcases List.mem_cons.mp hm2 with he | hm5
                  · exact hzy he
                  rcases List.mem_cons.mp hm5 with he | hm6
                  · exact hzx he
                  · exact absurd hm6 (by simp)
                rw [memOf_not_mem hz1, memOf_not_mem hz2]
    | cons nn t =>
      have hxnn : x ≠ nn := by
        intro he
        exact hx2 (by simp [he])
      have hynn : y ≠ nn := by
        intro he
        exact hy2 (by simp [he])
      have hpnn : p ≠ nn := by
        intro he
        subst he
        have hnf := @nodup_mid ((u ++ [p]) ++ [x]) (p :: t)
          y (by simpa using hnd)
        have h3 := hnf.2.2
        rw [List.nodup_append] at h3
        exact h3.2.2 (show p ∈ u ++ [p] ++ [x] by simp) (show p ∈ p :: t by simp)
      have hmemy1 : (stateOf ((u ++ [p]) ++ x :: y :: nn :: t)).mem y
          = ⟨some x, some nn⟩ := by simpa using hmemy
      have hlast_ne : (stateOf ((u ++ [p]) ++ x :: y :: nn :: t)).last
          ≠ some y := by
        simp only [stateOf]
        rw [getLast?_append_right (by simp : (x :: y :: nn :: t : List Nat) ≠ []),
          show (x :: y :: nn :: t : List Nat) = [x, y] ++ nn :: t from rfl,
          getLast?_append_right (by simp : (nn :: t : List Nat) ≠ [])]
        exact getLast?_ne_of_not_mem hy2
      have e : gui_linkedlist_moveup_gen
            (stateOf ((u ++ [p]) ++ x :: y :: nn :: t)) y
          = (1, ⟨(stateOf ((u ++ [p]) ++ x :: y :: nn :: t)).first,
              (stateOf ((u ++ [p]) ++ x :: y :: nn :: t)).last,
              setPrev (setNext (setPrev (setNext (setPrev (setNext
                (stateOf ((u ++ [p]) ++ x :: y :: nn :: t)).mem
                p (some y)) x (some y)) x (some nn)) y (some p)) y (some x))
                nn (some x)⟩) := by
        rw [gui_linkedlist_moveup_gen, if_neg hfirst_ne]
        simp only [hmemx0, hmemy1]
        rw [if_neg hlast_ne]
      rw [e]
      refine congrArg (Prod.mk 1) ?_
      apply LLState.exte
      · simp only [stateOf]
        rw [head?_append_left (by simp : (u ++ [p] : List Nat) ≠ []),
          head?_append_left (by simp : (u ++ [p] : List Nat) ≠ [])]
      · simp only [stateOf]
        rw [getLast?_append_right (by simp : (x :: y :: nn :: t : List Nat) ≠ []),
          getLast?_append_right (by simp : (y :: x :: nn :: t : List Nat) ≠ []),
          show (x :: y :: nn :: t : List Nat) = [x, y] ++ nn :: t from rfl,
          show (y :: x :: nn :: t : List Nat) = [y, x] ++ nn :: t from rfl,
          getLast?_append_right (by simp : (nn :: t : List Nat) ≠ []),
          getLast?_append_right (by simp : (nn :: t : List Nat) ≠ [])]
      · intro z
        dsimp only [stateOf]
        by_cases hznn : z = nn
        · replace hznn := hznn.symm
          subst hznn
          rw [setPrev_self, setNext_ne _ _ _ (Ne.symm hynn),
            setPrev_ne _ _ _ (Ne.symm hynn), setNext_ne _ _ _ (Ne.symm hxnn),
            setPrev_ne _ _ _ (Ne.symm hxnn), setNext_ne _ _ _ (Ne.symm hpnn)]
          have h1 : memOf ((u ++ [p]) ++ x :: y :: nn :: t) nn
              = ⟨some y, t.head?⟩ := by
            have hm := @memOf_mid ((u ++ [p]) ++ [x, y]) t nn
              (by simpa using hnd)
            rw [show (u ++ [p]) ++ x :: y :: nn :: t
                = ((u ++ [p]) ++ [x, y]) ++ nn :: t by simp, hm,
              show (u ++ [p]) ++ [x, y] = ((u ++ [p]) ++ [x]) ++ [y]
                by simp, List.getLast?_concat]
          have h2 : memOf ((u ++ [p]) ++ y :: x :: nn :: t) nn
              = ⟨some x, t.head?⟩ := by
            have hm := @memOf_mid ((u ++ [p]) ++ [y, x]) t nn
              (by simpa using hnd2)
            rw [show (u ++ [p]) ++ y :: x :: nn :: t
                = ((u ++ [p]) ++ [y, x]) ++ nn :: t by simp, hm,
              show (u ++ [p]) ++ [y, x] = ((u ++ [p]) ++ [y]) ++ [x]
                by simp, List.getLast?_concat]
          rw [h1, h2]
        · rw [setPrev_ne _ _ _ hznn]
          by_cases hzy : z = y
          · replace hzy := hzy.symm
            subst hzy
            rw [setNext_self, setPrev_self]
            have h2 : memOf ((u ++ [p]) ++ y :: x :: nn :: t) y
                = ⟨some p, some x⟩ := by
              have hm := @memOf_mid (u ++ [p]) (x :: nn :: t) y
                (by simpa using hnd2)
              rw [hm, List.getLast?_concat]
              rfl
            rw [h2]
          · rw [setNext_ne _ _ _ hzy, setPrev_ne _ _ _ hzy]
            by_cases hzx : z = x
            · replace hzx := hzx.symm
              subst hzx
              rw [setNext_self, setPrev_self, setNext_ne _ _ _ hpx.symm]
              have hm := @memOf_mid ((u ++ [p]) ++ [y]) (nn :: t) x
                (by simpa using hnd2)
              rw [show (u ++ [p]) ++ y :: x :: nn :: t
                  = ((u ++ [p]) ++ [y]) ++ x :: nn :: t by simp,
                hm, List.getLast?_concat]
              rfl
            · rw [setNext_ne _ _ _ hzx, setPrev_ne _ _ _ hzx]
              by_cases hzp : z = p
              · replace hzp := hzp.symm
                subst hzp
                rw [setNext_self]
                have h1 : memOf ((u ++ [p]) ++ x :: y :: nn :: t) p
                    = ⟨u.getLast?, some x⟩ := by
                  have hm := @memOf_mid u (x :: y :: nn :: t) p
                    (by simpa using hnd)
                  simpa using hm
                have h2 : memOf ((u ++ [p]) ++ y :: x :: nn :: t) p
                    = ⟨u.getLast?, some y⟩ := by
                  have hm := @memOf_mid u (y :: x :: nn :: t) p
                    (by simpa using hnd2)
                  simpa using hm
                rw [h1, h2]
              · rw [setNext_ne _ _ _ hzp]
                by_cases hzu : z ∈ u
                · exact memOf_inner_left (c := u ++ [p]) hnd hnd2
                    (by simp [hzu])
                    (by rw [List.getLast?_concat]; simp [Ne.symm hzp])
                · by_cases hzt : z ∈ t
                  · have hm := @memOf_inner_right ((u ++ [p]) ++ [x, y])
                      ((u ++ [p]) ++ [y, x]) (nn :: t) z
                      (by rw [show ((u ++ [p]) ++ [x, y]) ++ nn :: t
                          = (u ++ [p]) ++ x :: y :: nn :: t by simp]
                          exact hnd)
                      (by rw [show ((u ++ [p]) ++ [y, x]) ++ nn :: t
                          = (u ++ [p]) ++ y :: x :: nn :: t by simp]
                          exact hnd2)
                      (by simp [hzt]) (by simp [Ne.symm hznn])
                    rw [show (u ++ [p]) ++ x :: y :: nn :: t
                        = ((u ++ [p]) ++ [x, y]) ++ nn :: t by simp,
                      show (u ++ [p]) ++ y :: x :: nn :: t
                        = ((u ++ [p]) ++ [y, x]) ++ nn :: t by simp]
                    exact hm
                  · have hz1 : z ∉ (u ++ [p]) ++ x :: y :: nn :: t := by
                      intro hm
                      rcases List.mem_append.mp hm with hm1 | hm2
                      · rcases List.mem_append.mp hm1 with hm3 | hm4
                        · exact hzu hm3
                        · exact hzp (by simpa using hm4)
                      rcases List.mem_cons.mp hm2 with he | hm5
                      · exact hzx he
                      rcases List.mem_cons.mp hm5 with he | hm6
                      · exact hzy he
                      rcases List.mem_cons.mp hm6 with he | hm7
                      · exact hznn he
                      · exact hzt hm7
                    have hz2 : z ∉ (u ++ [p]) ++ y :: x :: nn :: t := by
                      intro hm
                      rcases List.mem_append.mp hm with hm1 | hm2
                      · rcases List.mem_append.mp hm1 with hm3 | hm4
                        · exact hzu hm3
                        · exact hzp (by simpa using hm4)
                      rcases List.mem_cons.mp hm2 with he | hm5
                      · exact hzy he
                      rcases List.mem_cons.mp hm5 with he | hm6
                      · exact hzx he
                      rcases List.mem_cons.mp hm6 with he | hm7
                      · exact hznn he
                      · exact hzt hm7
                    rw [memOf_not_mem hz1, memOf_not_mem hz2]

lemma stateOf_first_prev {l : List Nat} (hnd : l.Nodup) {f : Nat}
    (hf : (stateOf l).first = some f) : ((stateOf l).mem f).prev = none := by
  cases l with
  | nil => cases hf
  | cons a t =>
    have hfa : f = a := by
      have := hf
      simp only [stateOf, List.head?_cons, Option.some_inj] at this
      exact this.symm
    subst hfa
    have hm := @memOf_mid [] t f (by simpa using hnd)
    simp only [List.nil_append] at hm
    simp only [stateOf]
    rw [hm]
    rfl

lemma stateOf_last_next {l : List Nat} (hnd : l.Nodup) {g : Nat}
    (hg : (stateOf l).last = some g) : ((stateOf l).mem g).next = none := by
  rcases List.eq_nil_or_concat l with rfl | ⟨l', L, hl⟩
  · cases hg
  · simp only [List.concat_eq_append] at hl
    subst hl
    have hgL : g = L := by
      have : (l' ++ [L]).getLast? = some g := hg
      rw [List.getLast?_concat] at this
      exact (Option.some_inj.mp this).symm
    subst hgL
    have hm := @memOf_mid l' [] g (by simpa using hnd)
    simp only [List.append_nil] at hm
    simp only [stateOf]
    rw [show l' ++ [g] = l' ++ g :: [] from rfl, memOf_mid (by simpa using hnd)]
    rfl

lemma nextIn_some_decomp : ∀ {l : List Nat} {z y : Nat}, l.Nodup →
    nextIn l z = some y → ∃ u v, l = u ++ z :: y :: v := by
  intro l
  induction l with
  | nil => intro z y _ h; cases h
  | cons a t ih =>
    intro z y hnd h
    by_cases hza : z = a
    · subst hza
      rw [nextIn, if_pos rfl] at h
      cases t with
      | nil => cases h
      | cons b t' =>
        have hby : b = y := by simpa using h
        subst hby
        exact ⟨[], t', rfl⟩
    · rw [nextIn, if_neg hza] at h
      obtain ⟨u, v, huv⟩ := ih (List.Nodup.of_cons hnd) h
      exact ⟨a :: u, v, by rw [huv]; simp⟩

lemma stateOf_link_next {l : List Nat} (hnd : l.Nodup) {x y : Nat}
    (h : ((stateOf l).mem x).next = some y) :
    ((stateOf l).mem y).prev = some x := by
  have hx : nextIn l x = some y := h
  obtain ⟨u, v, rfl⟩ := nextIn_some_decomp hnd hx
  have hm := @memOf_mid (u ++ [x]) v y (by simpa using hnd)
  simp only [stateOf]
  rw [show u ++ x :: y :: v = (u ++ [x]) ++ y :: v by simp, hm,
    List.getLast?_concat]

lemma prevIn_eq_nextIn_reverse (l : List Nat) (z : Nat) :
    nextIn l z = prevIn l.reverse z := by
  rw [prevIn, List.reverse_reverse]

lemma stateOf_link_prev {l : List Nat} (hnd : l.Nodup) {x y : Nat}
    (h : ((stateOf l).mem x).prev = some y) :
    ((stateOf l).mem y).next = some x := by
  have hx : nextIn l.reverse x = some y := h
  have hrev := stateOf_link_next (List.nodup_reverse.mpr hnd) (x := x) (y := y)
    (show ((stateOf l.reverse).mem x).next = some y from hx)
  have : prevIn l.reverse y = some x := hrev
  rw [← prevIn_eq_nextIn_reverse] at this
  exact this

lemma walk_suffix : ∀ (v u : List Nat), (u ++ v).Nodup → v ≠ [] →
    walkN (stateOf (u ++ v)) v.head? (v.length - 1) = (u ++ v).getLast? := by
  intro v
  induction v with
  | nil => intro u _ hne; exact absurd rfl hne
  | cons x v' ih =>
    intro u hnd _
    cases v' with
    | nil =>
      simp only [List.length_singleton, Nat.sub_self, walkN, List.head?_cons]
      rw [show u ++ [x] = u ++ [x] from rfl, List.getLast?_concat]
    | cons y t =>
      have hstep : ((stateOf (u ++ x :: y :: t)).mem x).next = some y := by
        have hm := memOf_mid hnd
        simp only [stateOf]
        rw [hm]
        rfl
      have hlen : (x :: y :: t : List Nat).length - 1
          = ((y :: t : List Nat).length - 1) + 1 := by
        simp
      rw [hlen]
      simp only [List.head?_cons, walkN]
      rw [hstep]
      have hrw : u ++ x :: y :: t = (u ++ [x]) ++ y :: t := by simp
      rw [hrw] at hnd ⊢
      have hd := ih (u ++ [x]) hnd (by simp)
      simpa using hd

/-- Simulation invariant: every reachable pointer state is the canonical
state of its abstract list, the list has no duplicates, and the list
length accounts for the `add` and `remove` calls. -/
theorem ReachL_inv : ∀ {s : LLState} {l : List Nat} {a r : Nat},
    ReachL s l a r → s = stateOf l ∧ l.Nodup ∧ l.length + r = a := by
  intro s l a r h
  induction h with
  | empty =>
    refine ⟨?_, by simp, rfl⟩
    apply LLState.exte
    · rfl
    · rfl
    · intro z
      rfl
  | add s l a r x hx h ih =>
    obtain ⟨rfl, hnd, hlen⟩ := ih
    refine ⟨add_gen_stateOf hnd hx, nodup_snoc hnd hx, ?_⟩
    simp only [List.length_append, List.length_singleton]
    omega
  | remove s l1 l2 x a r h ih =>
    obtain ⟨rfl, hnd, hlen⟩ := ih
    refine ⟨remove_gen_stateOf hnd, (nodup_mid hnd).2.2, ?_⟩
    simp only [List.length_append, List.length_cons] at hlen ⊢
    omega
  | mdown s l1 l2 x y a r h ih =>
    obtain ⟨rfl, hnd, hlen⟩ := ih
    refine ⟨by rw [movedown_gen_stateOf hnd], ?_, ?_⟩
    · exact ((List.Perm.append_left l1 (List.Perm.swap x y l2)).nodup_iff).mpr hnd
    · simp only [List.length_append, List.length_cons] at hlen ⊢
      omega
  | mdownLast s l1 x a r h ih =>
    obtain ⟨rfl, hnd, hlen⟩ := ih
    exact ⟨by rw [movedown_gen_last], hnd, hlen⟩
  | mup s l1 l2 x y a r h ih =>
    obtain ⟨rfl, hnd, hlen⟩ := ih
    refine ⟨by rw [moveup_gen_stateOf hnd], ?_, ?_⟩
    · exact ((List.Perm.append_left l1 (List.Perm.swap x y l2)).nodup_iff).mpr hnd
    · simp only [List.length_append, List.length_cons] at hlen ⊢
      omega
  | mupFirst s l2 x a r h ih =>
    obtain ⟨rfl, hnd, hlen⟩ := ih
    exact ⟨by rw [moveup_gen_first], hnd, hlen⟩

/-- C2: after any sequence of `add`/`remove`/`move_up`/`move_down`
operations (`a` adds, `r` removes, abstract content `l`), the doubly
linked list stays consistent: the first element's `prev` and the last
element's `next` are null, every link is doubly consistent
(`node.next.prev == node` and `node.prev.next == node`), the number of
nodes equals the adds minus the removes, and walking forward from `first`
via `next` that many steps minus one ends at `last`. -/
theorem gui_linkedlist_list_integrity (s : LLState) (l : List Nat)
    (a r : Nat) (h : ReachL s l a r) :
    l.length + r = a ∧
    (∀ f, s.first = some f → (s.mem f).prev = none) ∧
    (∀ g, s.last = some g → (s.mem g).next = none) ∧
    (∀ x y, (s.mem x).next = some y → (s.mem y).prev = some x) ∧
    (∀ x y, (s.mem x).prev = some y → (s.mem y).next = some x) ∧
    (a = r → s.first = none ∧ s.last = none) ∧
    (a ≠ r → walkN s s.first (a - r - 1) = s.last) := by
  obtain ⟨rfl, hnd, hlen⟩ := ReachL_inv h
  refine ⟨hlen, ?_, ?_, ?_, ?_, ?_, ?_⟩
  · intro f hf
    exact stateOf_first_prev hnd hf
  · intro g hg
    exact stateOf_last_next hnd hg
  · intro x y hxy
    exact stateOf_link_next hnd hxy
  · intro x y hxy
    exact stateOf_link_prev hnd hxy
  · intro har
    have hl : l = [] := by
      have : l.length = 0 := by omega
      exact List.eq_nil_of_length_eq_zero this
    subst hl
    exact ⟨rfl, rfl⟩
  · intro har
    have hlne : l ≠ [] := by
      intro he
      subst he
      simp at hlen
      omega
    have hw := walk_suffix l [] (by simpa using hnd) hlne
    simp only [List.nil_append] at hw
    have hsteps : a - r - 1 = l.length - 1 := by omega
    rw [hsteps]
    exact hw

/-- Witness for `gui_linkedlist_list_integrity`: two `add` calls produce a
two-node list whose forward walk of one step from `first` reaches
`last`. -/
theorem gui_linkedlist_list_integrity_witness :
    ([1, 2] : List Nat).length + 0 = 2 ∧
    walkN (gui_linkedlist_add_gen (gui_linkedlist_add_gen
        ⟨none, none, fun _ => ⟨none, none⟩⟩ 1) 2)
      (gui_linkedlist_add_gen (gui_linkedlist_add_gen
        ⟨none, none, fun _ => ⟨none, none⟩⟩ 1) 2).first (2 - 0 - 1)
      = (gui_linkedlist_add_gen (gui_linkedlist_add_gen
        ⟨none, none, fun _ => ⟨none, none⟩⟩ 1) 2).last := by
  have d1 := ReachL.add ⟨none, none, fun _ => ⟨none, none⟩⟩ [] 0 0 1
    (by simp) ReachL.empty
  have d2 := ReachL.add _ [1] 1 0 2 (by simp)
    (show ReachL _ [1] 1 0 from d1)
  have h := gui_linkedlist_list_integrity _ [1, 2] 2 0
    (show ReachL _ [1, 2] 2 0 from d2)
  exact ⟨h.1, h.2.2.2.2.2.2 (by decide)⟩

/-! ## Claim theorems -/

lemma invW_of_reach {l : List GWidget}
    (h : ReachW (fun w => w.dialogbase = true → w.allowchildren = true) l) :
    invW l := by
  induction h with
  | nil => exact ⟨List.chain'_nil, by simp, by simp⟩
  | create w c0 l hw hz hl ih => exact widgetadd_inv w c0 ih hz hw
  | top h c0 rb af hr ih =>
    rw [assemble_congr (movetotop_snd c0 rb h af)]
    exact mttAux_inv h rb af c0 ih
  | bottom h rb af hr ih =>
    rw [assemble_congr (movetobottom_snd rb h af)]
    exact mtbAux_inv h af rb 0 ih

lemma orderOk_of_invW : ∀ {l : List GWidget}, invW l → orderOk l := by
  intro l
  induction l with
  | nil => intro _; exact List.chain'_nil
  | cons a t ih =>
    intro h
    rw [orderOk, List.chain'_cons']
    constructor
    · intro y hy
      have hyt : y ∈ t := List.mem_of_mem_head? hy
      have hj : ggroup a ≤ ggroup y := (List.chain'_cons'.mp h.1).1 y hy
      have hza : a.zindex = 0 := h.2.1 a (by simp)
      have hzy : y.zindex = 0 := h.2.1 y (by simp [hyt])
      refine ⟨?_, ?_, ?_⟩
      · intro hda
        have hda' : a.dialogbase = true := hda
        rcases ggroup_cases y with ⟨hy1, _⟩ | ⟨_, _, hy3⟩ | ⟨_, _, hy3⟩
        · simp [hy1]
        · rw [ggroup_dialog hda', hy3] at hj; exact absurd hj (by decide)
        · rw [ggroup_dialog hda', hy3] at hj; exact absurd hj (by decide)
      · intro hnda hndy hca
        have hda : a.dialogbase = false := by
          simpa using hnda
        have hdy : y.dialogbase = false := by
          simpa using hndy
        have hca' : a.allowchildren = true := hca
        rcases hcy : y.allowchildren with _ | _
        · exfalso
          rw [ggroup_cont hda hca', ggroup_plain hdy hcy] at hj
          exact absurd hj (by decide)
        · simp [hcy]
      · intro _
        rw [hza, hzy]
    · refine ih ⟨h.1.tail, ?_, ?_⟩
      · intro w hw; exact h.2.1 w (by simp [hw])
      · intro w hw; exact h.2.2 w (by simp [hw])

/-! ## Widget removal (claims C4 and C5)

A widget of the removal model.  Fields translate the data
`can_remove_widget` (src/src/gui/gui_input.c, lines 591–626),
`guii_widget_remove` (lines 1170–1185), `remove_widget` (lines 197–254)
and `remove_widgets` (lines 260–322) read from a `gui_handle`:

* `id` — the handle's identity (distinct widgets have distinct ids);
* `isdesktop` — whether the handle equals `gui_window_getdesktop()`;
* `vetoRemove` — whether the widget's callback processes `GUI_WC_Remove`
  and stores result `0` (the only way the initial result value `1` is
  overridden, lines 606–609);
* `allowchildren` — the `GUI_FLAG_WIDGET_ALLOW_CHILDREN` type flag;
* `flagRemove` — the `GUI_FLAG_REMOVE` widget flag;
* `hasTimer`, `hasColors` — whether `h->Timer` / `h->Colors` are
  non-NULL when the widget is finalized. -/

/-- Widget record for the removal model. -/
structure RWidget where
  id : Nat
  isdesktop : Bool
  vetoRemove : Bool
  allowchildren : Bool
  flagRemove : Bool
  hasTimer : Bool
  hasColors : Bool
deriving DecidableEq, Repr

/-- A widget subtree: the widget itself and its ordered child list
(bottom of the sibling list first, as iterated by
`gui_linkedlist_widgetgetnext`). -/
inductive WTree where
  | node : RWidget → List WTree → WTree

/-- Root record of a subtree. -/
def WTree.root : WTree → RWidget
  | WTree.node i _ => i

/-- Child list of a subtree. -/
def WTree.childs : WTree → List WTree
  | WTree.node _ cs => cs

mutual

/-- Number of nodes in a subtree. -/
def tsize : WTree → Nat
  | WTree.node _ cs => 1 + lsizeT cs

/-- Number of nodes in a forest. -/
def lsizeT : List WTree → Nat
  | [] => 0
  | t :: r => tsize t + lsizeT r

end

mutual

/-- `can_remove_widget` (src/src/gui/gui_input.c, lines 591–626): the
desktop widget can never be removed; otherwise the result byte starts at
`1` and is forced back to `1` unless the widget callback processes
`GUI_WC_Remove` and stores `0` (`vetoRemove`); if the result is still `1`
and the widget allows children, all children are checked recursively,
returning `0` at the first non-removable child. -/
def can_remove_widget : WTree → Bool
  | WTree.node i cs =>
    if i.isdesktop then false
    else if !i.vetoRemove && i.allowchildren then can_remove_children cs
    else !i.vetoRemove

/-- The child loop of `can_remove_widget` (lines 615–622): scan children
in list order, stopping at the first one that cannot be removed. -/
def can_remove_children : List WTree → Bool
  | [] => true
  | c :: rest => can_remove_widget c && can_remove_children rest

end

/-- `guii_widget_setflag(h, GUI_FLAG_REMOVE)` on the root of a subtree. -/
def setflag_remove : WTree → WTree
  | WTree.node i cs => WTree.node { i with flagRemove := true } cs

/-- `guii_widget_remove` (src/src/gui/gui_input.c, lines 1170–1185): if
`can_remove_widget` passes, set `GUI_FLAG_REMOVE` on the widget, set the
global `GUI_FLAG_REMOVE` bit in `GUI.Flags` and return `1`; otherwise
return `0`.  State modelled: the widget subtree and the global remove
bit.  (The focus hand-off of lines 1176–1178 only touches the focus
pointer, modelled separately with `gui_widget_focus_set`; it does not
modify the tree or any remove flag.)  Result:
`(return value, subtree, global remove bit)`. -/
def guii_widget_remove (t : WTree) (guiRemove : Bool) :
    Nat × WTree × Bool :=
  if can_remove_widget t then (1, setflag_remove t, true)
  else (0, t, guiRemove)

mutual

/-- Spec-side removability predicate, written after the wording of the
specification: removal is permitted iff the node is not the desktop
node, its type callback does not veto, and every child is itself
removable, recursively. -/
def removableSpec : WTree → Prop
  | WTree.node i cs =>
    i.isdesktop = false ∧ i.vetoRemove = false ∧ removableSpecL cs

/-- All trees of a forest satisfy `removableSpec`. -/
def removableSpecL : List WTree → Prop
  | [] => True
  | c :: rest => removableSpec c ∧ removableSpecL rest

end

mutual

/-- Well-formed subtree: a widget that does not allow children has no
children (guaranteed by construction in the C code: widgets are linked
only under parents that allow children). -/
def wfTree : WTree → Prop
  | WTree.node i cs => (i.allowchildren = false → cs = []) ∧ wfTreeL cs

/-- All trees of a forest are well formed. -/
def wfTreeL : List WTree → Prop
  | [] => True
  | c :: rest => wfTree c ∧ wfTreeL rest

end

/-! ## Widget creation failure modes (claim C6)

`guii_widget_create` (src/src/gui/gui_input.c, lines 1068–1157).  The
modelled state is the sibling list of the effective parent (the only
list the new widget may be linked into) and whether allocated memory is
retained after the call. -/

/-- The fields of a widget type descriptor (`gui_widget_t`) read by
`guii_widget_create`: declared allocation size, the
`GUI_FLAG_WIDGET_ALLOW_CHILDREN` type flag and the
`GUI_FLAG_WIDGET_DIALOG_BASE` type flag. -/
structure WDesc where
  size : Nat
  allowchildren : Bool
  dialogbase : Bool
deriving DecidableEq, Repr

/-- Environment of one `guii_widget_create` call: the platform constants
`sizeof(gui_handle)` and `sizeof(gui_handle_ROOT_t)`, whether
`GUI_MEMALLOC` succeeds, whether the `GUI_WC_PreInit` callback stores
result `0` (veto, lines 1122–1127), and whether the
`GUI_WC_ExcludeLinkedList` callback asks to skip the sibling-list add
(lines 1138–1142). -/
structure CreateEnv where
  baseSize : Nat
  rootSize : Nat
  allocOk : Bool
  preInitVeto : Bool
  excludeLinkedList : Bool
deriving DecidableEq, Repr

/-- `guii_widget_create` (src/src/gui/gui_input.c, lines 1068–1157),
restricted to the state it may retain: the created handle, the parent's
sibling list, and whether widget memory is still allocated when the call
returns.  The size check of lines 1081–1084 runs before allocation; an
allocation failure leaves `h = NULL`; a `GUI_WC_PreInit` veto frees the
memory and returns `NULL`; otherwise the widget (zeroed memory, so
z-index `0`) is linked into the sibling list via
`gui_linkedlist_widgetadd` unless `GUI_WC_ExcludeLinkedList` opts out. -/
def guii_widget_create (d : WDesc) (env : CreateEnv) (sib : List GWidget) :
    Option GWidget × List GWidget × Bool :=
  if d.size < env.baseSize ∨ (d.allowchildren = true ∧ d.size < env.rootSize) then
    (none, sib, false)
  else if env.allocOk = false then
    (none, sib, false)
  else if env.preInitVeto = true then
    (none, sib, false)
  else
    let w : GWidget := ⟨d.dialogbase, d.allowchildren, 0⟩
    if env.excludeLinkedList = true then (some w, sib, true)
    else (some w, gui_linkedlist_widgetadd sib w 0, true)

/-- The list lemma behind C4: on well-formed forests the child loop of
`can_remove_widget` agrees with the spec-side predicate. -/
lemma can_remove_children_iff :
    ∀ (n : Nat) (l : List WTree), lsizeT l ≤ n → wfTreeL l →
      (can_remove_children l = true ↔ removableSpecL l) := by
  intro n
  induction n with
  | zero =>
    intro l hn hwf
    cases l with
    | nil => simp [can_remove_children, removableSpecL]
    | cons t r =>
      exfalso
      cases t with
      | node i cs => simp [lsizeT, tsize] at hn
  | succ n ih =>
    intro l hn hwf
    cases l with
    | nil => simp [can_remove_children, removableSpecL]
    | cons t r =>
      cases t with
      | node i cs =>
        have hsz : tsize (WTree.node i cs) + lsizeT r ≤ n + 1 := by
          simpa [lsizeT] using hn
        have hts : tsize (WTree.node i cs) = 1 + lsizeT cs := by
          simp [tsize]
        have hcs : lsizeT cs ≤ n := by omega
        have hr : lsizeT r ≤ n := by omega
        have hwfp : wfTree (WTree.node i cs) ∧ wfTreeL r := by
          simpa [wfTreeL] using hwf
        have hwfn : (i.allowchildren = false → cs = []) ∧ wfTreeL cs := by
          simpa [wfTree] using hwfp.1
        have hwf2 := hwfp.2
        have hhead : can_remove_widget (WTree.node i cs) = true ↔
            removableSpec (WTree.node i cs) := by
          rw [can_remove_widget, removableSpec]
          rcases hd : i.isdesktop with _ | _
          · rcases hv : i.vetoRemove with _ | _
            · rcases hc : i.allowchildren with _ | _
              · have hnil : cs = [] := hwfn.1 hc
                subst hnil
                simp [removableSpecL]
              · have hcs' := ih cs hcs hwfn.2
                simp [hv, hc, hcs']
            · simp [hv]
          · simp [hd]
        rw [can_remove_children, removableSpecL]
        rw [Bool.and_eq_true, hhead, ih r hr hwf2]

/-- On a well-formed subtree, `can_remove_widget` agrees with the
spec-side removability predicate. -/
lemma can_remove_widget_iff (t : WTree) (hwf : wfTree t) :
    can_remove_widget t = true ↔ removableSpec t := by
  have h := can_remove_children_iff (lsizeT [t]) [t] le_rfl
    (by simp [wfTreeL, hwf])
  simpa [can_remove_children, removableSpecL] using h

/-! ## Focus management (claim C8)

`gui_widget_focus_set` (src/src/gui/gui_input.c, lines 720–764) and
`get_common_parentwidget` (lines 518–532).  A widget handle is embedded
as its ancestor path: the list `[w, parent of w, …, root widget]`
(self first).  `h->Parent` is the tail of the path, `NULL` is the empty
list, and pointer equality is path equality.  `GUI.root.First` (the
bottom widget of the root list) is a parameter `root`. -/

/-- Events fired while moving the focus. -/
inductive FEvent where
  | focusOut : List Nat → FEvent
  | focusIn : List Nat → FEvent
  | invalidate : List Nat → FEvent
deriving DecidableEq, Repr

/-- Focus state: `GUI.FocusedWidget` and the per-widget
`GUI_FLAG_FOCUS` bit. -/
structure FocusState where
  focusedWidget : Option (List Nat)
  focusFlag : List Nat → Bool

/-- The inner loop of `get_common_parentwidget` (lines 525–529): walk
`tmp` from `h2` up the parent chain and return the first handle equal to
`h1`. -/
def innerScan (x : List Nat) : List Nat → Option (List Nat)
  | [] => none
  | y :: t => if x = y :: t then some (y :: t) else innerScan x t

/-- `get_common_parentwidget` (src/src/gui/gui_input.c, lines 518–532):
walk `h1` up its parent chain; for each position scan the whole parent
chain of `h2` for a pointer match; if the chains are disjoint, fall back
to `GUI.root.First`. -/
def get_common_parentwidget (root : Option (List Nat)) :
    List Nat → List Nat → Option (List Nat)
  | [], _ => root
  | x :: t1, h2 =>
    match innerScan (x :: t1) h2 with
    | some c => some c
    | none => get_common_parentwidget root t1 h2

/-- The focus-out loop of `gui_widget_focus_set` (lines 740–744): walk
the old focus up the parent chain until the common widget (or `NULL`),
clearing `GUI_FLAG_FOCUS` and firing `GUI_WC_FocusOut` and an
invalidation at each step. -/
def focus_out_walk :
    (List Nat → Bool) → List Nat → List Nat →
      (List Nat → Bool) × List FEvent
  | flag, _, [] => (flag, [])
  | flag, c, x :: t =>
    if x :: t = c then (flag, [])
    else
      let r := focus_out_walk
        (fun z => if z = x :: t then false else flag z) c t
      (r.1, FEvent.focusOut (x :: t) :: FEvent.invalidate (x :: t) :: r.2)

/-- The focus-in loop of `gui_widget_focus_set` (lines 757–762): walk
the new focus up the parent chain until the common widget (or `NULL`),
setting `GUI_FLAG_FOCUS` and firing `GUI_WC_FocusIn` and an invalidation
at each step. -/
def focus_in_walk :
    (List Nat → Bool) → List Nat → List Nat →
      (List Nat → Bool) × List FEvent
  | flag, _, [] => (flag, [])
  | flag, c, x :: t =>
    if x :: t = c then (flag, [])
    else
      let r := focus_in_walk
        (fun z => if z = x :: t then true else flag z) c t
      (r.1, FEvent.focusIn (x :: t) :: FEvent.invalidate (x :: t) :: r.2)

/-- `gui_widget_focus_set` (src/src/gui/gui_input.c, lines 720–764): a
no-op when the target is already focused; otherwise compute the common
parent of the old focus and the target (falling back to
`GUI.root.First` when there is no old focus), run the focus-out walk on
the old focus path, set `GUI.FocusedWidget` to the target and run the
focus-in walk on the target's path.  Both walks are guarded by the
common handle being non-NULL. -/
def gui_widget_focus_set (root : Option (List Nat)) (st : FocusState)
    (h : List Nat) : FocusState × List FEvent :=
  if st.focusedWidget = some h then (st, [])
  else
    match st.focusedWidget with
    | some f =>
      match get_common_parentwidget root f h with
      | some c =>
        let r1 := focus_out_walk st.focusFlag c f
        let r2 := focus_in_walk r1.1 c h
        (⟨some h, r2.1⟩, r1.2 ++ r2.2)
      | none => (⟨some h, st.focusFlag⟩, [])
    | none =>
      match root with
      | some c =>
        let r2 := focus_in_walk st.focusFlag c h
        (⟨some h, r2.1⟩, r2.2)
      | none => (⟨some h, st.focusFlag⟩, [])

/-- The handles visited when walking `d ++ c` up to (excluding) `c`:
every path `d' ++ c` for a nonempty suffix `d'` of `d`. -/
def walkNodes (d c : List Nat) : List (List Nat) :=
  match d with
  | [] => []
  | _ :: t => (d ++ c) :: walkNodes t c

/-- Expected event trace of the focus-out walk on `d ++ c` down to `c`. -/
def outEvents (d c : List Nat) : List FEvent :=
  match d with
  | [] => []
  | _ :: t =>
    FEvent.focusOut (d ++ c) :: FEvent.invalidate (d ++ c) :: outEvents t c

/-- Expected event trace of the focus-in walk on `d ++ c` down to `c`. -/
def inEvents (d c : List Nat) : List FEvent :=
  match d with
  | [] => []
  | _ :: t =>
    FEvent.focusIn (d ++ c) :: FEvent.invalidate (d ++ c) :: inEvents t c

/-- The inner scan finds a handle on the chain: scanning for the chain's
own suffix `c` from any starting point `l ++ c` returns `c`. -/
lemma innerScan_self_suffix (c : List Nat) (hc : c ≠ []) :
    ∀ l : List Nat, innerScan c (l ++ c) = some c := by
  intro l
  induction l with
  | nil =>
    cases c with
    | nil => exact absurd rfl hc
    | cons y t => simp [innerScan]
  | cons a l' ih =>
    have hne : c ≠ a :: (l' ++ c) := by
      intro he
      have := congrArg List.length he
      simp at this
      omega
    rw [List.cons_append, innerScan]
    rw [if_neg hne]
    exact ih

/-- `get_common_parentwidget` computes the nearest common ancestor: if
`c` is a common suffix of both paths and no longer suffix of the first
path occurs on the second path, the scan returns exactly `c`. -/
lemma get_common_eq (root : Option (List Nat)) (c dh : List Nat)
    (hc : c ≠ []) :
    ∀ df : List Nat,
      (∀ d ∈ df.tails, d ≠ [] → innerScan (d ++ c) (dh ++ c) = none) →
      get_common_parentwidget root (df ++ c) (dh ++ c) = some c := by
  intro df
  induction df with
  | nil =>
    intro _
    cases hcc : c with
    | nil => exact absurd hcc hc
    | cons y t =>
      rw [← hcc]
      rw [show ([] : List Nat) ++ c = c from rfl]
      rw [hcc, get_common_parentwidget]
      rw [← hcc, innerScan_self_suffix c hc dh]
  | cons x t ih =>
    intro hmax
    have h1 : innerScan ((x :: t) ++ c) (dh ++ c) = none :=
      hmax (x :: t) (by simp [List.tails]) (by simp)
    rw [List.cons_append, get_common_parentwidget, ← List.cons_append, h1]
    exact ih (fun d hd hdne => hmax d (by rw [List.tails]; simp [hd]) hdne)

/-- The focus-out walk on `d ++ c` clears the focus flag on exactly the
visited handles and emits the focus-out trace. -/
lemma focus_out_walk_eq (c : List Nat) :
    ∀ (d : List Nat) (flag : List Nat → Bool),
      focus_out_walk flag c (d ++ c) =
        (fun z => if z ∈ walkNodes d c then false else flag z,
          outEvents d c) := by
  intro d
  induction d with
  | nil =>
    intro flag
    have h1 : focus_out_walk flag c c = (flag, []) := by
      cases c with
      | nil => rw [focus_out_walk]
      | cons y t =>
        rw [focus_out_walk]
        simp
    rw [List.nil_append, h1, walkNodes, outEvents]
    refine Prod.ext ?_ rfl
    funext z
    simp
  | cons x t ih =>
    intro flag
    have hne : x :: (t ++ c) ≠ c := by
      intro he
      have := congrArg List.length he
      simp at this
      omega
    rw [List.cons_append, focus_out_walk, if_neg hne]
    rw [ih]
    rw [walkNodes, outEvents]
    refine Prod.ext ?_ rfl
    funext z
    by_cases hz1 : z ∈ walkNodes t c
    · simp [hz1]
    · by_cases hz2 : z = (x :: t) ++ c
      · simp [hz1, hz2]
      · simp [hz1, hz2]

/-- The focus-in walk on `d ++ c` sets the focus flag on exactly the
visited handles and emits the focus-in trace. -/
lemma focus_in_walk_eq (c : List Nat) :
    ∀ (d : List Nat) (flag : List Nat → Bool),
      focus_in_walk flag c (d ++ c) =
        (fun z => if z ∈ walkNodes d c then true else flag z,
          inEvents d c) := by
  intro d
  induction d with
  | nil =>
    intro flag
    have h1 : focus_in_walk flag c c = (flag, []) := by
      cases c with
      | nil => rw [focus_in_walk]
      | cons y t =>
        rw [focus_in_walk]
        simp
    rw [List.nil_append, h1, walkNodes, inEvents]
    refine Prod.ext ?_ rfl
    funext z
    simp
  | cons x t ih =>
    intro flag
    have hne : x :: (t ++ c) ≠ c := by
      intro he
      have := congrArg List.length he
      simp at this
      omega
    rw [List.cons_append, focus_in_walk, if_neg hne]
    rw [ih]
    rw [walkNodes, inEvents]
    refine Prod.ext ?_ rfl
    funext z
    by_cases hz1 : z ∈ walkNodes t c
    · simp [hz1]
    · by_cases hz2 : z = (x :: t) ++ c
      · simp [hz1, hz2]
      · simp [hz1, hz2]

/-! ## Invalidation (claim C7)

`invalidate_widget` (src/src/gui/gui_input.c, lines 410–485) and
`set_clipping_region` (lines 378–401).  Handles are ancestor paths as in
the focus model (self first, parent = tail).  The build configuration
`GUI_CFG_USE_TRANSPARENCY` is not in `src/`; the model takes it
disabled, so the two transparency blocks of `invalidate_widget` are
compiled out.  Geometry (`get_lcd_abs_position_and_visible_width_height`)
is a static environment function from handle to visible rectangle. -/

/-- A screen rectangle: left/top and right/bottom corners. -/
structure Rect where
  x1 : Int
  y1 : Int
  x2 : Int
  y2 : Int
deriving DecidableEq, Repr

/-- Modelled from the spec: the overlap test of the header macro
`__GUI_RECT_MATCH` (the macro itself is in a header outside `src/`):
two visible rectangles overlap — neither lies strictly to the side of or
strictly above/below the other. -/
def rectMatch (a b : Rect) : Bool :=
  decide (a.x1 ≤ b.x2) && decide (b.x1 ≤ a.x2) &&
  decide (a.y1 ≤ b.y2) && decide (b.y1 ≤ a.y2)

/-- Rectangle `d` contains rectangle `a`. -/
def rectContains (d a : Rect) : Prop :=
  d.x1 ≤ a.x1 ∧ d.y1 ≤ a.y1 ∧ a.x2 ≤ d.x2 ∧ a.y2 ≤ d.y2

instance (d a : Rect) : Decidable (rectContains d a) :=
  inferInstanceAs (Decidable (_ ∧ _ ∧ _ ∧ _))

/-- Static widget environment of the invalidation model: the visible
rectangle of each handle, the `GUI_FLAG_IGNORE_INVALIDATE` bit, and the
ordered child id list of every parent path (bottom of the sibling list
first, as iterated by `gui_linkedlist_widgetgetnext`). -/
structure IEnv where
  rect : List Nat → Rect
  ignoreInv : List Nat → Bool
  children : List Nat → List Nat

/-- Elements after the first occurrence of `x`. -/
def afterIn : List Nat → Nat → List Nat
  | [], _ => []
  | a :: r, x => if a = x then r else afterIn r x

/-- The later (stacked-above) siblings of a handle, in iteration order
of `gui_linkedlist_widgetgetnext`. -/
def laterSibs (env : IEnv) : List Nat → List (List Nat)
  | [] => []
  | x :: t => (afterIn (env.children t) x).map (fun y => y :: t)

/-- Modelled from the spec: `gui_linkedlist_iswidgetlast` (header macro
outside `src/`) — the widget is last among its siblings, i.e. nothing
is stacked above it. -/
def gui_linkedlist_iswidgetlast (env : IEnv) (h : List Nat) : Bool :=
  (laterSibs env h).isEmpty

/-- Mutable state of the invalidation model: per-widget
`GUI_FLAG_REDRAW` bits, the global `GUI_FLAG_REDRAW` bit of `GUI.Flags`
and the global dirty rectangle `GUI.Display`. -/
structure IState where
  redraw : List Nat → Bool
  guiRedraw : Bool
  disp : Rect

/-- `set_clipping_region` (src/src/gui/gui_input.c, lines 378–401):
grow the global dirty rectangle `GUI.Display` to cover the widget's
visible rectangle, one comparison per edge, in source order
(`X1`, `X2`, `Y1`, `Y2`). -/
def set_clipping_region (disp : Rect) (a : Rect) : Rect :=
  let d1 := if disp.x1 > a.x1 then { disp with x1 := a.x1 } else disp
  let d2 := if d1.x2 < a.x2 then { d1 with x2 := a.x2 } else d1
  let d3 := if d2.y1 > a.y1 then { d2 with y1 := a.y1 } else d2
  if d3.y2 < a.y2 then { d3 with y2 := a.y2 } else d3

/-- The inner sibling loop of `invalidate_widget` (lines 448–460): for
each later sibling `h2` of `h1`, skip it when its redraw flag is already
set or the rectangles do not overlap, otherwise set its redraw flag. -/
def markPairs (env : IEnv) (h1 : List Nat) :
    (List Nat → Bool) → List (List Nat) → (List Nat → Bool)
  | redraw, [] => redraw
  | redraw, h2 :: rest =>
    markPairs env h1
      (if redraw h2 || !rectMatch (env.rect h1) (env.rect h2) then redraw
       else fun z => if z = h2 then true else redraw z) rest

/-- The outer sibling loop of `invalidate_widget` (lines 446–461): walk
`h1` over the widget and its later siblings, running the inner overlap
scan for each. -/
def markOverlaps (env : IEnv) :
    (List Nat → Bool) → List (List Nat) → (List Nat → Bool)
  | redraw, [] => redraw
  | redraw, h1 :: rest => markOverlaps env (markPairs env h1 redraw rest) rest

/-- `invalidate_widget` (src/src/gui/gui_input.c, lines 410–485,
`GUI_CFG_USE_TRANSPARENCY` disabled): return `0` on a NULL handle
(parameter assertion) or when the widget carries
`GUI_FLAG_IGNORE_INVALIDATE`; otherwise set the widget's redraw flag and
the global redraw flag, grow the dirty rectangle when `setclipping` is
set, run the sibling overlap scan, and if the widget has a parent that
is not last among its siblings, recursively invalidate the parent
without clip growth. -/
def invalidate_widget (env : IEnv) :
    IState → List Nat → Bool → Nat × IState
  | st, [], _ => (0, st)
  | st, x :: t, setclipping =>
    if env.ignoreInv (x :: t) then (0, st)
    else
      let rd1 : List Nat → Bool :=
        fun z => if z = x :: t then true else st.redraw z
      let disp1 := if setclipping then
        set_clipping_region st.disp (env.rect (x :: t)) else st.disp
      let rd2 := markOverlaps env rd1 ((x :: t) :: laterSibs env (x :: t))
      let st3 : IState := ⟨rd2, true, disp1⟩
      match t with
      | [] => (1, st3)
      | p :: tt =>
        if gui_linkedlist_iswidgetlast env (p :: tt) then (1, st3)
        else (1, (invalidate_widget env st3 (p :: tt) false).2)

/-- The inner overlap scan never clears a redraw flag. -/
lemma markPairs_mono (env : IEnv) (h1 : List Nat) :
    ∀ (l : List (List Nat)) (redraw : List Nat → Bool) (z : List Nat),
      redraw z = true → markPairs env h1 redraw l z = true := by
  intro l
  induction l with
  | nil => intro redraw z hz; exact hz
  | cons h2 rest ih =>
    intro redraw z hz
    rw [markPairs]
    apply ih
    by_cases hc : redraw h2 || !rectMatch (env.rect h1) (env.rect h2)
    · rw [if_pos hc]; exact hz
    · rw [if_neg hc]
      by_cases hzz : z = h2
      · simp [hzz]
      · simp [hzz, hz]

/-- The inner overlap scan marks every overlapping sibling it visits. -/
lemma markPairs_sets (env : IEnv) (h1 : List Nat) :
    ∀ (l : List (List Nat)) (redraw : List Nat → Bool) (h2 : List Nat),
      h2 ∈ l → rectMatch (env.rect h1) (env.rect h2) = true →
      markPairs env h1 redraw l h2 = true := by
  intro l
  induction l with
  | nil => intro redraw h2 hm; exact absurd hm (List.not_mem_nil h2)
  | cons a rest ih =>
    intro redraw h2 hm hmatch
    rcases List.mem_cons.mp hm with he | hm'
    · subst he
      rw [markPairs]
      apply markPairs_mono
      rcases hra : redraw h2 with _ | _
      · simp [hra, hmatch]
      · simp [hra]
    · rw [markPairs]
      exact ih _ h2 hm' hmatch

/-- The outer sibling loop never clears a redraw flag. -/
lemma markOverlaps_mono (env : IEnv) :
    ∀ (l : List (List Nat)) (redraw : List Nat → Bool) (z : List Nat),
      redraw z = true → markOverlaps env redraw l z = true := by
  intro l
  induction l with
  | nil => intro redraw z hz; exact hz
  | cons h1 rest ih =>
    intro redraw z hz
    rw [markOverlaps]
    exact ih _ z (markPairs_mono env h1 rest redraw z hz)

/-- After the outer loop starting at `h1`, every later sibling of `h1`
that overlaps `h1` is marked for redraw. -/
lemma markOverlaps_head_sets (env : IEnv) (h1 : List Nat)
    (rest : List (List Nat)) (redraw : List Nat → Bool) (h2 : List Nat)
    (hm : h2 ∈ rest)
    (hmatch : rectMatch (env.rect h1) (env.rect h2) = true) :
    markOverlaps env redraw (h1 :: rest) h2 = true := by
  rw [markOverlaps]
  exact markOverlaps_mono env rest _ h2 (markPairs_sets env h1 rest redraw h2 hm hmatch)

/-- The four sequential edge updates of `set_clipping_region` act on
independent fields. -/
lemma set_clipping_region_eq (d a : Rect) :
    set_clipping_region d a =
      ⟨if d.x1 > a.x1 then a.x1 else d.x1,
       if d.y1 > a.y1 then a.y1 else d.y1,
       if d.x2 < a.x2 then a.x2 else d.x2,
       if d.y2 < a.y2 then a.y2 else d.y2⟩ := by
  unfold set_clipping_region
  by_cases h1 : d.x1 > a.x1 <;> by_cases h2 : d.x2 < a.x2 <;>
    by_cases h3 : d.y1 > a.y1 <;> by_cases h4 : d.y2 < a.y2 <;>
    simp [h1, h2, h3, h4]

/-- Growing the dirty rectangle makes it contain the widget's visible
rectangle. -/
lemma set_clipping_contains (d a : Rect) :
    rectContains (set_clipping_region d a) a := by
  rw [set_clipping_region_eq]
  unfold rectContains
  refine ⟨?_, ?_, ?_, ?_⟩ <;> dsimp only <;> split_ifs <;> omega

/-- Invalidation never clears a redraw flag and never clears the global
redraw flag. -/
lemma invalidate_mono (env : IEnv) :
    ∀ (h : List Nat) (st : IState) (b : Bool) (z : List Nat),
      (st.redraw z = true → (invalidate_widget env st h b).2.redraw z = true) ∧
      (st.guiRedraw = true → (invalidate_widget env st h b).2.guiRedraw = true) := by
  intro h
  induction h with
  | nil => intro st b z; exact ⟨fun hz => hz, fun hg => hg⟩
  | cons x t ih =>
    intro st b z
    rw [invalidate_widget]
    by_cases hig : env.ignoreInv (x :: t) = true
    · simp only [if_pos hig]
      exact ⟨fun hz => hz, fun hg => hg⟩
    · simp only [if_neg hig]
      cases t with
      | nil =>
        refine ⟨fun hz => ?_, fun _ => by trivial⟩
        apply markOverlaps_mono
        by_cases hzx : z = x :: ([] : List Nat)
        · simp [hzx]
        · simp [hzx, hz]
      | cons p tt =>
        by_cases hlast : gui_linkedlist_iswidgetlast env (p :: tt) = true
        · simp only [if_pos hlast]
          refine ⟨fun hz => ?_, fun _ => by trivial⟩
          apply markOverlaps_mono
          by_cases hzx : z = x :: p :: tt
          · simp [hzx]
          · simp [hzx, hz]
        · simp only [if_neg hlast]
          refine ⟨fun hz => ?_, fun _ => ?_⟩
          · apply ((ih _ false z).1)
            apply markOverlaps_mono
            by_cases hzx : z = x :: p :: tt
            · simp [hzx]
            · simp [hzx, hz]
          · exact (ih ⟨_, true, _⟩ false z).2 rfl

/-- Parent-level invalidation runs without clip growth and leaves the
dirty rectangle unchanged. -/
lemma invalidate_disp_const (env : IEnv) :
    ∀ (h : List Nat) (st : IState),
      (invalidate_widget env st h false).2.disp = st.disp := by
  intro h
  induction h with
  | nil => intro st; rfl
  | cons x t ih =>
    intro st
    rw [invalidate_widget]
    by_cases hig : env.ignoreInv (x :: t) = true
    · simp [hig]
    · simp only [if_neg hig, Bool.false_eq_true, if_false]
      cases t with
      | nil => rfl
      | cons p tt =>
        by_cases hlast : gui_linkedlist_iswidgetlast env (p :: tt) = true
        · simp [hlast]
        · simp only [if_neg hlast]
          exact ih _

/-- One `invalidate_widget` call with clip growth on a widget that does
not carry the ignore flag: its redraw flag is set, the global redraw
flag is set, the dirty rectangle is grown exactly once (parent-level
recursion runs without clip growth), and every overlapping later
sibling is marked for redraw. -/
lemma invalidate_props (env : IEnv) (st : IState) (x : Nat) (t : List Nat)
    (hig : env.ignoreInv (x :: t) = false) :
    (invalidate_widget env st (x :: t) true).2.redraw (x :: t) = true ∧
    (invalidate_widget env st (x :: t) true).2.guiRedraw = true ∧
    (invalidate_widget env st (x :: t) true).2.disp
      = set_clipping_region st.disp (env.rect (x :: t)) ∧
    (∀ s ∈ laterSibs env (x :: t),
      rectMatch (env.rect (x :: t)) (env.rect s) = true →
      (invalidate_widget env st (x :: t) true).2.redraw s = true) := by
  rw [invalidate_widget]
  simp only [hig, Bool.false_eq_true, if_false]
  cases t with
  | nil =>
    refine ⟨?_, by trivial, by simp, ?_⟩
    · apply markOverlaps_mono
      simp
    · intro s hs hmatch
      exact markOverlaps_head_sets env _ _ _ s hs hmatch
  | cons p tt =>
    by_cases hlast : gui_linkedlist_iswidgetlast env (p :: tt) = true
    · simp only [if_pos hlast]
      refine ⟨?_, by trivial, by simp, ?_⟩
      · apply markOverlaps_mono
        simp
      · intro s hs hmatch
        exact markOverlaps_head_sets env _ _ _ s hs hmatch
    · simp only [if_neg hlast]
      refine ⟨?_, ?_, ?_, ?_⟩
      · apply (invalidate_mono env (p :: tt) _ false _).1
        apply markOverlaps_mono
        simp
      · exact (invalidate_mono env (p :: tt) _ false []).2 rfl
      · rw [invalidate_disp_const]
        simp
      · intro s hs hmatch
        apply (invalidate_mono env (p :: tt) _ false _).1
        exact markOverlaps_head_sets env _ _ _ s hs hmatch

/-- Concrete two-sibling environment for the invalidation example:
widgets `10` and `11` at root level, `11` stacked above `10`, visible
rectangles overlapping. -/
def wEnv : IEnv :=
  ⟨fun p => if p = [10] then ⟨0, 0, 10, 10⟩
    else if p = [11] then ⟨5, 5, 15, 15⟩ else ⟨0, 0, 0, 0⟩,
   fun _ => false,
   fun p => if p = [] then [10, 11] else []⟩

/-- Initial state for the invalidation example: nothing dirty, the
dirty rectangle inverted (empty). -/
def wSt : IState :=
  ⟨fun _ => false, false, ⟨20, 20, -5, -5⟩⟩

/-! ## The removal sweep (claim C5)

`remove_widget` (src/src/gui/gui_input.c, lines 197–254) and
`remove_widgets` (lines 260–322).  Widgets are referenced by id; the
global pointer registry holds `GUI.FocusedWidget`,
`GUI.FocusedWidgetPrev`, `GUI.ActiveWidget`, `GUI.ActiveWidgetPrev` and
`GUI.WindowActive`.  The finalization steps that release resources are
recorded as events. -/

/-- The five global widget pointers of the `GUI` singleton. -/
structure GuiPtrs where
  focusedWidget : Option Nat
  focusedWidgetPrev : Option Nat
  activeWidget : Option Nat
  activeWidgetPrev : Option Nat
  windowActive : Option Nat
deriving DecidableEq, Repr

/-- Finalization events of `remove_widget`, in source order:
invalidate the widget with its parent, free the text memory, free the
timer (when present), free the color array (when present), unlink from
the sibling list, free the widget memory. -/
inductive REvent where
  | invalidateWithParent : Nat → REvent
  | freeText : Nat → REvent
  | freeTimer : Nat → REvent
  | freeColors : Nat → REvent
  | unlink : Nat → REvent
  | free : Nat → REvent
deriving DecidableEq, Repr

/-- The finalization block of `remove_widget` (lines 242–251) for one
widget: `guii_widget_invalidatewithparent`, `guii_widget_freetextmemory`,
`gui_timer_remove__` if a timer exists, `GUI_MEMFREE(h->Colors)` if a
color array exists, `gui_linkedlist_widgetremove` and `GUI_MEMFREE(h)`. -/
def finalizeEvents (i : RWidget) : List REvent :=
  [REvent.invalidateWithParent i.id, REvent.freeText i.id] ++
  (if i.hasTimer then [REvent.freeTimer i.id] else []) ++
  (if i.hasColors then [REvent.freeColors i.id] else []) ++
  [REvent.unlink i.id, REvent.free i.id]

/-- `remove_widget` (src/src/gui/gui_input.c, lines 197–254): redirect
the five global pointers away from the widget being freed — focus to the
parent (or cleared via `gui_widget_focus_clear`, which also records the
old focus as previous unless it is `GUI.root.First`, after which step 2
clears it again), previous focus cleared, active cleared, previous
active and active window to the parent — then finalize.  (The focus-flag
walk of `gui_widget_focus_clear` and the callbacks it fires act on the
focus-flag state of the focus model and are outside the sweep state.)
`rootFirst` is `GUI.root.First`, `parent` the widget's parent pointer.

Step 1 (lines 209–216): if the widget is focused, move focus to its
parent; with no parent, `gui_widget_focus_clear` records the old focus
as previous (unless it is `GUI.root.First`) and clears the focus. -/
def rwStep1 (rootFirst : Option Nat) (i : RWidget) (parent : Option Nat)
    (g : GuiPtrs) : GuiPtrs :=
  if g.focusedWidget = some i.id then
    match parent with
    | some q => { g with focusedWidget := some q }
    | none =>
      { g with
        focusedWidget := none,
        focusedWidgetPrev :=
          if rootFirst = some i.id then g.focusedWidgetPrev
          else some i.id }
  else g

/-- Step 2 of `remove_widget` (lines 217–219): clear the previous focus
if it is the widget being removed. -/
def rwStep2 (i : RWidget) (g : GuiPtrs) : GuiPtrs :=
  if g.focusedWidgetPrev = some i.id then
    { g with focusedWidgetPrev := none } else g

/-- Step 3 of `remove_widget` (lines 220–222): clear the active widget
if it is the widget being removed. -/
def rwStep3 (i : RWidget) (g : GuiPtrs) : GuiPtrs :=
  if g.activeWidget = some i.id then
    { g with activeWidget := none } else g

/-- Step 4 of `remove_widget` (lines 223–225): redirect the previous
active widget to the parent if it is the widget being removed. -/
def rwStep4 (i : RWidget) (parent : Option Nat) (g : GuiPtrs) : GuiPtrs :=
  if g.activeWidgetPrev = some i.id then
    { g with activeWidgetPrev := parent } else g

/-- Lines 226–228 of `remove_widget`: redirect the active window to the
widget's parent if it is the widget being removed. -/
def rwStep5 (i : RWidget) (parent : Option Nat) (g : GuiPtrs) : GuiPtrs :=
  if g.windowActive ≠ none ∧ g.windowActive = some i.id then
    { g with windowActive := parent } else g

/-- All five pointer updates of `remove_widget` in source order,
followed by the finalization block. -/
def remove_widget (rootFirst : Option Nat) (g : GuiPtrs) (i : RWidget)
    (parent : Option Nat) : GuiPtrs × List REvent :=
  (rwStep5 i parent (rwStep4 i parent (rwStep3 i
      (rwStep2 i (rwStep1 rootFirst i parent g)))),
    finalizeEvents i)

/-- Step 1 of the flagged case of `remove_widgets` (lines 289–293): set
`GUI_FLAG_REMOVE` on every direct child. -/
def setflag_children : List WTree → List WTree
  | [] => []
  | t :: r => setflag_remove t :: setflag_children r

mutual

/-- Ids of a subtree in postorder (children first, then the node):
the order in which the sweep finalizes a fully flagged subtree. -/
def postIdsT : WTree → List Nat
  | WTree.node i cs => postIds cs ++ [i.id]

/-- Ids of a forest in postorder. -/
def postIds : List WTree → List Nat
  | [] => []
  | t :: rest => postIdsT t ++ postIds rest

end

mutual

/-- Finalization events of a fully flagged subtree, in sweep order. -/
def postBlocksT : WTree → List REvent
  | WTree.node i cs => postBlocks cs ++ finalizeEvents i

/-- Finalization events of a fully flagged forest, in sweep order. -/
def postBlocks : List WTree → List REvent
  | [] => []
  | t :: rest => postBlocksT t ++ postBlocks rest

end

/-- Ids freed by an event trace. -/
def freeIds (ev : List REvent) : List Nat :=
  ev.filterMap (fun e => match e with | REvent.free z => some z | _ => none)

/-- Every root of the forest carries `GUI_FLAG_REMOVE`. -/
def rootsFlagged : List WTree → Prop
  | [] => True
  | t :: rest => t.root.flagRemove = true ∧ rootsFlagged rest

/-- How the sweep of a forest under parent `p` with id set `ids` evolves
the global pointers: focus may only move to the parent, previous focus
and active may only be cleared, previous active and active window may
only move to the parent, and afterwards none of the five pointers
references any widget of the swept set. -/
def PtrProps (g g' : GuiPtrs) (p : Option Nat) (ids : List Nat) : Prop :=
  (g'.focusedWidget = g.focusedWidget ∨ g'.focusedWidget = p) ∧
  (g'.focusedWidgetPrev = g.focusedWidgetPrev ∨ g'.focusedWidgetPrev = none) ∧
  (g'.activeWidget = g.activeWidget ∨ g'.activeWidget = none) ∧
  (g'.activeWidgetPrev = g.activeWidgetPrev ∨ g'.activeWidgetPrev = p) ∧
  (g'.windowActive = g.windowActive ∨ g'.windowActive = p) ∧
  (∀ z ∈ ids,
    g'.focusedWidget ≠ some z ∧ g'.focusedWidgetPrev ≠ some z ∧
    g'.activeWidget ≠ some z ∧ g'.activeWidgetPrev ≠ some z ∧
    g'.windowActive ≠ some z)

/-- Flagging a subtree root does not change its size. -/
lemma tsize_setflag (t : WTree) : tsize (setflag_remove t) = tsize t := by
  cases t with
  | node i cs => rfl

/-- Flagging the direct children does not change the forest size. -/
lemma lsizeT_setflag_children :
    ∀ cs : List WTree, lsizeT (setflag_children cs) = lsizeT cs := by
  intro cs
  induction cs with
  | nil => rfl
  | cons t r ih =>
    rw [setflag_children, lsizeT, lsizeT, tsize_setflag, ih]

/-- `remove_widgets` (src/src/gui/gui_input.c, lines 260–322): scan the
child list of `parent`; a flagged widget first has all its direct
children flagged (when it supports children), its subtree recursively
swept, and is then finalized with `remove_widget` and dropped from the
list; an unflagged container is descended into; unflagged widgets stay.
Result: `(surviving children, pointer registry, event trace)`. -/
def remove_widgets (rootFirst : Option Nat) :
    Option Nat → List WTree → GuiPtrs →
      List WTree × GuiPtrs × List REvent
  | _, [], g => ([], g, [])
  | parent, WTree.node i cs :: rest, g =>
    if i.flagRemove then
      let r1 := if i.allowchildren then
          remove_widgets rootFirst (some i.id) (setflag_children cs) g
        else (cs, g, ([] : List REvent))
      let r2 := remove_widget rootFirst r1.2.1 i parent
      let r3 := remove_widgets rootFirst parent rest r2.1
      (r3.1, r3.2.1, r1.2.2 ++ r2.2 ++ r3.2.2)
    else
      let r1 := if i.allowchildren then
          remove_widgets rootFirst (some i.id) cs g
        else (cs, g, ([] : List REvent))
      let r2 := remove_widgets rootFirst parent rest r1.2.1
      (WTree.node i r1.1 :: r2.1, r2.2.1, r1.2.2 ++ r2.2.2)
  termination_by _ l _ => lsizeT l
  decreasing_by
    all_goals simp only [lsizeT, tsize, lsizeT_setflag_children]
    all_goals omega

/-- Field-wise effect of step 1: focus moves to the parent exactly on a
match; the previous focus either stays or becomes the removed id (the
`gui_widget_focus_clear` record); nothing else changes. -/
lemma rwStep1_eq (rf : Option Nat) (i : RWidget) (p : Option Nat)
    (g : GuiPtrs) :
    (rwStep1 rf i p g).focusedWidget
      = (if g.focusedWidget = some i.id then p else g.focusedWidget) ∧
    ((rwStep1 rf i p g).focusedWidgetPrev = g.focusedWidgetPrev ∨
      (rwStep1 rf i p g).focusedWidgetPrev = some i.id) ∧
    (rwStep1 rf i p g).activeWidget = g.activeWidget ∧
    (rwStep1 rf i p g).activeWidgetPrev = g.activeWidgetPrev ∧
    (rwStep1 rf i p g).windowActive = g.windowActive := by
  unfold rwStep1
  by_cases h : g.focusedWidget = some i.id
  · cases p with
    | none =>
      by_cases h2 : rf = some i.id <;> simp [h, h2]
    | some q => simp [h]
  · simp [h]

/-- Field-wise effect of step 2: the previous focus is cleared exactly
on a match; nothing else changes. -/
lemma rwStep2_eq (i : RWidget) (g : GuiPtrs) :
    (rwStep2 i g).focusedWidget = g.focusedWidget ∧
    (rwStep2 i g).focusedWidgetPrev
      = (if g.focusedWidgetPrev = some i.id then none
         else g.focusedWidgetPrev) ∧
    (rwStep2 i g).activeWidget = g.activeWidget ∧
    (rwStep2 i g).activeWidgetPrev = g.activeWidgetPrev ∧
    (rwStep2 i g).windowActive = g.windowActive := by
  unfold rwStep2
  by_cases h : g.focusedWidgetPrev = some i.id <;> simp [h]

/-- Field-wise effect of step 3: the active widget is cleared exactly on
a match; nothing else changes. -/
lemma rwStep3_eq (i : RWidget) (g : GuiPtrs) :
    (rwStep3 i g).focusedWidget = g.focusedWidget ∧
    (rwStep3 i g).focusedWidgetPrev = g.focusedWidgetPrev ∧
    (rwStep3 i g).activeWidget
      = (if g.activeWidget = some i.id then none else g.activeWidget) ∧
    (rwStep3 i g).activeWidgetPrev = g.activeWidgetPrev ∧
    (rwStep3 i g).windowActive = g.windowActive := by
  unfold rwStep3
  by_cases h : g.activeWidget = some i.id <;> simp [h]

/-- Field-wise effect of step 4: the previous active widget moves to the
parent exactly on a match; nothing else changes. -/
lemma rwStep4_eq (i : RWidget) (p : Option Nat) (g : GuiPtrs) :
    (rwStep4 i p g).focusedWidget = g.focusedWidget ∧
    (rwStep4 i p g).focusedWidgetPrev = g.focusedWidgetPrev ∧
    (rwStep4 i p g).activeWidget = g.activeWidget ∧
    (rwStep4 i p g).activeWidgetPrev
      = (if g.activeWidgetPrev = some i.id then p
         else g.activeWidgetPrev) ∧
    (rwStep4 i p g).windowActive = g.windowActive := by
  unfold rwStep4
  by_cases h : g.activeWidgetPrev = some i.id <;> simp [h]

/-- Field-wise effect of the active-window update: the non-NULL guard is
subsumed by the match, so the window moves to the parent exactly on a
match; nothing else changes. -/
lemma rwStep5_eq (i : RWidget) (p : Option Nat) (g : GuiPtrs) :
    (rwStep5 i p g).focusedWidget = g.focusedWidget ∧
    (rwStep5 i p g).focusedWidgetPrev = g.focusedWidgetPrev ∧
    (rwStep5 i p g).activeWidget = g.activeWidget ∧
    (rwStep5 i p g).activeWidgetPrev = g.activeWidgetPrev ∧
    (rwStep5 i p g).windowActive
      = (if g.windowActive = some i.id then p else g.windowActive) := by
  unfold rwStep5
  by_cases h : g.windowActive = some i.id
  · simp [h]
  · simp [h]

/-- Pointer effect of one `remove_widget` call: focus moves to the
parent exactly when it referenced the freed widget, previous focus is
only ever cleared and never references the freed widget afterwards,
active is cleared on a match, previous active and active window move to
the parent on a match; the events are the finalization block. -/
lemma remove_widget_ptrs (rf : Option Nat) (g : GuiPtrs) (i : RWidget)
    (p : Option Nat) :
    (remove_widget rf g i p).1.focusedWidget
      = (if g.focusedWidget = some i.id then p else g.focusedWidget) ∧
    ((remove_widget rf g i p).1.focusedWidgetPrev = g.focusedWidgetPrev ∨
      (remove_widget rf g i p).1.focusedWidgetPrev = none) ∧
    (remove_widget rf g i p).1.focusedWidgetPrev ≠ some i.id ∧
    (remove_widget rf g i p).1.activeWidget
      = (if g.activeWidget = some i.id then none else g.activeWidget) ∧
    (remove_widget rf g i p).1.activeWidgetPrev
      = (if g.activeWidgetPrev = some i.id then p else g.activeWidgetPrev) ∧
    (remove_widget rf g i p).1.windowActive
      = (if g.windowActive = some i.id then p else g.windowActive) ∧
    (remove_widget rf g i p).2 = finalizeEvents i := by
  obtain ⟨S1f, S1fp, S1a, S1ap, S1w⟩ := rwStep1_eq rf i p g
  obtain ⟨S2f, S2fp, S2a, S2ap, S2w⟩ := rwStep2_eq i (rwStep1 rf i p g)
  obtain ⟨S3f, S3fp, S3a, S3ap, S3w⟩ :=
    rwStep3_eq i (rwStep2 i (rwStep1 rf i p g))
  obtain ⟨S4f, S4fp, S4a, S4ap, S4w⟩ :=
    rwStep4_eq i p (rwStep3 i (rwStep2 i (rwStep1 rf i p g)))
  obtain ⟨S5f, S5fp, S5a, S5ap, S5w⟩ :=
    rwStep5_eq i p
      (rwStep4 i p (rwStep3 i (rwStep2 i (rwStep1 rf i p g))))
  refine ⟨?_, ?_, ?_, ?_, ?_, ?_, rfl⟩
  · show (rwStep5 i p (rwStep4 i p (rwStep3 i (rwStep2 i
        (rwStep1 rf i p g))))).focusedWidget = _
    rw [S5f, S4f, S3f, S2f, S1f]
  · show (rwStep5 i p (rwStep4 i p (rwStep3 i (rwStep2 i
          (rwStep1 rf i p g))))).focusedWidgetPrev = g.focusedWidgetPrev ∨
        (rwStep5 i p (rwStep4 i p (rwStep3 i (rwStep2 i
          (rwStep1 rf i p g))))).focusedWidgetPrev = none
    rw [S5fp, S4fp, S3fp, S2fp]
    by_cases hm : (rwStep1 rf i p g).focusedWidgetPrev = some i.id
    · rw [if_pos hm]
      exact Or.inr rfl
    · rw [if_neg hm]
      rcases S1fp with he | he
      · exact Or.inl he
      · exact absurd he hm
  · show (rwStep5 i p (rwStep4 i p (rwStep3 i (rwStep2 i
        (rwStep1 rf i p g))))).focusedWidgetPrev ≠ _
    rw [S5fp, S4fp, S3fp, S2fp]
    by_cases hm : (rwStep1 rf i p g).focusedWidgetPrev = some i.id
    · rw [if_pos hm]
      exact fun hc => Option.noConfusion hc
    · rw [if_neg hm]
      exact hm
  · show (rwStep5 i p (rwStep4 i p (rwStep3 i (rwStep2 i
        (rwStep1 rf i p g))))).activeWidget = _
    rw [S5a, S4a, S3a, S2a, S1a]
  · show (rwStep5 i p (rwStep4 i p (rwStep3 i (rwStep2 i
        (rwStep1 rf i p g))))).activeWidgetPrev = _
    rw [S5ap, S4ap, S3ap, S2ap, S1ap]
  · show (rwStep5 i p (rwStep4 i p (rwStep3 i (rwStep2 i
        (rwStep1 rf i p g))))).windowActive = _
    rw [S5w, S4w, S3w, S2w, S1w]

/-- The sweep pointer relation is reflexive on the empty id set. -/
lemma PtrProps_rfl (g : GuiPtrs) (p : Option Nat) : PtrProps g g p [] := by
  refine ⟨Or.inl rfl, Or.inl rfl, Or.inl rfl, Or.inl rfl, Or.inl rfl, ?_⟩
  intro z hz
  exact absurd hz (List.not_mem_nil z)

/-- Two consecutive sweeps under the same parent compose. -/
lemma PtrProps_trans {g g2 g3 : GuiPtrs} {p : Option Nat}
    {ids1 ids2 : List Nat}
    (h1 : PtrProps g g2 p ids1) (h2 : PtrProps g2 g3 p ids2)
    (hp : ∀ z ∈ ids1, p ≠ some z) :
    PtrProps g g3 p (ids1 ++ ids2) := by
  obtain ⟨f1, fp1, a1, ap1, w1, s1⟩ := h1
  obtain ⟨f2, fp2, a2, ap2, w2, s2⟩ := h2
  refine ⟨?_, ?_, ?_, ?_, ?_, ?_⟩
  · rcases f2 with he | he
    · rw [he]; exact f1
    · exact Or.inr he
  · rcases fp2 with he | he
    · rw [he]; exact fp1
    · exact Or.inr he
  · rcases a2 with he | he
    · rw [he]; exact a1
    · exact Or.inr he
  · rcases ap2 with he | he
    · rw [he]; exact ap1
    · exact Or.inr he
  · rcases w2 with he | he
    · rw [he]; exact w1
    · exact Or.inr he
  · intro z hz
    rcases List.mem_append.mp hz with hz1 | hz2
    · refine ⟨?_, ?_, ?_, ?_, ?_⟩
      · rcases f2 with he | he
        · rw [he]; exact (s1 z hz1).1
        · rw [he]; exact hp z hz1
      · rcases fp2 with he | he
        · rw [he]; exact (s1 z hz1).2.1
        · rw [he]; exact fun hc => Option.noConfusion hc
      · rcases a2 with he | he
        · rw [he]; exact (s1 z hz1).2.2.1
        · rw [he]; exact fun hc => Option.noConfusion hc
      · rcases ap2 with he | he
        · rw [he]; exact (s1 z hz1).2.2.2.1
        · rw [he]; exact hp z hz1
      · rcases w2 with he | he
        · rw [he]; exact (s1 z hz1).2.2.2.2
        · rw [he]; exact hp z hz1
    · exact s2 z hz2

/-- Sweeping a flagged node's children (under the node as parent) and
then finalizing the node itself yields the sweep relation for the whole
subtree under the node's own parent. -/
lemma PtrProps_head (rf : Option Nat) {g r1g : GuiPtrs} {i : RWidget}
    {p : Option Nat} {csids : List Nat}
    (h1 : PtrProps g r1g (some i.id) csids)
    (hpi : p ≠ some i.id)
    (hpc : ∀ z ∈ csids, p ≠ some z)
    (hic : i.id ∉ csids) :
    PtrProps g (remove_widget rf r1g i p).1 p (csids ++ [i.id]) := by
  obtain ⟨f1, fp1, a1, ap1, w1, s1⟩ := h1
  obtain ⟨RF, RFP, RFPne, RA, RAP, RW, REV⟩ := remove_widget_ptrs rf r1g i p
  refine ⟨?_, ?_, ?_, ?_, ?_, ?_⟩
  · rw [RF]
    by_cases hm : r1g.focusedWidget = some i.id
    · rw [if_pos hm]; exact Or.inr rfl
    · rw [if_neg hm]
      rcases f1 with he | he
      · exact Or.inl he
      · exact absurd he hm
  · rcases RFP with he | he
    · rw [he]
      exact fp1
    · exact Or.inr he
  · rw [RA]
    by_cases hm : r1g.activeWidget = some i.id
    · rw [if_pos hm]; exact Or.inr rfl
    · rw [if_neg hm]
      exact a1
  · rw [RAP]
    by_cases hm : r1g.activeWidgetPrev = some i.id
    · rw [if_pos hm]; exact Or.inr rfl
    · rw [if_neg hm]
      rcases ap1 with he | he
      · exact Or.inl he
      · exact absurd he hm
  · rw [RW]
    by_cases hm : r1g.windowActive = some i.id
    · rw [if_pos hm]; exact Or.inr rfl
    · rw [if_neg hm]
      rcases w1 with he | he
      · exact Or.inl he
      · exact absurd he hm
  · intro z hz
    rcases List.mem_append.mp hz with hz1 | hz2
    · refine ⟨?_, ?_, ?_, ?_, ?_⟩
      · rw [RF]
        by_cases hm : r1g.focusedWidget = some i.id
        · rw [if_pos hm]; exact hpc z hz1
        · rw [if_neg hm]; exact (s1 z hz1).1
      · rcases RFP with he | he
        · rw [he]; exact (s1 z hz1).2.1
        · rw [he]; exact fun hc => Option.noConfusion hc
      · rw [RA]
        by_cases hm : r1g.activeWidget = some i.id
        · rw [if_pos hm]; exact fun hc => Option.noConfusion hc
        · rw [if_neg hm]; exact (s1 z hz1).2.2.1
      · rw [RAP]
        by_cases hm : r1g.activeWidgetPrev = some i.id
        · rw [if_pos hm]; exact hpc z hz1
        · rw [if_neg hm]; exact (s1 z hz1).2.2.2.1
      · rw [RW]
        by_cases hm : r1g.windowActive = some i.id
        · rw [if_pos hm]; exact hpc z hz1
        · rw [if_neg hm]; exact (s1 z hz1).2.2.2.2
    · have hz' : z = i.id := by simpa using hz2
      subst hz'
      refine ⟨?_, ?_, ?_, ?_, ?_⟩
      · rw [RF]
        by_cases hm : r1g.focusedWidget = some i.id
        · rw [if_pos hm]; exact hpi
        · rw [if_neg hm]; exact hm
      · exact RFPne
      · rw [RA]
        by_cases hm : r1g.activeWidget = some i.id
        · rw [if_pos hm]; exact fun hc => Option.noConfusion hc
        · rw [if_neg hm]; exact hm
      · rw [RAP]
        by_cases hm : r1g.activeWidgetPrev = some i.id
        · rw [if_pos hm]; exact hpi
        · rw [if_neg hm]; exact hm
      · rw [RW]
        by_cases hm : r1g.windowActive = some i.id
        · rw [if_pos hm]; exact hpi
        · rw [if_neg hm]; exact hm

/-- Flagging a subtree root flags its root. -/
lemma root_setflag (t : WTree) :
    (setflag_remove t).root.flagRemove = true := by
  cases t with
  | node i cs => rfl

/-- After step 1 of the flagged case, every direct child is flagged. -/
lemma rootsFlagged_setflag :
    ∀ cs : List WTree, rootsFlagged (setflag_children cs) := by
  intro cs
  induction cs with
  | nil => trivial
  | cons t r ih => exact ⟨root_setflag t, ih⟩

/-- Flagging the direct children does not change the postorder ids. -/
lemma postIds_setflag :
    ∀ cs : List WTree, postIds (setflag_children cs) = postIds cs := by
  intro cs
  induction cs with
  | nil => rfl
  | cons t r ih =>
    cases t with
    | node i cs' =>
      simp [setflag_children, postIds, postIdsT, setflag_remove, ih]

/-- Flagging the direct children does not change the finalization
blocks. -/
lemma postBlocks_setflag :
    ∀ cs : List WTree, postBlocks (setflag_children cs) = postBlocks cs := by
  intro cs
  induction cs with
  | nil => rfl
  | cons t r ih =>
    cases t with
    | node i cs' =>
      simp [setflag_children, postBlocks, postBlocksT, setflag_remove, ih,
        finalizeEvents]

/-- Flagging the direct children preserves well-formedness. -/
lemma wfTreeL_setflag :
    ∀ cs : List WTree, wfTreeL cs → wfTreeL (setflag_children cs) := by
  intro cs
  induction cs with
  | nil => intro _; trivial
  | cons t r ih =>
    intro h
    have h' : wfTree t ∧ wfTreeL r := by simpa [wfTreeL] using h
    have ht : wfTree (setflag_remove t) := by
      cases t with
      | node i cs' =>
        have := h'.1
        simp only [setflag_remove]
        simp only [wfTree] at this ⊢
        exact this
    show wfTreeL (setflag_remove t :: setflag_children r)
    simp only [wfTreeL]
    exact ⟨ht, ih h'.2⟩

/-- Freed ids distribute over event concatenation. -/
lemma freeIds_append (a b : List REvent) :
    freeIds (a ++ b) = freeIds a ++ freeIds b := by
  simp [freeIds]

/-- One finalization block frees exactly its widget. -/
lemma freeIds_finalize (i : RWidget) :
    freeIds (finalizeEvents i) = [i.id] := by
  unfold finalizeEvents freeIds
  by_cases h1 : i.hasTimer <;> by_cases h2 : i.hasColors <;>
    simp [h1, h2]

/-- The sweep of a fully flagged forest frees exactly the postorder
ids. -/
lemma freeIds_postBlocks :
    ∀ (n : Nat) (l : List WTree), lsizeT l ≤ n →
      freeIds (postBlocks l) = postIds l := by
  intro n
  induction n with
  | zero =>
    intro l hn
    cases l with
    | nil => rfl
    | cons t r =>
      cases t with
      | node i cs =>
        exfalso
        simp [lsizeT, tsize] at hn
  | succ n ih =>
    intro l hn
    cases l with
    | nil => rfl
    | cons t r =>
      cases t with
      | node i cs =>
        have hsz : tsize (WTree.node i cs) + lsizeT r ≤ n + 1 := by
          simpa [lsizeT] using hn
        have hts : tsize (WTree.node i cs) = 1 + lsizeT cs := by
          simp [tsize]
        rw [postBlocks, postIds, postBlocksT, postIdsT]
        rw [freeIds_append, freeIds_append, freeIds_finalize]
        rw [ih cs (by omega), ih r (by omega)]

/-- The number of postorder ids is the number of nodes. -/
lemma postIds_length :
    ∀ (n : Nat) (l : List WTree), lsizeT l ≤ n →
      (postIds l).length = lsizeT l := by
  intro n
  induction n with
  | zero =>
    intro l hn
    cases l with
    | nil => rfl
    | cons t r =>
      cases t with
      | node i cs =>
        exfalso
        simp [lsizeT, tsize] at hn
  | succ n ih =>
    intro l hn
    cases l with
    | nil => rfl
    | cons t r =>
      cases t with
      | node i cs =>
        have hsz : tsize (WTree.node i cs) + lsizeT r ≤ n + 1 := by
          simpa [lsizeT] using hn
        have hts : tsize (WTree.node i cs) = 1 + lsizeT cs := by
          simp [tsize]
        rw [postIds, postIdsT, lsizeT, hts]
        rw [List.length_append, List.length_append, List.length_singleton]
        rw [ih cs (by omega), ih r (by omega)]
        omega

/-- Unfolding equation of the sweep on the empty child list. -/
lemma remove_widgets_nil (rf p : Option Nat) (g : GuiPtrs) :
    remove_widgets rf p [] g = ([], g, []) := by
  rw [remove_widgets.eq_def]

/-- Unfolding equation of the sweep on a flagged container child. -/
lemma remove_widgets_cons_flagged (rf p : Option Nat) (i : RWidget)
    (cs rest : List WTree) (g : GuiPtrs)
    (hf : i.flagRemove = true) (hac : i.allowchildren = true) :
    remove_widgets rf p (WTree.node i cs :: rest) g =
      ((remove_widgets rf p rest
          ((remove_widget rf
            (remove_widgets rf (some i.id) (setflag_children cs) g).2.1
            i p).1)).1,
       (remove_widgets rf p rest
          ((remove_widget rf
            (remove_widgets rf (some i.id) (setflag_children cs) g).2.1
            i p).1)).2.1,
       (remove_widgets rf (some i.id) (setflag_children cs) g).2.2 ++
         (remove_widget rf
           (remove_widgets rf (some i.id) (setflag_children cs) g).2.1
           i p).2 ++
         (remove_widgets rf p rest
           ((remove_widget rf
             (remove_widgets rf (some i.id) (setflag_children cs) g).2.1
             i p).1)).2.2) := by
  rw [remove_widgets.eq_def]
  dsimp only
  rw [if_pos hf, if_pos hac]

/-- Unfolding equation of the sweep on a flagged non-container child. -/
lemma remove_widgets_cons_flagged_leaf (rf p : Option Nat) (i : RWidget)
    (cs rest : List WTree) (g : GuiPtrs)
    (hf : i.flagRemove = true) (hac : i.allowchildren = false) :
    remove_widgets rf p (WTree.node i cs :: rest) g =
      ((remove_widgets rf p rest ((remove_widget rf g i p).1)).1,
       (remove_widgets rf p rest ((remove_widget rf g i p).1)).2.1,
       ([] : List REvent) ++ (remove_widget rf g i p).2 ++
         (remove_widgets rf p rest ((remove_widget rf g i p).1)).2.2) := by
  rw [remove_widgets.eq_def]
  dsimp only
  rw [if_pos hf, if_neg (by simp [hac])]

/-- The sweep of a forest whose roots are all flagged and well formed
(with duplicate-free ids, under a parent outside the forest): every
node is removed, the event trace is exactly the postorder concatenation
of the finalization blocks, and the global pointers evolve by the sweep
relation — in particular they never reference a swept widget
afterwards. -/
lemma remove_widgets_all (rf : Option Nat) :
    ∀ (n : Nat) (l : List WTree) (p : Option Nat) (g : GuiPtrs),
      lsizeT l ≤ n →
      rootsFlagged l → wfTreeL l → (postIds l).Nodup →
      (∀ z ∈ postIds l, p ≠ some z) →
      (remove_widgets rf p l g).1 = [] ∧
      (remove_widgets rf p l g).2.2 = postBlocks l ∧
      PtrProps g (remove_widgets rf p l g).2.1 p (postIds l) := by
  intro n
  induction n with
  | zero =>
    intro l p g hn _ _ _ _
    cases l with
    | nil =>
      rw [remove_widgets_nil]
      refine ⟨rfl, by rw [postBlocks], ?_⟩
      rw [postIds]
      exact PtrProps_rfl g p
    | cons t r =>
      cases t with
      | node i cs =>
        exfalso
        simp [lsizeT, tsize] at hn
  | succ n ih =>
    intro l p g hn hflag hwf hnd hp
    cases l with
    | nil =>
      rw [remove_widgets_nil]
      refine ⟨rfl, by rw [postBlocks], ?_⟩
      rw [postIds]
      exact PtrProps_rfl g p
    | cons t r =>
      cases t with
      | node i cs =>
        have hts : tsize (WTree.node i cs) = 1 + lsizeT cs := by
          simp [tsize]
        have hsz : tsize (WTree.node i cs) + lsizeT r ≤ n + 1 := by
          simpa [lsizeT] using hn
        obtain ⟨hflag1, hflagr⟩ := hflag
        rw [WTree.root] at hflag1
        have hwf' : wfTree (WTree.node i cs) ∧ wfTreeL r := by
          simpa [wfTreeL] using hwf
        have hwfn : (i.allowchildren = false → cs = []) ∧ wfTreeL cs := by
          simpa [wfTree] using hwf'.1
        have hpi : postIds (WTree.node i cs :: r)
            = (postIds cs ++ [i.id]) ++ postIds r := by
          rw [postIds, postIdsT]
        rw [hpi] at hnd hp ⊢
        rw [List.nodup_append] at hnd
        obtain ⟨hnd1, hndr, hdis⟩ := hnd
        rw [List.nodup_append] at hnd1
        obtain ⟨hndcs, _, hdis1⟩ := hnd1
        have hic : i.id ∉ postIds cs := fun hm =>
          hdis1 hm (by simp)
        have hpcs : ∀ z ∈ postIds cs, p ≠ some z := fun z hz =>
          hp z (by simp [hz])
        have hpid : p ≠ some i.id := hp i.id (by simp)
        have hpr : ∀ z ∈ postIds r, p ≠ some z := fun z hz =>
          hp z (by simp [hz])
        have hpbl : postBlocks (WTree.node i cs :: r)
            = (postBlocks cs ++ finalizeEvents i) ++ postBlocks r := by
          rw [postBlocks, postBlocksT]
        rw [hpbl]
        rcases hac : i.allowchildren with _ | _
        · -- non-container: well-formedness forces an empty child list
          have hcs0 : cs = [] := hwfn.1 hac
          subst hcs0
          rw [remove_widgets_cons_flagged_leaf rf p i [] r g hflag1 hac]
          have P2 : PtrProps g (remove_widget rf g i p).1 p
              (([] : List Nat) ++ [i.id]) :=
            PtrProps_head rf (PtrProps_rfl g (some i.id)) hpid
              (fun z hz => absurd hz (List.not_mem_nil z))
              (List.not_mem_nil i.id)
          have hrest := ih r p (remove_widget rf g i p).1
            (by omega) hflagr hwf'.2 hndr hpr
          obtain ⟨f1, f2, P3⟩ := hrest
          refine ⟨f1, ?_, ?_⟩
          · rw [f2]
            have hev : (remove_widget rf g i p).2 = finalizeEvents i :=
              (remove_widget_ptrs rf g i p).2.2.2.2.2.2
            rw [hev, postBlocks]
          · have P4 := PtrProps_trans P2 P3
              (fun z hz => by
                rcases List.mem_append.mp hz with h1 | h2
                · exact absurd h1 (List.not_mem_nil z)
                · have : z = i.id := by simpa using h2
                  rw [this]
                  exact hpid)
            simpa using P4
        · -- container: flag the children, sweep them, finalize, sweep rest
          rw [remove_widgets_cons_flagged rf p i cs r g hflag1 hac]
          have hcs := ih (setflag_children cs) (some i.id) g
            (by rw [lsizeT_setflag_children]; omega)
            (rootsFlagged_setflag cs) (wfTreeL_setflag cs hwfn.2)
            (by rw [postIds_setflag]; exact hndcs)
            (by
              rw [postIds_setflag]
              intro z hz hc
              exact hic (by rw [Option.some_inj] at hc; rw [hc]; exact hz))
          obtain ⟨e1, e2, P1⟩ := hcs
          rw [postIds_setflag] at P1
          have P2 : PtrProps g
              ((remove_widget rf
                (remove_widgets rf (some i.id) (setflag_children cs) g).2.1
                i p).1) p (postIds cs ++ [i.id]) :=
            PtrProps_head rf P1 hpid hpcs hic
          have hrest := ih r p
            ((remove_widget rf
              (remove_widgets rf (some i.id) (setflag_children cs) g).2.1
              i p).1)
            (by omega) hflagr hwf'.2 hndr hpr
          obtain ⟨f1, f2, P3⟩ := hrest
          refine ⟨f1, ?_, ?_⟩
          · rw [f2, e2, postBlocks_setflag]
            have hev : (remove_widget rf
                (remove_widgets rf (some i.id) (setflag_children cs) g).2.1
                i p).2 = finalizeEvents i :=
              (remove_widget_ptrs rf _ i p).2.2.2.2.2.2
            rw [hev]
          · exact PtrProps_trans P2 P3
              (fun z hz => by
                rcases List.mem_append.mp hz with h1 | h2
                · exact hpcs z h1
                · have : z = i.id := by simpa using h2
                  rw [this]
                  exact hpid)

/-- C1 (amended): for every sibling list reachable by widget creations and
move-to-top / move-to-bottom calls, *provided every created dialog-base
widget also allows children*, every adjacent pair of siblings satisfies
the group ordering rule: a dialog-base node never precedes a
non-dialog-base node, container-capable nodes come after plain nodes among
the non-dialog-base group, and within each group z-index values are
non-decreasing in stacking order. -/
theorem zorder_group_invariant (l : List GWidget)
    (h : ReachW (fun w => w.dialogbase = true → w.allowchildren = true) l) :
    orderOk l :=
  orderOk_of_invW (invW_of_reach h)

lemma reach_single (P : GWidget → Prop) (w : GWidget) (hw : P w)
    (hz : w.zindex = 0) : ReachW P [w] := by
  have h := ReachW.create w 0 [] hw hz ReachW.nil
  have e : gui_linkedlist_widgetadd [] w 0 = [w] := rfl
  rw [e] at h
  exact h

/-- Witness for `zorder_group_invariant` at a concrete reachable list. -/
theorem zorder_group_invariant_witness :
    orderOk [(⟨false, false, 0⟩ : GWidget)] :=
  zorder_group_invariant [(⟨false, false, 0⟩ : GWidget)]
    (reach_single _ (⟨false, false, 0⟩ : GWidget) (by simp) rfl)

/-- C1 counterexample: the claim as stated is false.  A dialog-base widget
type that does not allow children (both capability flags are independent
fields of the externally supplied type descriptor) can be pushed *below* a
plain widget by `gui_linkedlist_widgetmovetobottom`: the plain-widget
branch of the loop only checks the allow-children capability of the next
sibling, not its dialog-base capability.  Concretely, create a plain
widget `P`, create a dialog-base widget `D` without children support, then
move `P` to the bottom: the resulting list is `[D, P]`, where the
dialog-base node `D` precedes the non-dialog-base node `P`. -/
theorem zorder_group_invariant_cex :
    ReachW (fun _ => True) [(⟨true, false, 0⟩ : GWidget),
      (⟨false, false, 0⟩ : GWidget)] ∧
    ¬ orderOk [(⟨true, false, 0⟩ : GWidget), (⟨false, false, 0⟩ : GWidget)] := by
  constructor
  · have h1 : ReachW (fun _ => True) [(⟨false, false, 0⟩ : GWidget)] :=
      reach_single _ _ trivial rfl
    have h2 := ReachW.create (⟨true, false, 0⟩ : GWidget) 0
      [(⟨false, false, 0⟩ : GWidget)] trivial rfl h1
    have e2 : gui_linkedlist_widgetadd [(⟨false, false, 0⟩ : GWidget)]
        (⟨true, false, 0⟩ : GWidget) 0
        = [(⟨false, false, 0⟩ : GWidget), (⟨true, false, 0⟩ : GWidget)] := rfl
    rw [e2] at h2
    have h3 := ReachW.bottom (⟨false, false, 0⟩ : GWidget) []
      [(⟨true, false, 0⟩ : GWidget)] h2
    have e3 : assemble (⟨false, false, 0⟩ : GWidget)
        (gui_linkedlist_widgetmovetobottom [] (⟨false, false, 0⟩ : GWidget)
          [(⟨true, false, 0⟩ : GWidget)])
        = [(⟨true, false, 0⟩ : GWidget), (⟨false, false, 0⟩ : GWidget)] := rfl
    rw [e3] at h3
    exact h3
  · intro hord
    exact absurd ((List.chain'_cons.mp hord).1.1 (by decide)) (by decide)

/-- C3 exhibit: `gui_linkedlist_widgetmovetotop` returns its uninitialised
counter.  On the sibling list `[A, B]` with `A` plain and `B` dialog-base
(both z-index `0`), moving `B` to the top performs zero single-step moves
(the first step is blocked because the previous widget is not a
dialog-base), yet the returned value is whatever the indeterminate initial
value of the local `cnt` happened to be — `7` or `42` below, not the `0`
the claim and the function's own doc comment require.
`gui_linkedlist_widgetmovetobottom`, whose counter is initialised to `0`,
returns the correct count `0` on the mirrored input. -/
theorem movetotop_uninitialised_counter :
    gui_linkedlist_widgetmovetotop 7 [(⟨false, false, 0⟩ : GWidget)]
        (⟨true, false, 0⟩ : GWidget) []
      = (7, [(⟨false, false, 0⟩ : GWidget)], []) ∧
    gui_linkedlist_widgetmovetotop 42 [(⟨false, false, 0⟩ : GWidget)]
        (⟨true, false, 0⟩ : GWidget) []
      = (42, [(⟨false, false, 0⟩ : GWidget)], []) ∧
    gui_linkedlist_widgetmovetobottom [] (⟨false, false, 0⟩ : GWidget)
        [(⟨false, true, 0⟩ : GWidget)]
      = (0, [], [(⟨false, true, 0⟩ : GWidget)]) := by
  refine ⟨rfl, rfl, rfl⟩

/-- C9: dismissing a node that has no entry in the dialog registry is a
no-op — the return value is `0`, the registry is untouched (so no status
is stored and no entry or semaphore is affected) and no callback,
semaphore release or widget removal takes place. -/
theorem dismiss_unregistered_noop (idOf : Nat → Nat) (dd : List DialogEntry)
    (h : Nat) (status : Int) (hnone : get_dialog idOf dd h = none) :
    gui_dialog_dismiss idOf dd h status = (0, dd, []) := by
  unfold get_dialog at hnone
  unfold gui_dialog_dismiss
  have hidx : dd.findIdx? (fun l => l.hid == h && l.id == idOf h) = none := by
    rw [List.findIdx?_eq_none_iff]
    intro x hx
    have := List.find?_eq_none.mp hnone x hx
    simpa using this
  rw [hidx]

/-- Witness for `dismiss_unregistered_noop` on a concrete registry. -/
theorem dismiss_unregistered_noop_witness :
    gui_dialog_dismiss (fun n => n) [(⟨5, 9, 0, false, false⟩ : DialogEntry)]
      1 3 = (0, [(⟨5, 9, 0, false, false⟩ : DialogEntry)], []) :=
  dismiss_unregistered_noop (fun n => n)
    [(⟨5, 9, 0, false, false⟩ : DialogEntry)] 1 3 (by decide)

/-- C10: `gui_dialog_dismiss` returns `0` for every input — the local
`ret` is initialised to `0` and never reassigned, so even a fully carried
out dismissal (registry hit, status store, callback, deregistration or
semaphore release, widget removal) reports `0`; the result never
distinguishes a successful dismissal from a no-op. -/
theorem dismiss_always_returns_zero (idOf : Nat → Nat) (dd : List DialogEntry)
    (h : Nat) (status : Int) :
    (gui_dialog_dismiss idOf dd h status).1 = 0 := by
  unfold gui_dialog_dismiss
  cases hf : dd.findIdx? (fun l => l.hid == h && l.id == idOf h) with
  | none => rfl
  | some i =>
    cases hg : dd[i]? with
    | none => simp only [hg]
    | some l =>
      simp only [hg]
      dsimp only
      split <;> rfl

/-- C4: on a well-formed subtree, `guii_widget_remove` succeeds if and
only if the removability check passes: it always fails for the desktop
node, fails when the node's type callback vetoes, and fails when any
descendant is non-removable (the check runs depth-first and
short-circuits); on failure it returns `0` and leaves the subtree and
the global remove bit completely unchanged, and on success it sets the
being-removed flag on the widget and schedules the sweep by setting the
global `GUI_FLAG_REMOVE` bit. -/
theorem widget_remove_iff_removable (t : WTree) (g : Bool)
    (hwf : wfTree t) :
    ((guii_widget_remove t g).1 = 1 ↔ removableSpec t) ∧
    (t.root.isdesktop = true → (guii_widget_remove t g).1 = 0) ∧
    (t.root.vetoRemove = true → (guii_widget_remove t g).1 = 0) ∧
    ((guii_widget_remove t g).1 = 0 →
      (guii_widget_remove t g).2.1 = t ∧
      (guii_widget_remove t g).2.2 = g) ∧
    ((guii_widget_remove t g).1 = 1 →
      (guii_widget_remove t g).2.1 = setflag_remove t ∧
      (guii_widget_remove t g).2.2 = true) := by
  cases t with
  | node i cs =>
    have hiff := can_remove_widget_iff (WTree.node i cs) hwf
    rcases hcr : can_remove_widget (WTree.node i cs) with _ | _
    · have hns : ¬ removableSpec (WTree.node i cs) := by
        rw [← hiff]
        simp [hcr]
      refine ⟨by simp [guii_widget_remove, hcr, hns], ?_, ?_, ?_, ?_⟩
      · intro _
        simp [guii_widget_remove, hcr]
      · intro _
        simp [guii_widget_remove, hcr]
      · intro _
        simp [guii_widget_remove, hcr]
      · intro h1
        exact absurd h1 (by simp [guii_widget_remove, hcr])
    · have hs : removableSpec (WTree.node i cs) := hiff.mp hcr
      have hsd : i.isdesktop = false ∧ i.vetoRemove = false := by
        rw [removableSpec] at hs
        exact ⟨hs.1, hs.2.1⟩
      refine ⟨by simp [guii_widget_remove, hcr, hs], ?_, ?_, ?_, ?_⟩
      · intro hd
        rw [WTree.root] at hd
        rw [hsd.1] at hd
        cases hd
      · intro hv
        rw [WTree.root] at hv
        rw [hsd.2] at hv
        cases hv
      · intro h0
        exact absurd h0 (by simp [guii_widget_remove, hcr])
      · intro _
        simp [guii_widget_remove, hcr]

/-- C4, witness: a container with one removable child is removed
successfully and the sweep is scheduled. -/
theorem widget_remove_iff_removable_witness :
    (guii_widget_remove
        (WTree.node ⟨1, false, false, true, false, false, false⟩
          [WTree.node ⟨2, false, false, false, false, false, false⟩ []])
        false).1 = 1 ∧
    (guii_widget_remove
        (WTree.node ⟨1, false, false, true, false, false, false⟩
          [WTree.node ⟨2, false, false, false, false, false, false⟩ []])
        false).2.2 = true := by
  have hwf : wfTree (WTree.node ⟨1, false, false, true, false, false, false⟩
      [WTree.node ⟨2, false, false, false, false, false, false⟩ []]) := by
    simp [wfTree, wfTreeL]
  have h := widget_remove_iff_removable
    (WTree.node ⟨1, false, false, true, false, false, false⟩
      [WTree.node ⟨2, false, false, false, false, false, false⟩ []])
    false hwf
  have hs : removableSpec
      (WTree.node ⟨1, false, false, true, false, false, false⟩
        [WTree.node ⟨2, false, false, false, false, false, false⟩ []]) := by
    simp [removableSpec, removableSpecL]
  have h1 := h.1.mpr hs
  exact ⟨h1, (h.2.2.2.2 h1).2⟩

/-- C6: `guii_widget_create` returns a null handle exactly when the
type's declared size is below the base node size, or below the
container-node size although allow-children is declared, or allocation
fails, or the pre-init hook vetoes; in every failure case the widget is
not linked into the sibling list and no allocated memory is retained. -/
theorem widget_create_failure_modes (d : WDesc) (env : CreateEnv)
    (sib : List GWidget) :
    ((guii_widget_create d env sib).1 = none ↔
      d.size < env.baseSize ∨
      (d.allowchildren = true ∧ d.size < env.rootSize) ∨
      env.allocOk = false ∨ env.preInitVeto = true) ∧
    ((guii_widget_create d env sib).1 = none →
      (guii_widget_create d env sib).2.1 = sib ∧
      (guii_widget_create d env sib).2.2 = false) := by
  unfold guii_widget_create
  split_ifs with h1 h2 h3 h4 <;> simp_all <;> tauto

/-- C8: `gui_widget_focus_set` is a no-op when the target is already
focused.  Otherwise, writing the old focus as `df ++ c` and the target
as `dh ++ c` with `c` their nearest common ancestor (no longer suffix of
the old focus path lies on the target's path), the call leaves the
target as the focused widget, emits focus-out and invalidation events on
each node of the old path strictly below `c` followed by focus-in and
invalidation events on each node of the target's path strictly below
`c`, clears the focus flag on the former nodes and sets it on the
latter.  With no current focus the walk starts instead from the root's
first child `rc`. -/
theorem gui_widget_focus_set_correct
    (root : Option (List Nat)) (st : FocusState)
    (f h c df dh rc dh2 : List Nat)
    (hf : st.focusedWidget = some f)
    (hne : h ≠ f)
    (hfd : f = df ++ c) (hhd : h = dh ++ c) (hc : c ≠ [])
    (hmax : ∀ d ∈ df.tails, d ≠ [] → innerScan (d ++ c) h = none)
    (hroot : root = some rc) (hh2 : h = dh2 ++ rc) (hrc : rc ≠ []) :
    ((gui_widget_focus_set root st h).1.focusedWidget = some h ∧
      (gui_widget_focus_set root st h).2 = outEvents df c ++ inEvents dh c ∧
      (∀ z, (gui_widget_focus_set root st h).1.focusFlag z =
        if z ∈ walkNodes dh c then true
        else if z ∈ walkNodes df c then false
        else st.focusFlag z)) ∧
    (∀ st2 : FocusState, st2.focusedWidget = some h →
      gui_widget_focus_set root st2 h = (st2, [])) ∧
    (∀ st3 : FocusState, st3.focusedWidget = none →
      (gui_widget_focus_set root st3 h).1.focusedWidget = some h ∧
      (gui_widget_focus_set root st3 h).2 = inEvents dh2 rc ∧
      (∀ z, (gui_widget_focus_set root st3 h).1.focusFlag z =
        if z ∈ walkNodes dh2 rc then true else st3.focusFlag z)) := by
  have hcom : get_common_parentwidget root f h = some c := by
    rw [hfd, hhd]
    exact get_common_eq root c dh hc df (by rw [← hhd]; exact hmax)
  refine ⟨?_, ?_, ?_⟩
  · have hne' : st.focusedWidget ≠ some h := by
      rw [hf]
      intro he
      exact hne (Option.some_inj.mp he).symm
    have h1 := focus_out_walk_eq c df st.focusFlag
    rw [← hfd] at h1
    have h2 := focus_in_walk_eq c dh
      (fun z => if z ∈ walkNodes df c then false else st.focusFlag z)
    rw [← hhd] at h2
    rw [gui_widget_focus_set.eq_def, if_neg hne', hf]
    dsimp only
    rw [hcom]
    dsimp only
    rw [h1]
    dsimp only
    rw [h2]
    exact ⟨rfl, rfl, fun z => rfl⟩
  · intro st2 h2
    rw [gui_widget_focus_set.eq_def, if_pos h2]
  · intro st3 h3
    have hne3 : st3.focusedWidget ≠ some h := by
      rw [h3]
      intro he
      cases he
    have h2 := focus_in_walk_eq rc dh2 st3.focusFlag
    rw [← hh2] at h2
    rw [gui_widget_focus_set.eq_def, if_neg hne3, h3, hroot]
    dsimp only
    rw [h2]
    exact ⟨rfl, rfl, fun z => rfl⟩

/-- C8, witness: with desktop path `[0]`, old focus `[1,0]` and target
`[2,0]`, the nearest common ancestor is the desktop `[0]`; the call
focuses `[2,0]`, emits focus-out/invalidate on `[1,0]` then
focus-in/invalidate on `[2,0]` and sets the focus flag on `[2,0]`. -/
theorem gui_widget_focus_set_correct_witness :
    (gui_widget_focus_set (some [0])
        ⟨some [1, 0], fun z => z = [1, 0]⟩ [2, 0]).1.focusedWidget
      = some [2, 0] ∧
    (gui_widget_focus_set (some [0])
        ⟨some [1, 0], fun z => z = [1, 0]⟩ [2, 0]).2
      = outEvents [1] [0] ++ inEvents [2] [0] ∧
    (gui_widget_focus_set (some [0])
        ⟨some [1, 0], fun z => z = [1, 0]⟩ [2, 0]).1.focusFlag [2, 0]
      = true ∧
    (gui_widget_focus_set (some [0])
        ⟨some [1, 0], fun z => z = [1, 0]⟩ [2, 0]).1.focusFlag [1, 0]
      = false := by
  have H := gui_widget_focus_set_correct (some [0])
    ⟨some [1, 0], fun z => z = [1, 0]⟩
    [1, 0] [2, 0] [0] [1] [2] [0] [2]
    rfl (by decide) rfl rfl (by decide)
    (by decide) rfl rfl (by decide)
  refine ⟨H.1.1, H.1.2.1, ?_, ?_⟩
  · have h1 := H.1.2.2 [2, 0]
    rw [h1]
    simp [walkNodes]
  · have h1 := H.1.2.2 [1, 0]
    rw [h1]
    simp [walkNodes]

/-- C7: invalidating a widget that carries the ignore-invalidate flag
is a no-op — the call returns `0` and the state (all redraw flags, the
global redraw flag and the dirty rectangle) is returned unchanged.
Otherwise, after invalidating widget `A` with clip growth, `A`'s redraw
flag and the global redraw flag are set, the global dirty rectangle
contains `A`'s visible rectangle, and every later (stacked-above)
sibling whose visible rectangle overlaps `A`'s also has its redraw flag
set. -/
theorem invalidate_widget_correct (env : IEnv) (st : IState)
    (h : List Nat) (hne : h ≠ []) :
    (env.ignoreInv h = true → invalidate_widget env st h true = (0, st)) ∧
    (env.ignoreInv h = false →
      (invalidate_widget env st h true).2.redraw h = true ∧
      (invalidate_widget env st h true).2.guiRedraw = true ∧
      rectContains (invalidate_widget env st h true).2.disp (env.rect h) ∧
      (∀ s ∈ laterSibs env h, rectMatch (env.rect h) (env.rect s) = true →
        (invalidate_widget env st h true).2.redraw s = true)) := by
  cases h with
  | nil => exact absurd rfl hne
  | cons x t =>
    constructor
    · intro hig
      rw [invalidate_widget]
      simp [hig]
    · intro hig
      have H := invalidate_props env st x t hig
      refine ⟨H.1, H.2.1, ?_, H.2.2.2⟩
      rw [H.2.2.1]
      exact set_clipping_contains _ _

/-- C7, witness: invalidating widget `10` (rectangle `(0,0)-(10,10)`)
with the overlapping widget `11` (rectangle `(5,5)-(15,15)`) stacked
above it sets both redraw flags, the global redraw flag, and grows the
dirty rectangle over `10`'s visible rectangle. -/
theorem invalidate_widget_correct_witness :
    (invalidate_widget wEnv wSt [10] true).2.redraw [10] = true ∧
    (invalidate_widget wEnv wSt [10] true).2.guiRedraw = true ∧
    rectContains (invalidate_widget wEnv wSt [10] true).2.disp
      ⟨0, 0, 10, 10⟩ ∧
    (invalidate_widget wEnv wSt [10] true).2.redraw [11] = true := by
  have H := invalidate_widget_correct wEnv wSt [10] (by decide)
  have K := H.2 rfl
  refine ⟨K.1, K.2.1, ?_, ?_⟩
  · have h1 := K.2.2.1
    simpa [wEnv] using h1
  · apply K.2.2.2 [11]
    · simp [wEnv, laterSibs, afterIn]
    · decide

/-- C5: sweeping a flagged widget over a well-formed subtree with
distinct ids (the parent handle outside the subtree) removes the whole
subtree: all direct children of every flagged node are flagged and
recursively swept, each node is finalized with the event block
(invalidate with parent, free text, free timer and color array when
present, unlink, free) in postorder — children before their parent —
so a container with `N` removable descendants frees exactly `N + 1`
nodes, and afterwards none of the five global pointers (focus, previous
focus, active, previous active, active window) references a freed
widget. -/
theorem remove_widgets_sweep (rf p : Option Nat) (g : GuiPtrs)
    (i : RWidget) (cs : List WTree)
    (hflag : i.flagRemove = true)
    (hwf : wfTreeL [WTree.node i cs])
    (hnd : (postIds [WTree.node i cs]).Nodup)
    (hp : ∀ z ∈ postIds [WTree.node i cs], p ≠ some z) :
    (remove_widgets rf p [WTree.node i cs] g).1 = [] ∧
    (remove_widgets rf p [WTree.node i cs] g).2.2
      = postBlocks [WTree.node i cs] ∧
    freeIds (remove_widgets rf p [WTree.node i cs] g).2.2
      = postIds [WTree.node i cs] ∧
    (freeIds (remove_widgets rf p [WTree.node i cs] g).2.2).length
      = tsize (WTree.node i cs) ∧
    (∀ z ∈ postIds [WTree.node i cs],
      (remove_widgets rf p [WTree.node i cs] g).2.1.focusedWidget
        ≠ some z ∧
      (remove_widgets rf p [WTree.node i cs] g).2.1.focusedWidgetPrev
        ≠ some z ∧
      (remove_widgets rf p [WTree.node i cs] g).2.1.activeWidget
        ≠ some z ∧
      (remove_widgets rf p [WTree.node i cs] g).2.1.activeWidgetPrev
        ≠ some z ∧
      (remove_widgets rf p [WTree.node i cs] g).2.1.windowActive
        ≠ some z) := by
  have R := remove_widgets_all rf (lsizeT [WTree.node i cs])
    [WTree.node i cs] p g le_rfl ⟨hflag, trivial⟩ hwf hnd hp
  obtain ⟨e1, e2, P⟩ := R
  refine ⟨e1, e2, ?_, ?_, ?_⟩
  · rw [e2]
    exact freeIds_postBlocks (lsizeT [WTree.node i cs]) _ le_rfl
  · rw [e2, freeIds_postBlocks (lsizeT [WTree.node i cs]) _ le_rfl]
    rw [postIds_length (lsizeT [WTree.node i cs]) _ le_rfl]
    simp [lsizeT]
  · intro z hz
    exact P.2.2.2.2.2 z hz

/-- C5, witness: a flagged container (id 1, with a timer) holding two
leaf children (ids 2 and 3), with focus on widget 2, previous focus on
3, active widget 2, previous active and active window on 1: the sweep
empties the list, frees exactly ids 2, 3, 1 in that (postorder) order —
three nodes for two descendants — and no global pointer references id 2
afterwards. -/
theorem remove_widgets_sweep_witness :
    (remove_widgets none none
        [WTree.node ⟨1, false, false, true, true, true, false⟩
          [WTree.node ⟨2, false, false, false, false, false, false⟩ [],
           WTree.node ⟨3, false, false, false, false, false, false⟩ []]]
        ⟨some 2, some 3, some 2, some 1, some 1⟩).1 = [] ∧
    freeIds (remove_widgets none none
        [WTree.node ⟨1, false, false, true, true, true, false⟩
          [WTree.node ⟨2, false, false, false, false, false, false⟩ [],
           WTree.node ⟨3, false, false, false, false, false, false⟩ []]]
        ⟨some 2, some 3, some 2, some 1, some 1⟩).2.2 = [2, 3, 1] ∧
    (freeIds (remove_widgets none none
        [WTree.node ⟨1, false, false, true, true, true, false⟩
          [WTree.node ⟨2, false, false, false, false, false, false⟩ [],
           WTree.node ⟨3, false, false, false, false, false, false⟩ []]]
        ⟨some 2, some 3, some 2, some 1, some 1⟩).2.2).length = 3 ∧
    (remove_widgets none none
        [WTree.node ⟨1, false, false, true, true, true, false⟩
          [WTree.node ⟨2, false, false, false, false, false, false⟩ [],
           WTree.node ⟨3, false, false, false, false, false, false⟩ []]]
        ⟨some 2, some 3, some 2, some 1, some 1⟩).2.1.focusedWidget
      ≠ some 2 := by
  have H := remove_widgets_sweep none none
    ⟨some 2, some 3, some 2, some 1, some 1⟩
    ⟨1, false, false, true, true, true, false⟩
    [WTree.node ⟨2, false, false, false, false, false, false⟩ [],
     WTree.node ⟨3, false, false, false, false, false, false⟩ []]
    rfl
    (by simp [wfTreeL, wfTree])
    (by simp [postIds, postIdsT])
    (by intro z hz hc; exact Option.noConfusion hc)
  have hids : postIds
      [WTree.node ⟨1, false, false, true, true, true, false⟩
        [WTree.node ⟨2, false, false, false, false, false, false⟩ [],
         WTree.node ⟨3, false, false, false, false, false, false⟩ []]]
      = [2, 3, 1] := by
    simp [postIds, postIdsT]
  refine ⟨H.1, ?_, ?_, ?_⟩
  · rw [H.2.2.1, hids]
  · rw [H.2.2.1, hids]
    rfl
  · exact (H.2.2.2.2 2 (by rw [hids]; simp)).1

end EasyGUI
